import Mathlib

set_option linter.unusedSectionVars false

/-!
# ARIA UWB toolbox: time-domain antenna slice and group delay

A shallow embedding of `src/ant_build_time_domain_angle.cpp` and
`src/antenna_group_delay.cpp`.

* `double` values are elements of a linearly ordered field `K` with a floor
  function (exact arithmetic: `ℚ` for evaluation, `ℝ` for the transcendental
  facts); `std::complex<double>` values are elements of a field `C` that is a
  `K`-module.
* The library primitives the routines call (`M_PI`, `pow`, `std::exp` of an
  imaginary number, `std::arg`, `std::conj`, `unwrap`, `interp1`) and the
  constants `REF_DISTANCE`, `C0` of the toolbox header are the fields of a
  `Numerics` record that the routines take as an argument.
* Octave arrays are lists; `resize` fills with `resize_fill_value ()`, which is
  the zero of the element type; an element write is `List.set`.
* Where rounding decides a discrete outcome (the number of bins, the last bin
  against the Nyquist bound), the target grid is also given in double precision:
  `round_double` is the rounding of IEEE 754 binary64 on rationals, and
  `nsamples_double`, `df_double`, `fsim_max_double`, `freq_of_interests_double`
  are lines 43, 45, 90 and 151-172 with every rounding and the range of the
  32-bit `int` made explicit.
-/

namespace AriaUwb

/-! ## Numeric primitives -/

/-- Library functions and header constants used by the two routines. -/
structure Numerics (K C : Type) where
  /-- The constant `M_PI`. -/
  M_PI : K
  /-- The constant `REF_DISTANCE` of `aria_uwb_toolbox.h`. -/
  REF_DISTANCE : K
  /-- The constant `C0` of `aria_uwb_toolbox.h`. -/
  C0 : K
  /-- The function `pow (x, y)`. -/
  pow : K → K → K
  /-- The phasor `std::exp (std::complex (0.0, θ))`. -/
  cexp : K → C
  /-- The function `std::arg`. -/
  arg : C → K
  /-- The function `std::conj`. -/
  conj : C → C
  /-- The single-value `unwrap` of `aria_uwb_toolbox.h`. -/
  unwrap : K → K
  /-- The call `interp1 (x, y, xi, "linear", 0)` on complex samples. -/
  interp1 : List K → List C → List K → List C
  /-- The call `interp1 (x, y, xi, "linear", 0)` on real samples. -/
  interp1_real : List K → List K → List K → List K

section Arrays

variable {α : Type}

/-- The call `a.resize (dim_vector ({1, n}))` on a fresh array: `n` elements, each
the fill value `resize_fill_value ()`, which is the zero of the element type. -/
def resize [Zero α] (n : Nat) : List α :=
  List.replicate n 0

/-- The element `a.min ()(0)` of a row vector: the least element (`0` stands for
the missing element of an empty array, which the routine never handles). -/
def array_min [LinearOrder α] [Zero α] : List α → α
  | [] => 0
  | x :: xs => xs.foldl min x

/-- The element `a.max ()(0)` of a row vector: the greatest element (`0` stands
for the missing element of an empty array). -/
def array_max [LinearOrder α] [Zero α] : List α → α
  | [] => 0
  | x :: xs => xs.foldl max x

end Arrays

/-! ## `ant_build_time_domain_angle` -/

section TimeDomain

variable {K C : Type} [LinearOrderedField K] [FloorRing K] [Field C] [Module K C]

/-- The antenna fields after the five `interpn` calls (lines 71-84): one sample
per native frequency, at the requested azimuth and zenith. -/
structure AngleSlice (K C : Type) where
  freq_ant : List K
  ep_ant : List C
  et_ant : List C
  aeffp_ant : List C
  aefft_ant : List C
  dir_ant : List K

/-- The six padded arrays that are handed to `interp1`. -/
structure StartArrays (K C : Type) where
  freq_start : List K
  ep_start : List C
  et_start : List C
  aeffp_start : List C
  aefft_start : List C
  dir_start : List K

/-- Line 43: `int nsamples = std::floor (tmax / ts)`, read in exact arithmetic: the
quotient is not rounded and the integer has no bound. The rounded quotient and the
range of the 32-bit `int` are in `nsamples_double`. -/
def nsamples (tmax ts : K) : Int :=
  Int.floor (tmax / ts)

/-- Line 45: `double df = 1.0 / (double (nsamples) * ts)`, read in exact arithmetic.
For `nsamples = 0` the `double` is infinite and the field value is `1 / 0 = 0`: `df`
stands for the code's value when `nsamples` is not 0. The two roundings are in
`df_double`. -/
def df (tmax ts : K) : K :=
  1 / (((nsamples tmax ts : Int) : K) * ts)

/-- Line 89: `double f_skip = 1e9`. -/
def f_skip : K := 1000000000

/-- Line 90: `double fsim_max = 1.0 / (ts * 2.0)`. -/
def fsim_max (ts : K) : K :=
  1 / (ts * 2)

/-- Lines 93-96: the number of samples put in front of the native axis. -/
def extra_freqs_low (f_ant_min df : K) : Nat :=
  if f_ant_min < df then 0 else 2

/-- Lines 98-101: the number of samples put after the native axis. -/
def extra_freqs_high (f_ant_max fsim_max : K) : Nat :=
  if f_ant_max > fsim_max then 0 else 2

/-- Lines 111-116: the six arrays after `resize`. -/
def resized_arrays (n : Nat) : StartArrays K C :=
  { freq_start := resize n
    ep_start := resize n
    et_start := resize n
    aeffp_start := resize n
    aefft_start := resize n
    dir_start := resize n }

/-- Lines 121-132: the writes of the branch `extra_freqs_low == 2`. -/
def pad_low (f_ant_min : K) (low : Nat) (st : StartArrays K C) : StartArrays K C :=
  if low = 2 then
    let fminskip := f_ant_min - f_skip
    let fminhalf := f_ant_min / 2
    { freq_start := (st.freq_start.set 0 0).set 1 (if fminskip > fminhalf then fminskip else fminhalf)
      ep_start := (st.ep_start.set 0 0).set 1 0
      et_start := (st.et_start.set 0 0).set 1 0
      aeffp_start := (st.aeffp_start.set 0 0).set 1 0
      aefft_start := (st.aefft_start.set 0 0).set 1 0
      dir_start := (st.dir_start.set 0 0).set 1 0 }
  else st

/-- Lines 134-149: the writes of the branch `extra_freqs_high == 2`; the last
statement of the branch writes `dir_start (0)` and `dir_start (1)`. -/
def pad_high (f_ant_max fsim_max : K) (nf_start low high : Nat) (st : StartArrays K C) :
    StartArrays K C :=
  if high = 2 then
    let n_end := nf_start + low + high - 1
    let n_end_1 := n_end - 1
    let fmaxskip := f_ant_max + f_skip
    let fmaxhalf := (f_ant_max + fsim_max) / 2
    { freq_start := (st.freq_start.set n_end 0).set n_end_1
        (if fmaxskip < fmaxhalf then fmaxskip else fmaxhalf)
      ep_start := (st.ep_start.set n_end_1 0).set n_end 0
      et_start := (st.et_start.set n_end_1 0).set n_end 0
      aeffp_start := (st.aeffp_start.set n_end_1 0).set n_end 0
      aefft_start := (st.aefft_start.set n_end_1 0).set n_end 0
      dir_start := (st.dir_start.set 0 0).set 1 0 }
  else st

/-- Line 184: `double delay = REF_DISTANCE / C0 - fixed_delay`. -/
def delay (env : Numerics K C) (fixed_delay : K) : K :=
  env.REF_DISTANCE / env.C0 - fixed_delay

/-- Line 185: `double loss_factor = pow (10.0, loss / 20.0)`. -/
def loss_factor (env : Numerics K C) (loss : K) : K :=
  env.pow 10 (loss / 20)

/-- Line 191: `loss_factor * std::exp (std::complex (0.0, 2.0 * M_PI * curr_freq * delay))`. -/
def comp_delay (env : Numerics K C) (fixed_delay loss curr_freq : K) : C :=
  loss_factor env loss • env.cexp (2 * env.M_PI * curr_freq * delay env fixed_delay)

/-- Lines 189-196: one pass of the body of the loop that copies the native
samples, for the loop counters `fs` and `f = extra_freqs_low + fs`. The interpolated
arrays have one sample per native frequency; `getD` reads them. -/
def fill_step (env : Numerics K C) (ant : AngleSlice K C) (fixed_delay loss : K) (low : Nat)
    (st : StartArrays K C) (fs : Nat) : StartArrays K C :=
  let f := low + fs
  let curr_freq := ant.freq_ant.getD fs 0
  let cd := comp_delay env fixed_delay loss curr_freq
  { freq_start := st.freq_start.set f curr_freq
    ep_start := st.ep_start.set f (ant.ep_ant.getD fs 0 * cd)
    et_start := st.et_start.set f (ant.et_ant.getD fs 0 * cd)
    aeffp_start := st.aeffp_start.set f (ant.aeffp_ant.getD fs 0 * cd)
    aefft_start := st.aefft_start.set f (ant.aefft_ant.getD fs 0 * cd)
    dir_start := st.dir_start.set f (ant.dir_ant.getD fs 0) }

/-- Lines 187-197: the loop `for (int fs = 0, f = extra_freqs_low; fs < nf_start; fs++, f++)`. -/
def fill_loop (env : Numerics K C) (ant : AngleSlice K C) (fixed_delay loss : K)
    (low nf_start : Nat) (st : StartArrays K C) : StartArrays K C :=
  (List.range nf_start).foldl (fill_step env ant fixed_delay loss low) st

/-- Lines 86-149: the arrays when the loop of line 187 starts. -/
def padded_arrays (ant : AngleSlice K C) (tmax ts : K) : StartArrays K C :=
  let nf_start := ant.freq_ant.length
  let f_ant_min := array_min ant.freq_ant
  let f_ant_max := array_max ant.freq_ant
  let low := extra_freqs_low f_ant_min (df tmax ts)
  let high := extra_freqs_high f_ant_max (fsim_max ts)
  pad_high f_ant_max (fsim_max ts) nf_start low high
    (pad_low f_ant_min low (resized_arrays (nf_start + low + high)))

/-- Lines 86-197: the arrays that are handed to `interp1` at line 200. -/
def start_arrays (env : Numerics K C) (ant : AngleSlice K C)
    (tmax ts fixed_delay loss : K) : StartArrays K C :=
  let low := extra_freqs_low (array_min ant.freq_ant) (df tmax ts)
  fill_loop env ant fixed_delay loss low ant.freq_ant.length (padded_arrays ant tmax ts)

/-- The frequencies of the samples in front of the native axis: `0` and
`max (fmin - 1e9, fmin / 2)` when two samples are added. -/
def low_pad_freqs (f_ant_min : K) (low : Nat) : List K :=
  if low = 2 then [0, max (f_ant_min - f_skip) (f_ant_min / 2)] else []

/-- The frequencies of the samples after the native axis: `min (fmax + 1e9,
(fmax + fsim_max) / 2)` and `0` when two samples are added. -/
def high_pad_freqs (f_ant_max fsim_max : K) (high : Nat) : List K :=
  if high = 2 then [min (f_ant_max + f_skip) ((f_ant_max + fsim_max) / 2), 0] else []

/-- Lines 152, 155, 169: the index of the last bin; `%` and `/` on `int` truncate
towards zero. -/
def fft_half_max (nsamples : Int) : Int :=
  if nsamples.tmod 2 = 1 then (nsamples - 1).tdiv 2 else nsamples.tdiv 2

/-- Lines 156-158 and 170-172: the target grid, resized to `fft_half_max + 1` bins
and written by the loop `for (int f = 0; f <= fft_half_max; f++)`. -/
def freq_of_interests (tmax ts : K) : List K :=
  let n := (fft_half_max (nsamples tmax ts) + 1).toNat
  (List.range n).foldl (fun a f => a.set f ((f : K) * df tmax ts)) (resize n)

/-- The four resampled complex arrays and the running phasor of lines 206-215. -/
structure RampState (C : Type) where
  epi : List C
  eti : List C
  aepi : List C
  aeti : List C
  comp_delay : C

/-- Line 207: `std::exp (std::complex (0.0, -2.0 * M_PI * df * delay))`. -/
def dexp (env : Numerics K C) (tmax ts fixed_delay : K) : C :=
  env.cexp (-2 * env.M_PI * df tmax ts * delay env fixed_delay)

/-- Lines 210-214: one pass of the body of the loop over the bins. -/
def ramp_step (dexp : C) (st : RampState C) (fi : Nat) : RampState C :=
  { epi := st.epi.set fi (st.epi.getD fi 0 * st.comp_delay)
    eti := st.eti.set fi (st.eti.getD fi 0 * st.comp_delay)
    aepi := st.aepi.set fi (st.aepi.getD fi 0 * st.comp_delay)
    aeti := st.aeti.set fi (st.aeti.getD fi 0 * st.comp_delay)
    comp_delay := st.comp_delay * dexp }

/-- Lines 205-215: the loop `for (int fi = 0; fi < n_foi; fi++)`, started with
`comp_delay = 1`. -/
def ramp_loop (dexp : C) (n_foi : Nat) (epi eti aepi aeti : List C) : RampState C :=
  (List.range n_foi).foldl (ramp_step dexp)
    { epi := epi, eti := eti, aepi := aepi, aeti := aeti, comp_delay := 1 }

/-- The fields that lines 217-234 assign to the returned record. -/
structure TimeDomainFields (K C : Type) where
  td_freqs : List K
  td_ep : List C
  td_et : List C
  td_aeffp : List C
  td_aefft : List C
  td_az : K
  td_zen : K
  td_tmax : K
  td_ts : K
  n_ffts : Int
  td_delay : K
  td_loss : K
  td_dir_abs : List K

/-- Lines 43-234 of `ant_build_time_domain_angle`, from the fields at the requested
angle to the values of the assigned fields. -/
def ant_build_time_domain_angle (env : Numerics K C) (ant : AngleSlice K C)
    (tmax ts az_angle zen_angle fixed_delay loss : K) : TimeDomainFields K C :=
  let st := start_arrays env ant tmax ts fixed_delay loss
  let foi := freq_of_interests tmax ts
  let out := ramp_loop (dexp env tmax ts fixed_delay) foi.length
    (env.interp1 st.freq_start st.ep_start foi)
    (env.interp1 st.freq_start st.et_start foi)
    (env.interp1 st.freq_start st.aeffp_start foi)
    (env.interp1 st.freq_start st.aefft_start foi)
  { td_freqs := foi
    td_ep := out.epi
    td_et := out.eti
    td_aeffp := out.aepi
    td_aefft := out.aeti
    td_az := az_angle
    td_zen := zen_angle
    td_tmax := tmax
    td_ts := ts
    n_ffts := nsamples tmax ts
    td_delay := fixed_delay
    td_loss := loss
    td_dir_abs := env.interp1_real st.freq_start st.dir_start foi }

end TimeDomain

/-- The index `K` of the last bin in the words of the specification: `N / 2` for
even `N`, `(N - 1) / 2` for odd `N`. -/
def spec_last_bin (N : Int) : Int :=
  if N % 2 = 0 then N / 2 else (N - 1) / 2

/-- The rotating phasor in the words of the specification: `r_0 = 1` and
`r_{k+1} = r_k * dexp`. -/
def spec_phase_ramp {C : Type} [Field C] (dexp : C) : Nat → C
  | 0 => 1
  | k + 1 => spec_phase_ramp dexp k * dexp

/-- Stand-ins over `ℚ` for the library primitives, for evaluating the parts of the
routines that do not depend on them (pad counts, frequency axes, array sizes). -/
def rational_stub : Numerics ℚ ℚ :=
  { M_PI := 22 / 7
    REF_DISTANCE := 1
    C0 := 299792458
    pow := fun _ _ => 1
    cexp := fun _ => 1
    arg := fun _ => 0
    conj := fun z => z
    unwrap := fun x => x
    interp1 := fun _ _ xi => xi.map (fun _ => 0)
    interp1_real := fun _ _ xi => xi.map (fun _ => 0) }

/-- The primitives in exact arithmetic over `ℝ` and `ℂ`; the header constants,
`unwrap` and the interpolation routine remain arguments. -/
noncomputable def exact_numerics (REF_DISTANCE C0 : ℝ) (unwrap : ℝ → ℝ)
    (interp1 : List ℝ → List ℂ → List ℝ → List ℂ)
    (interp1_real : List ℝ → List ℝ → List ℝ → List ℝ) : Numerics ℝ ℂ :=
  { M_PI := Real.pi
    REF_DISTANCE := REF_DISTANCE
    C0 := C0
    pow := fun x y => x ^ y
    cexp := fun θ => Complex.exp (Complex.mk 0 θ)
    arg := Complex.arg
    conj := fun z => (starRingEnd ℂ) z
    unwrap := unwrap
    interp1 := interp1
    interp1_real := interp1_real }

/-- The exact primitives with the header constants `REF_DISTANCE = 1`,
`C0 = 299792458` and trivial stand-ins for `unwrap` and the interpolation. -/
noncomputable def sample_exact : Numerics ℝ ℂ :=
  exact_numerics 1 299792458 (fun x => x) (fun _ _ xi => xi.map (fun _ => 0))
    (fun _ _ xi => xi.map (fun _ => 0))

/-- A stand-in for `interp1` that returns, at a query equal to a node, the value
stored at the first such node, and 0 at any other query. -/
noncomputable def node_lookup (x : List ℝ) (y : List ℂ) (xi : List ℝ) : List ℂ :=
  xi.map (fun q => y.getD (x.indexOf q) 0)

/-- The exact primitives with `REF_DISTANCE = 1`, `C0 = 299792458` and
`node_lookup` for the complex interpolation. -/
noncomputable def sample_exact_lookup : Numerics ℝ ℂ :=
  exact_numerics 1 299792458 (fun x => x) node_lookup (fun _ _ xi => xi.map (fun _ => 0))

/-- A two-frequency slice over `ℝ` and `ℂ`: native axis `[1/4, 1/2]`. -/
noncomputable def sample_slice_real : AngleSlice ℝ ℂ :=
  { freq_ant := [1 / 4, 1 / 2]
    ep_ant := [3, Complex.I]
    et_ant := [5, 6]
    aeffp_ant := [7, 8]
    aefft_ant := [9, 10]
    dir_ant := [11, 12] }

/-- A two-frequency slice over `ℚ`: native axis `[1/4, 1/2]`. -/
def sample_slice : AngleSlice ℚ ℚ :=
  { freq_ant := [1 / 4, 1 / 2]
    ep_ant := [3, 4]
    et_ant := [5, 6]
    aeffp_ant := [7, 8]
    aefft_ant := [9, 10]
    dir_ant := [11, 12] }

/-! ## `antenna_group_delay` -/

section GroupDelay

variable {K C : Type} [LinearOrderedField K] [Field C]

/-- The fields of the antenna record that `antenna_group_delay` reads (lines
55-63); `ep a z f` is the element `ep.xelem (a, z, f)`. -/
structure AntennaFields (K C : Type) where
  ep : Nat → Nat → Nat → C
  et : Nat → Nat → Nat → C
  azimuth : List K
  zenith : List K
  freq : List K
  fixed_delay : K

/-- The two output arrays, stored column-major with dimensions
`(naz, nzen, nf - 1)`. -/
structure GroupDelayFields (K : Type) where
  dims : Int × Int × Int
  gd_p : List K
  gd_t : List K

/-- What the call leaves behind: the text printed on `octave_stdout` with the empty
value returned (lines 47-51 and 66-70), an exception that leaves the routine before
anything is computed or returned (Octave reports it as an error), or the two
assigned fields. -/
inductive GroupDelayResult (K : Type) where
  | printed (msg : String) : GroupDelayResult K
  | raised (what : String) : GroupDelayResult K
  | fields (out : GroupDelayFields K) : GroupDelayResult K

/-- The position of element `(a, z, f)` in the storage of an array whose first two
dimensions are `naz` and `nzen`. -/
def xelem_index (naz nzen a z f : Nat) : Nat :=
  a + naz * (z + nzen * f)

/-- Lines 91-93 and 98-100: the value stored for one direction, one interval and
one polarization, `x1` and `x0` being the field at `f + 1` and at `f`. -/
def group_delay_value (env : Numerics K C) (fixed_delay freq1 freq0 : K) (x1 x0 : C) : K :=
  let delay := env.REF_DISTANCE / env.C0
  let df := freq1 - freq0
  let d_omega := 2 * env.M_PI * df
  let reference_comp := env.cexp (d_omega * delay)
  let d_phase := env.unwrap (env.arg (reference_comp * x1 * env.conj x0))
  let dp_dw := d_phase / d_omega
  fixed_delay + delay + dp_dw

/-- Lines 87-100: the body of the innermost loop. -/
def gd_store (env : Numerics K C) (ant : AntennaFields K C) (naz nzen f a : Nat)
    (st : List K × List K) (z : Nat) : List K × List K :=
  let freq1 := ant.freq.getD (f + 1) 0
  let freq0 := ant.freq.getD f 0
  (st.1.set (xelem_index naz nzen a z f)
      (group_delay_value env ant.fixed_delay freq1 freq0 (ant.ep a z (f + 1)) (ant.ep a z f)),
   st.2.set (xelem_index naz nzen a z f)
      (group_delay_value env ant.fixed_delay freq1 freq0 (ant.et a z (f + 1)) (ant.et a z f)))

/-- Lines 76-103: the three nested loops over `f`, `a` and `z`. -/
def gd_loops (env : Numerics K C) (ant : AntennaFields K C) (naz nzen nint : Nat)
    (st : List K × List K) : List K × List K :=
  (List.range nint).foldl
    (fun st f => (List.range naz).foldl
      (fun st a => (List.range nzen).foldl (gd_store env ant naz nzen f a) st) st) st

/-- Lines 46-107 of `antenna_group_delay`: `check` is the text returned by
`antenna_is_valid` (`none` when it is empty). A fresh array holds zeros. At line 71
the constructor `NDArray (dim_vector ({naz, nzen, nf - 1}))` counts the elements with
`dim_vector::safe_numel` of the Octave array library, which throws `std::bad_alloc`
when a dimension is negative: for `nf = 0` the test of line 66 fails, the dimension
`nf - 1` is `-1` and the exception leaves the routine. -/
def antenna_group_delay (env : Numerics K C) (check : Option String) (ant : AntennaFields K C) :
    GroupDelayResult K :=
  match check with
  | some msg => GroupDelayResult.printed msg
  | none =>
    let naz := ant.azimuth.length
    let nzen := ant.zenith.length
    let nf : Int := ant.freq.length
    if nf = 1 then GroupDelayResult.printed "need at least two freq points"
    else if nf - 1 < 0 then GroupDelayResult.raised "std::bad_alloc"
    else
      let nint := (nf - 1).toNat
      let fresh : List K := List.replicate (naz * nzen * nint) 0
      let st := gd_loops env ant naz nzen nint (fresh, fresh)
      GroupDelayResult.fields { dims := (naz, nzen, nf - 1), gd_p := st.1, gd_t := st.2 }

/-- The triples `(f, a, z)` in the order in which the loops of lines 76-103 visit
them. -/
def loop_triples (nint naz nzen : Nat) : List (Nat × Nat × Nat) :=
  (List.range nint).flatMap fun f =>
    (List.range naz).flatMap fun a => (List.range nzen).map fun z => (f, a, z)

/-- A record over `ℚ` with two azimuths, one zenith and three frequencies. -/
def sample_antenna : AntennaFields ℚ ℚ :=
  { ep := fun a z f => (a : ℚ) + 2 * z + 3 * f + 1
    et := fun a z f => 5 * (a : ℚ) + z + f + 2
    azimuth := [0, 1]
    zenith := [0]
    freq := [1, 2, 4]
    fixed_delay := 1 / 10 }

/-- A record over `ℚ` with two azimuths, one zenith and a single frequency. -/
def sample_antenna_one : AntennaFields ℚ ℚ :=
  { ep := fun a z f => (a : ℚ) + 2 * z + 3 * f + 1
    et := fun a z f => 5 * (a : ℚ) + z + f + 2
    azimuth := [0, 1]
    zenith := [0]
    freq := [1]
    fixed_delay := 1 / 10 }

/-- A record over `ℚ` with two azimuths, one zenith and an empty frequency axis. -/
def sample_antenna_empty : AntennaFields ℚ ℚ :=
  { ep := fun _ _ _ => 0
    et := fun _ _ _ => 0
    azimuth := [0, 1]
    zenith := [0]
    freq := []
    fixed_delay := 1 / 10 }

/-- A record over `ℝ` and `ℂ` with two azimuths, one zenith and three frequencies. -/
noncomputable def sample_antenna_real : AntennaFields ℝ ℂ :=
  { ep := fun a z f => Complex.mk (a + 1) (z + f)
    et := fun a z f => Complex.mk (f + 1) (a + z)
    azimuth := [0, 1]
    zenith := [0]
    freq := [1, 2, 4]
    fixed_delay := 1 / 10 }

end GroupDelay

/-! ## The antenna record -/

section Record

variable {K C : Type} [LinearOrderedField K] [FloorRing K] [Field C] [Module K C]

/-- The values held by the fields of an antenna record. -/
inductive octave_value (K C : Type) where
  | real_array (v : List K) : octave_value K C
  | complex_array (v : List C) : octave_value K C
  | real_scalar (v : K) : octave_value K C
  | int_scalar (v : Int) : octave_value K C

/-- An `octave_map` with a single element: the fields in order, with their values. -/
abbrev octave_map (K C : Type) : Type := List (String × octave_value K C)

/-- The test `m.contains (key)`. -/
def contains (m : octave_map K C) (key : String) : Bool :=
  List.any m (fun p => p.1 == key)

/-- The value `m.getfield (key)(0)` of a field, when the field is there. -/
def getfield (m : octave_map K C) (key : String) : Option (octave_value K C) :=
  List.lookup key m

/-- The call `m.assign (key, v)`: the field is given the value `v` when it is
there, and is added after the other fields when it is not. -/
def assign (m : octave_map K C) (key : String) (v : octave_value K C) : octave_map K C :=
  if contains m key then List.map (fun p => if p.1 == key then (key, v) else p) m
  else m ++ [(key, v)]

/-- Lines 217-234: the thirteen assignments, in the order of the source. -/
def assign_time_domain (ant : octave_map K C) (out : TimeDomainFields K C) : octave_map K C :=
  let m1 := assign ant "td_freqs" (octave_value.real_array out.td_freqs)
  let m2 := assign m1 "td_ep" (octave_value.complex_array out.td_ep)
  let m3 := assign m2 "td_et" (octave_value.complex_array out.td_et)
  let m4 := assign m3 "td_aeffp" (octave_value.complex_array out.td_aeffp)
  let m5 := assign m4 "td_aefft" (octave_value.complex_array out.td_aefft)
  let m6 := assign m5 "td_az" (octave_value.real_scalar out.td_az)
  let m7 := assign m6 "td_zen" (octave_value.real_scalar out.td_zen)
  let m8 := assign m7 "td_tmax" (octave_value.real_scalar out.td_tmax)
  let m9 := assign m8 "td_ts" (octave_value.real_scalar out.td_ts)
  let m10 := assign m9 "n_ffts" (octave_value.int_scalar out.n_ffts)
  let m11 := assign m10 "td_delay" (octave_value.real_scalar out.td_delay)
  let m12 := assign m11 "td_loss" (octave_value.real_scalar out.td_loss)
  assign m12 "td_dir_abs" (octave_value.real_array out.td_dir_abs)

/-- The names that lines 217-234 assign. -/
def time_domain_names : List String :=
  ["td_freqs", "td_ep", "td_et", "td_aeffp", "td_aefft", "td_az", "td_zen", "td_tmax",
    "td_ts", "n_ffts", "td_delay", "td_loss", "td_dir_abs"]

/-- The routine `ant_build_time_domain_angle` on the record (lines 38-41 and
217-235): `directivity` is the routine of that name, called when an aperture field
is missing, and `slice` stands for lines 48-84, the reading of the fields and their
interpolation at the requested angle by `interpn`. -/
def ant_build_record (env : Numerics K C) (directivity : octave_map K C → octave_map K C)
    (slice : octave_map K C → AngleSlice K C) (antenna : octave_map K C)
    (tmax ts az_angle zen_angle fixed_delay loss : K) : octave_map K C :=
  let ant := if !(contains antenna "aeff_p") || !(contains antenna "aeff_t")
    then directivity antenna else antenna
  assign_time_domain ant
    (ant_build_time_domain_angle env (slice ant) tmax ts az_angle zen_angle fixed_delay loss)

/-- The routine `antenna_group_delay` on the record (lines 44-107): `check` is the
text returned by `antenna_is_valid`, `fields` stands for the reading of lines 55-63;
`none` is the empty value returned after a message, or no value at all after an
exception. -/
def antenna_group_delay_record (env : Numerics K C) (check : Option String)
    (fields : octave_map K C → AntennaFields K C) (ant_dut : octave_map K C) :
    Option (octave_map K C) :=
  match antenna_group_delay env check (fields ant_dut) with
  | GroupDelayResult.printed _ => none
  | GroupDelayResult.raised _ => none
  | GroupDelayResult.fields out =>
    some (assign (assign ant_dut "gd_p" (octave_value.real_array out.gd_p)) "gd_t"
      (octave_value.real_array out.gd_t))

/-- The samples of a real array field; no sample when the field is absent. -/
def real_field (m : octave_map K C) (key : String) : List K :=
  match getfield m key with
  | some (octave_value.real_array v) => v
  | _ => []

/-- The samples of a complex array field; no sample when the field is absent. -/
def complex_field (m : octave_map K C) (key : String) : List C :=
  match getfield m key with
  | some (octave_value.complex_array v) => v
  | _ => []

/-- The value of a real scalar field; 0 when the field is absent. -/
def scalar_field (m : octave_map K C) (key : String) : K :=
  match getfield m key with
  | some (octave_value.real_scalar v) => v
  | _ => 0

/-- Lines 48-84 for a record with a single azimuth and a single zenith, asked at
that direction: the fields `freq`, `ep`, `et`, `aeff_p`, `aeff_t` and `dir_abs` are
read and `interpn` returns the stored samples. -/
def single_direction_slice (m : octave_map K C) : AngleSlice K C :=
  { freq_ant := real_field m "freq"
    ep_ant := complex_field m "ep"
    et_ant := complex_field m "et"
    aeffp_ant := complex_field m "aeff_p"
    aefft_ant := complex_field m "aeff_t"
    dir_ant := real_field m "dir_abs" }

/-- Lines 55-63 for a record with a single azimuth and a single zenith: the fields
`ep`, `et`, `azimuth`, `zenith`, `freq` and `fixed_delay` are read. -/
def single_direction_fields (m : octave_map K C) : AntennaFields K C :=
  { ep := fun _ _ f => (complex_field m "ep").getD f 0
    et := fun _ _ f => (complex_field m "et").getD f 0
    azimuth := real_field m "azimuth"
    zenith := real_field m "zenith"
    freq := real_field m "freq"
    fixed_delay := scalar_field m "fixed_delay" }

end Record

/-- A complete record over `ℚ` with one azimuth, one zenith and two frequencies,
which holds, from an earlier call with `tmax = 1`, the field `td_tmax`. -/
def sample_record : octave_map ℚ ℚ :=
  [("freq", octave_value.real_array [1 / 4, 1 / 2]),
    ("azimuth", octave_value.real_array [0]),
    ("zenith", octave_value.real_array [0]),
    ("ep", octave_value.complex_array [3, 4]),
    ("et", octave_value.complex_array [5, 6]),
    ("aeff_p", octave_value.complex_array [7, 8]),
    ("aeff_t", octave_value.complex_array [9, 10]),
    ("dir_abs", octave_value.real_array [11, 12]),
    ("fixed_delay", octave_value.real_scalar (1 / 10)),
    ("td_tmax", octave_value.real_scalar 1)]

/-! ## The target grid in double precision -/

/-- The integer nearest to `y`; the even one of the two when `y` lies half-way. -/
def round_half_even (y : ℚ) : Int :=
  if y - Int.floor y < 1 / 2 then Int.floor y
  else if 1 / 2 < y - Int.floor y then Int.floor y + 1
  else if Int.floor y % 2 = 0 then Int.floor y else Int.floor y + 1

/-- The exponent of the last place of a `double` near `x`: 53 significant bits, and
never below `-1074`, the last place of the subnormal numbers. -/
def double_exponent (x : ℚ) : Int :=
  max (Int.log 2 |x| - 52) (-1074)

/-- The `double` nearest to the rational `x` (IEEE 754 binary64, rounding to nearest,
ties to even, gradual underflow). Overflow is not represented: a value of `2 ^ 1024`
or more is returned as a rational where the machine returns infinity. -/
def round_double (x : ℚ) : ℚ :=
  if x = 0 then 0
  else (round_half_even (x / 2 ^ double_exponent x) : ℚ) * 2 ^ double_exponent x

/-- Line 43 in double precision, `int nsamples = std::floor (tmax / ts)`: the
quotient is rounded, and the conversion of its floor to `int` has a value when the
floor is in the range of a 32-bit `int`. A division by zero gives an infinity or a
NaN, which has no `int` value; an overflowing quotient is out of the range as well. -/
def nsamples_double (tmax ts : ℚ) : Option Int :=
  if ts = 0 then none
  else if -2147483648 ≤ Int.floor (round_double (tmax / ts)) ∧
      Int.floor (round_double (tmax / ts)) ≤ 2147483647
  then some (Int.floor (round_double (tmax / ts))) else none

/-- Line 45 in double precision, `df = 1.0 / (double (nsamples) * ts)`: the
conversion of the `int` is exact, the product is rounded, then the quotient. For
`nsamples = 0` the `double` is infinite and the value here is `0`: `df_double` stands
for the code's value when `nsamples` is not 0. -/
def df_double (n : Int) (ts : ℚ) : ℚ :=
  round_double (1 / round_double ((n : ℚ) * ts))

/-- Line 90 in double precision, `fsim_max = 1.0 / (ts * 2.0)`. -/
def fsim_max_double (ts : ℚ) : ℚ :=
  round_double (1 / round_double (ts * 2))

/-- Lines 151-179 in double precision: bin `f` holds the rounded product
`(double) f * df`. -/
def freq_of_interests_double (n : Int) (ts : ℚ) : List ℚ :=
  (List.range (fft_half_max n + 1).toNat).foldl
    (fun a f => a.set f (round_double ((f : ℚ) * df_double n ts)))
    (resize (fft_half_max n + 1).toNat)

/-- The field `td_freqs` in double precision, when `nsamples` has a value: line 217
stores `freq_of_interests`, which depends on `tmax` and `ts` only. -/
def td_freqs_double (tmax ts : ℚ) : Option (List ℚ) :=
  (nsamples_double tmax ts).map (fun n => freq_of_interests_double n ts)

/-! ## `unwrap` -/

/-- Modelled from the spec: the single-value `unwrap` of `aria_uwb_toolbox.h`, a
header that is not among the sources. It "maps the given phase into the half-open
interval (-pi, pi] by adding/subtracting multiples of 2 pi"; `pi` is the value of
the constant `M_PI` and `⌈(θ - pi) / (2 pi)⌉` the number of turns taken off. -/
def unwrap {K : Type} [LinearOrderedField K] [FloorRing K] (pi θ : K) : K :=
  θ - (Int.ceil ((θ - pi) / (2 * pi)) : K) * (2 * pi)

/-- A record whose two fields have, in every direction, the perfectly linear phase
`X (f) = exp (-i 2 π f τ)` on the axis `freq`, with `fixed_delay = 0`. -/
noncomputable def linear_phase_antenna (azimuth zenith freq : List ℝ) (tau : ℝ) :
    AntennaFields ℝ ℂ :=
  { ep := fun _ _ f => Complex.exp (Complex.mk 0 (-(2 * Real.pi * freq.getD f 0 * tau)))
    et := fun _ _ f => Complex.exp (Complex.mk 0 (-(2 * Real.pi * freq.getD f 0 * tau)))
    azimuth := azimuth
    zenith := zenith
    freq := freq
    fixed_delay := 0 }

/-- The exact primitives with the `unwrap` of the specification. -/
noncomputable def exact_unwrap_numerics (REF_DISTANCE C0 : ℝ) : Numerics ℝ ℂ :=
  exact_numerics REF_DISTANCE C0 (unwrap Real.pi) (fun _ _ xi => xi.map (fun _ => 0))
    (fun _ _ xi => xi.map (fun _ => 0))

/-- A slice over `ℚ` whose native axis `[1/4, 2]` ends above `fNyq` for `ts = 1/2`. -/
def sample_slice_wide : AngleSlice ℚ ℚ :=
  { freq_ant := [1 / 4, 2]
    ep_ant := [3, 4]
    et_ant := [5, 6]
    aeffp_ant := [7, 8]
    aefft_ant := [9, 10]
    dir_ant := [11, 12] }

end AriaUwb

/-! # Verification -/

namespace AriaUwb

/-! ## Loops of element writes -/

section Writes

variable {α : Type}

theorem foldl_set_length (idx : Nat → Nat) (g : Nat → α) (L : List Nat) (l : List α) :
    (L.foldl (fun l fs => l.set (idx fs) (g fs)) l).length = l.length := by
  induction L generalizing l with
  | nil => rfl
  | cons a L ih => simp [ih]

theorem foldl_set_range_getElem? (g : Nat → α) (low n : Nat) (l : List α) (j : Nat) :
    ((List.range n).foldl (fun l fs => l.set (low + fs) (g fs)) l)[j]? =
      if low ≤ j ∧ j < low + n ∧ j < l.length then some (g (j - low)) else l[j]? := by
  induction n with
  | zero => rw [if_neg (by omega)]; rfl
  | succ n ih =>
    rw [List.range_succ, List.foldl_append]
    simp only [List.foldl_cons, List.foldl_nil, List.getElem?_set, foldl_set_length, ih]
    by_cases h1 : low + n = j
    · subst h1
      by_cases h2 : low + n < l.length
      · simp [h2]
      · have : l[low + n]? = none := List.getElem?_eq_none (by omega)
        simp [h2, this]
    · simp only [h1, if_false]
      by_cases h3 : low ≤ j ∧ j < low + n ∧ j < l.length
      · rw [if_pos h3, if_pos ⟨h3.1, by omega, h3.2.2⟩]
      · rw [if_neg h3, if_neg (by omega)]

end Writes

/-! ## The padded arrays -/

section Padding

variable {K C : Type} [LinearOrderedField K] [FloorRing K] [Field C] [Module K C]

theorem extra_freqs_low_cases (a b : K) : extra_freqs_low a b = 0 ∨ extra_freqs_low a b = 2 := by
  unfold extra_freqs_low; split <;> simp

theorem extra_freqs_high_cases (a b : K) :
    extra_freqs_high a b = 0 ∨ extra_freqs_high a b = 2 := by
  unfold extra_freqs_high; split <;> simp

theorem ite_gt_eq_max (a b : K) : (if a > b then a else b) = max a b := by
  rcases le_or_lt a b with h | h
  · rw [if_neg (not_lt.mpr h), max_eq_right h]
  · rw [if_pos h, max_eq_left h.le]

theorem ite_lt_eq_min (a b : K) : (if a < b then a else b) = min a b := by
  rcases le_or_lt b a with h | h
  · rw [if_neg (not_lt.mpr h), min_eq_right h]
  · rw [if_pos h, min_eq_left h.le]

variable (env : Numerics K C) (ant : AngleSlice K C) (fixed_delay loss : K)

theorem fill_freq_start (low : Nat) (L : List Nat) (st : StartArrays K C) :
    (L.foldl (fill_step env ant fixed_delay loss low) st).freq_start =
      L.foldl (fun l fs => l.set (low + fs) (ant.freq_ant.getD fs 0)) st.freq_start := by
  induction L generalizing st with
  | nil => rfl
  | cons a L ih => simp only [List.foldl_cons, ih]; rfl

theorem fill_ep_start (low : Nat) (L : List Nat) (st : StartArrays K C) :
    (L.foldl (fill_step env ant fixed_delay loss low) st).ep_start =
      L.foldl (fun l fs => l.set (low + fs)
        (ant.ep_ant.getD fs 0 * comp_delay env fixed_delay loss (ant.freq_ant.getD fs 0)))
        st.ep_start := by
  induction L generalizing st with
  | nil => rfl
  | cons a L ih => simp only [List.foldl_cons, ih]; rfl

theorem fill_et_start (low : Nat) (L : List Nat) (st : StartArrays K C) :
    (L.foldl (fill_step env ant fixed_delay loss low) st).et_start =
      L.foldl (fun l fs => l.set (low + fs)
        (ant.et_ant.getD fs 0 * comp_delay env fixed_delay loss (ant.freq_ant.getD fs 0)))
        st.et_start := by
  induction L generalizing st with
  | nil => rfl
  | cons a L ih => simp only [List.foldl_cons, ih]; rfl

theorem fill_aeffp_start (low : Nat) (L : List Nat) (st : StartArrays K C) :
    (L.foldl (fill_step env ant fixed_delay loss low) st).aeffp_start =
      L.foldl (fun l fs => l.set (low + fs)
        (ant.aeffp_ant.getD fs 0 * comp_delay env fixed_delay loss (ant.freq_ant.getD fs 0)))
        st.aeffp_start := by
  induction L generalizing st with
  | nil => rfl
  | cons a L ih => simp only [List.foldl_cons, ih]; rfl

theorem fill_aefft_start (low : Nat) (L : List Nat) (st : StartArrays K C) :
    (L.foldl (fill_step env ant fixed_delay loss low) st).aefft_start =
      L.foldl (fun l fs => l.set (low + fs)
        (ant.aefft_ant.getD fs 0 * comp_delay env fixed_delay loss (ant.freq_ant.getD fs 0)))
        st.aefft_start := by
  induction L generalizing st with
  | nil => rfl
  | cons a L ih => simp only [List.foldl_cons, ih]; rfl

theorem fill_dir_start (low : Nat) (L : List Nat) (st : StartArrays K C) :
    (L.foldl (fill_step env ant fixed_delay loss low) st).dir_start =
      L.foldl (fun l fs => l.set (low + fs) (ant.dir_ant.getD fs 0)) st.dir_start := by
  induction L generalizing st with
  | nil => rfl
  | cons a L ih => simp only [List.foldl_cons, ih]; rfl

end Padding

section MinMax

variable {α : Type} [LinearOrder α] [Zero α]

theorem foldl_min_le (l : List α) (x : α) :
    l.foldl min x ≤ x ∧ ∀ y ∈ l, l.foldl min x ≤ y := by
  induction l generalizing x with
  | nil => exact ⟨le_refl _, fun y hy => by cases hy⟩
  | cons a l ih =>
    rw [List.foldl_cons]
    obtain ⟨h1, h2⟩ := ih (min x a)
    refine ⟨le_trans h1 (min_le_left _ _), fun y hy => ?_⟩
    rcases List.mem_cons.mp hy with h | h
    · rw [h]; exact le_trans h1 (min_le_right _ _)
    · exact h2 y h

theorem foldl_min_mem (l : List α) (x : α) : l.foldl min x = x ∨ l.foldl min x ∈ l := by
  induction l generalizing x with
  | nil => exact Or.inl rfl
  | cons a l ih =>
    rw [List.foldl_cons]
    rcases ih (min x a) with h | h
    · rcases min_choice x a with h' | h'
      · exact Or.inl (h.trans h')
      · exact Or.inr (by rw [h, h']; exact List.mem_cons_self _ _)
    · exact Or.inr (List.mem_cons_of_mem _ h)

/-- On a non-empty array `array_min` is an element that is below every element. -/
theorem array_min_spec (l : List α) (hl : l ≠ []) :
    array_min l ∈ l ∧ ∀ y ∈ l, array_min l ≤ y := by
  cases l with
  | nil => exact absurd rfl hl
  | cons a l =>
    refine ⟨?_, fun y hy => ?_⟩
    · rcases foldl_min_mem l a with h | h
      · exact List.mem_cons.mpr (Or.inl h)
      · exact List.mem_cons_of_mem _ h
    · rcases List.mem_cons.mp hy with h | h
      · rw [h]; exact (foldl_min_le l a).1
      · exact (foldl_min_le l a).2 y h

end MinMax

section PaddedForms

variable {K C : Type} [LinearOrderedField K] [FloorRing K] [Field C] [Module K C]

theorem set_zero_resize {α : Type} [Zero α] (n i : Nat) :
    (resize n : List α).set i 0 = resize n := by
  apply List.ext_getElem?
  intro j
  simp only [resize, List.getElem?_set, List.getElem?_replicate, List.length_replicate]
  split_ifs <;> first | rfl | omega

variable (env : Numerics K C) (ant : AngleSlice K C) (tmax ts fixed_delay loss : K)

theorem padded_ep_start :
    (padded_arrays ant tmax ts).ep_start =
      resize (ant.freq_ant.length + extra_freqs_low (array_min ant.freq_ant) (df tmax ts)
        + extra_freqs_high (array_max ant.freq_ant) (fsim_max ts)) := by
  simp only [padded_arrays, pad_high, pad_low, resized_arrays]
  split_ifs <;> simp only [set_zero_resize]

theorem padded_et_start :
    (padded_arrays ant tmax ts).et_start =
      resize (ant.freq_ant.length + extra_freqs_low (array_min ant.freq_ant) (df tmax ts)
        + extra_freqs_high (array_max ant.freq_ant) (fsim_max ts)) := by
  simp only [padded_arrays, pad_high, pad_low, resized_arrays]
  split_ifs <;> simp only [set_zero_resize]

theorem padded_aeffp_start :
    (padded_arrays ant tmax ts).aeffp_start =
      resize (ant.freq_ant.length + extra_freqs_low (array_min ant.freq_ant) (df tmax ts)
        + extra_freqs_high (array_max ant.freq_ant) (fsim_max ts)) := by
  simp only [padded_arrays, pad_high, pad_low, resized_arrays]
  split_ifs <;> simp only [set_zero_resize]

theorem padded_aefft_start :
    (padded_arrays ant tmax ts).aefft_start =
      resize (ant.freq_ant.length + extra_freqs_low (array_min ant.freq_ant) (df tmax ts)
        + extra_freqs_high (array_max ant.freq_ant) (fsim_max ts)) := by
  simp only [padded_arrays, pad_high, pad_low, resized_arrays]
  split_ifs <;> simp only [set_zero_resize]

theorem padded_dir_start :
    (padded_arrays ant tmax ts).dir_start =
      resize (ant.freq_ant.length + extra_freqs_low (array_min ant.freq_ant) (df tmax ts)
        + extra_freqs_high (array_max ant.freq_ant) (fsim_max ts)) := by
  simp only [padded_arrays, pad_high, pad_low, resized_arrays]
  split_ifs <;> simp only [set_zero_resize]

theorem padded_freq_start :
    (padded_arrays ant tmax ts : StartArrays K C).freq_start =
      low_pad_freqs (array_min ant.freq_ant)
          (extra_freqs_low (array_min ant.freq_ant) (df tmax ts))
        ++ List.replicate ant.freq_ant.length 0
        ++ high_pad_freqs (array_max ant.freq_ant) (fsim_max ts)
            (extra_freqs_high (array_max ant.freq_ant) (fsim_max ts)) := by
  apply List.ext_getElem?
  intro j
  simp only [padded_arrays, low_pad_freqs, high_pad_freqs]
  rcases extra_freqs_low_cases (array_min ant.freq_ant) (df tmax ts) with hl | hl <;>
  rcases extra_freqs_high_cases (array_max ant.freq_ant) (fsim_max ts) with hh | hh <;>
  simp only [hl, hh, pad_low, pad_high, resized_arrays, resize, ite_gt_eq_max, ite_lt_eq_min] <;>
  simp [List.getElem?_set, List.getElem?_replicate, List.getElem?_append, List.getElem?_cons] <;>
  (split_ifs <;> first | rfl | omega)

/-- Writing the samples of `g` over the middle block of a list. -/
theorem fill_middle {α : Type} (d : α) (pre mid post g : List α) (h : mid.length = g.length) :
    (List.range g.length).foldl (fun l fs => l.set (pre.length + fs) (g.getD fs d))
      (pre ++ mid ++ post) = pre ++ g ++ post := by
  apply List.ext_getElem?
  intro j
  rw [foldl_set_range_getElem?]
  by_cases h1 : j < pre.length
  · rw [if_neg (by omega), List.append_assoc, List.append_assoc,
      List.getElem?_append_left h1, List.getElem?_append_left h1]
  · by_cases h2 : j < pre.length + g.length
    · rw [if_pos ⟨by omega, h2, by simp only [List.length_append]; omega⟩,
        List.getElem?_append_left (by simp only [List.length_append]; omega),
        List.getElem?_append_right (by omega),
        List.getD_eq_getElem?_getD, List.getElem?_eq_getElem (by omega), Option.getD_some]
    · rw [if_neg (by omega),
        List.getElem?_append_right (by simp only [List.length_append]; omega),
        List.getElem?_append_right (by simp only [List.length_append]; omega)]
      simp only [List.length_append, h]

theorem low_pad_freqs_length (a b : K) :
    (low_pad_freqs a (extra_freqs_low a b)).length = extra_freqs_low a b := by
  rcases extra_freqs_low_cases a b with h | h <;> simp [low_pad_freqs, h]

theorem high_pad_freqs_length (a b : K) :
    (high_pad_freqs a b (extra_freqs_high a b)).length = extra_freqs_high a b := by
  rcases extra_freqs_high_cases a b with h | h <;> simp [high_pad_freqs, h]

/-- The padded frequency axis, as one list: the low pads, the native axis, the
high pads. -/
theorem start_arrays_freq_start :
    (start_arrays env ant tmax ts fixed_delay loss).freq_start =
      low_pad_freqs (array_min ant.freq_ant)
          (extra_freqs_low (array_min ant.freq_ant) (df tmax ts))
        ++ ant.freq_ant
        ++ high_pad_freqs (array_max ant.freq_ant) (fsim_max ts)
            (extra_freqs_high (array_max ant.freq_ant) (fsim_max ts)) := by
  have h := fill_middle (0 : K)
    (low_pad_freqs (array_min ant.freq_ant) (extra_freqs_low (array_min ant.freq_ant) (df tmax ts)))
    (List.replicate ant.freq_ant.length 0)
    (high_pad_freqs (array_max ant.freq_ant) (fsim_max ts)
      (extra_freqs_high (array_max ant.freq_ant) (fsim_max ts)))
    ant.freq_ant (List.length_replicate _ _)
  rw [low_pad_freqs_length] at h
  simp only [start_arrays, fill_loop, fill_freq_start, padded_freq_start]
  exact h

/-- Each padded array is as long as the native axis plus the two pad counts. -/
theorem start_arrays_lengths :
    let n := ant.freq_ant.length + extra_freqs_low (array_min ant.freq_ant) (df tmax ts)
      + extra_freqs_high (array_max ant.freq_ant) (fsim_max ts)
    let st := start_arrays env ant tmax ts fixed_delay loss
    st.freq_start.length = n ∧ st.ep_start.length = n ∧ st.et_start.length = n ∧
      st.aeffp_start.length = n ∧ st.aefft_start.length = n ∧ st.dir_start.length = n := by
  intro n st
  refine ⟨?_, ?_, ?_, ?_, ?_, ?_⟩
  · simp only [st, n, start_arrays_freq_start, low_pad_freqs, high_pad_freqs, List.length_append]
    rcases extra_freqs_low_cases (array_min ant.freq_ant) (df tmax ts) with hl | hl <;>
    rcases extra_freqs_high_cases (array_max ant.freq_ant) (fsim_max ts) with hh | hh <;>
    simp [hl, hh] <;> omega
  · simp only [st, n, start_arrays, fill_loop, fill_ep_start, foldl_set_length, padded_ep_start,
      resize, List.length_replicate]
  · simp only [st, n, start_arrays, fill_loop, fill_et_start, foldl_set_length, padded_et_start,
      resize, List.length_replicate]
  · simp only [st, n, start_arrays, fill_loop, fill_aeffp_start, foldl_set_length,
      padded_aeffp_start, resize, List.length_replicate]
  · simp only [st, n, start_arrays, fill_loop, fill_aefft_start, foldl_set_length,
      padded_aefft_start, resize, List.length_replicate]
  · simp only [st, n, start_arrays, fill_loop, fill_dir_start, foldl_set_length,
      padded_dir_start, resize, List.length_replicate]

end PaddedForms

section PaddingClaims

variable {K C : Type} [LinearOrderedField K] [FloorRing K] [Field C] [Module K C]

/-- The loop of line 187 run on freshly resized storage: the block of `nf` cells
from `low` on holds the written values, every other cell holds zero. -/
theorem fill_resized {α : Type} [Zero α] (g : Nat → α) (low nf high j : Nat) :
    ((List.range nf).foldl (fun l fs => l.set (low + fs) (g fs))
      (resize (nf + low + high)))[j]? =
      if low ≤ j ∧ j < low + nf then some (g (j - low))
      else if j < nf + low + high then some 0 else none := by
  rw [foldl_set_range_getElem?]
  simp only [resize, List.length_replicate, List.getElem?_replicate]
  by_cases h : low ≤ j ∧ j < low + nf
  · rw [if_pos h, if_pos ⟨h.1, h.2, by omega⟩]
  · rw [if_neg h, if_neg (fun h3 => h ⟨h3.1, h3.2.1⟩)]

theorem sample_nsamples : nsamples (4 : ℚ) (1 / 2) = 8 := by
  unfold nsamples
  rw [Int.floor_eq_iff]
  norm_num

theorem sample_df : df (4 : ℚ) (1 / 2) = 1 / 4 := by
  unfold df
  rw [sample_nsamples]
  norm_num

theorem sample_low : extra_freqs_low (array_min sample_slice.freq_ant) (df (4 : ℚ) (1 / 2)) = 2 := by
  rw [sample_df]
  simp only [extra_freqs_low, sample_slice, array_min, List.foldl_cons, List.foldl_nil]
  norm_num

theorem sample_high :
    extra_freqs_high (array_max sample_slice.freq_ant) (fsim_max (1 / 2 : ℚ)) = 2 := by
  simp only [extra_freqs_high, sample_slice, array_max, fsim_max, List.foldl_cons, List.foldl_nil]
  norm_num

theorem sample_freq_start (env : Numerics ℚ ℚ) (fixed_delay loss : ℚ) :
    (start_arrays env sample_slice 4 (1 / 2) fixed_delay loss).freq_start =
      [0, 1 / 8, 1 / 4, 1 / 2, 3 / 4, 0] := by
  rw [start_arrays_freq_start, sample_low, sample_high]
  simp only [low_pad_freqs, high_pad_freqs, sample_slice, array_min, array_max, fsim_max, f_skip]
  norm_num

end PaddingClaims

section PaddingClaimsMain

variable {K C : Type} [LinearOrderedField K] [FloorRing K] [Field C] [Module K C]

/-- C1, evaluated at the failing input: for the strictly increasing native axis
`[1/4, 1/2]` with `tmax = 4 ≥ ts = 1/2 > 0`, both pad counts are 2 and the padded
axis is `[0, 1/8, 1/4, 1/2, 3/4, 0]`, whose last sample carries the frequency 0
written at line 142: the padded axis is not strictly ascending. -/
theorem C1_padded_axis_not_ascending :
    sample_slice.freq_ant.Sorted (· < ·) ∧ 2 ≤ sample_slice.freq_ant.length ∧
      (0 : ℚ) < 1 / 2 ∧ (1 / 2 : ℚ) ≤ 4 ∧
      (start_arrays rational_stub sample_slice 4 (1 / 2) 0 0).freq_start =
        [0, 1 / 8, 1 / 4, 1 / 2, 3 / 4, 0] ∧
      ¬ (start_arrays rational_stub sample_slice 4 (1 / 2) 0 0).freq_start.Sorted (· < ·) := by
  refine ⟨?_, ?_, by norm_num, by norm_num, sample_freq_start _ _ _, ?_⟩
  · simp only [sample_slice, List.Sorted, List.pairwise_cons]
    norm_num
  · simp [sample_slice]
  · rw [sample_freq_start]
    simp only [List.Sorted, List.pairwise_cons]
    norm_num

/-- C2, refuted at a boundary input: with native axis `[1/4, 1/2]`, `tmax = 4` and
`ts = 1/2` one has `fmin = df = 1/4` and `fmax = 1/2 ≤ fNyq = 1`, yet neither pad
count is 0. -/
theorem C2_counterexample :
    ¬ ((extra_freqs_low (array_min sample_slice.freq_ant) (df (4 : ℚ) (1 / 2)) = 0 ↔
          array_min sample_slice.freq_ant ≥ df (4 : ℚ) (1 / 2)) ∧
       (extra_freqs_high (array_max sample_slice.freq_ant) (fsim_max (1 / 2 : ℚ)) = 0 ↔
          array_max sample_slice.freq_ant ≤ fsim_max (1 / 2 : ℚ))) := by
  rw [sample_low, sample_high, sample_df]
  simp only [sample_slice, array_min, array_max, fsim_max, List.foldl_cons, List.foldl_nil]
  norm_num

/-- C2, amended: `extra_freqs_low` is 0 exactly when `fmin < df` and
`extra_freqs_high` is 0 exactly when `fmax > fNyq`; at the boundaries `fmin = df`
and `fmax = fNyq` both counts are 2. -/
theorem C2_pad_count_zero_iff (ant : AngleSlice K C) (tmax ts x : K) :
    (extra_freqs_low (array_min ant.freq_ant) (df tmax ts) = 0 ↔
        array_min ant.freq_ant < df tmax ts) ∧
      (extra_freqs_high (array_max ant.freq_ant) (fsim_max ts) = 0 ↔
        array_max ant.freq_ant > fsim_max ts) ∧
      extra_freqs_low x x = 2 ∧ extra_freqs_high x x = 2 := by
  refine ⟨?_, ?_, ?_, ?_⟩
  · unfold extra_freqs_low; split <;> simp [*]
  · unfold extra_freqs_high; split <;> simp [*]
  · simp [extra_freqs_low]
  · simp [extra_freqs_high]

theorem freq_start_low_pads (env : Numerics K C) (ant : AngleSlice K C)
    (tmax ts fixed_delay loss : K)
    (hl : extra_freqs_low (array_min ant.freq_ant) (df tmax ts) = 2) :
    (start_arrays env ant tmax ts fixed_delay loss).freq_start[0]? = some 0 ∧
      (start_arrays env ant tmax ts fixed_delay loss).freq_start[1]? =
        some (max (array_min ant.freq_ant - 1000000000) (array_min ant.freq_ant / 2)) := by
  rw [start_arrays_freq_start, hl]
  simp [low_pad_freqs, f_skip]

theorem freq_start_high_pads (env : Numerics K C) (ant : AngleSlice K C)
    (tmax ts fixed_delay loss : K)
    (hh : extra_freqs_high (array_max ant.freq_ant) (fsim_max ts) = 2) :
    (start_arrays env ant tmax ts fixed_delay loss).freq_start[ant.freq_ant.length
        + extra_freqs_low (array_min ant.freq_ant) (df tmax ts)]? =
        some (min (array_max ant.freq_ant + 1000000000)
          ((array_max ant.freq_ant + 1 / (ts * 2)) / 2)) ∧
      (start_arrays env ant tmax ts fixed_delay loss).freq_start[ant.freq_ant.length
        + extra_freqs_low (array_min ant.freq_ant) (df tmax ts) + 1]? = some 0 := by
  have hpre : (low_pad_freqs (array_min ant.freq_ant)
      (extra_freqs_low (array_min ant.freq_ant) (df tmax ts)) ++ ant.freq_ant).length =
      ant.freq_ant.length + extra_freqs_low (array_min ant.freq_ant) (df tmax ts) := by
    rw [List.length_append, low_pad_freqs_length]; omega
  rw [start_arrays_freq_start, hh]
  constructor
  · rw [List.getElem?_append_right (by rw [hpre]), hpre, Nat.sub_self]
    simp [high_pad_freqs, f_skip, fsim_max]
  · rw [List.getElem?_append_right (by rw [hpre]; omega), hpre, Nat.add_sub_cancel_left]
    simp [high_pad_freqs]

/-- C4: when `extra_freqs_low = 2` the padded axis holds the frequencies 0 and
`max (fmin - 1e9, fmin / 2)` at indices 0 and 1; when `extra_freqs_high = 2` it
holds `min (fmax + 1e9, (fmax + fNyq) / 2)` at the second-to-last index and 0 at
the last index. -/
theorem C4_pad_frequencies (env : Numerics K C) (ant : AngleSlice K C)
    (tmax ts fixed_delay loss : K) :
    (extra_freqs_low (array_min ant.freq_ant) (df tmax ts) = 2 →
        (start_arrays env ant tmax ts fixed_delay loss).freq_start[0]? = some 0 ∧
        (start_arrays env ant tmax ts fixed_delay loss).freq_start[1]? =
          some (max (array_min ant.freq_ant - 1000000000) (array_min ant.freq_ant / 2))) ∧
      (extra_freqs_high (array_max ant.freq_ant) (fsim_max ts) = 2 →
        (start_arrays env ant tmax ts fixed_delay loss).freq_start[
            (start_arrays env ant tmax ts fixed_delay loss).freq_start.length - 2]? =
          some (min (array_max ant.freq_ant + 1000000000)
            ((array_max ant.freq_ant + 1 / (ts * 2)) / 2)) ∧
        (start_arrays env ant tmax ts fixed_delay loss).freq_start[
            (start_arrays env ant tmax ts fixed_delay loss).freq_start.length - 1]? = some 0) := by
  refine ⟨freq_start_low_pads env ant tmax ts fixed_delay loss, fun hh => ?_⟩
  have hlen := (start_arrays_lengths env ant tmax ts fixed_delay loss).1
  simp only [hh] at hlen
  have h := freq_start_high_pads env ant tmax ts fixed_delay loss hh
  rw [hlen]
  exact h

/-- C4 at the sample slice, where both pad counts are 2. -/
theorem C4_pad_frequencies_witness :
    ((start_arrays rational_stub sample_slice 4 (1 / 2) 0 0).freq_start[0]? = some 0 ∧
      (start_arrays rational_stub sample_slice 4 (1 / 2) 0 0).freq_start[1]? =
        some (max (array_min sample_slice.freq_ant - 1000000000)
          (array_min sample_slice.freq_ant / 2))) ∧
    ((start_arrays rational_stub sample_slice 4 (1 / 2) 0 0).freq_start[
        (start_arrays rational_stub sample_slice 4 (1 / 2) 0 0).freq_start.length - 2]? =
        some (min (array_max sample_slice.freq_ant + 1000000000)
          ((array_max sample_slice.freq_ant + 1 / ((1 / 2 : ℚ) * 2)) / 2)) ∧
      (start_arrays rational_stub sample_slice 4 (1 / 2) 0 0).freq_start[
        (start_arrays rational_stub sample_slice 4 (1 / 2) 0 0).freq_start.length - 1]? =
        some 0) :=
  ⟨(C4_pad_frequencies rational_stub sample_slice 4 (1 / 2) 0 0).1 sample_low,
    (C4_pad_frequencies rational_stub sample_slice 4 (1 / 2) 0 0).2 sample_high⟩

end PaddingClaimsMain

section CompensatorClaims

variable {K C : Type} [LinearOrderedField K] [FloorRing K] [Field C] [Module K C]

theorem getD_of_lt {α : Type} (l : List α) (i : Nat) (d : α) (h : i < l.length) :
    l.getD i d = l[i] := by
  rw [List.getD_eq_getElem?_getD, List.getElem?_eq_getElem h, Option.getD_some]

/-- C5: when the arrays are handed to `interp1`, every padded position (an index
below `extra_freqs_low`, or from `extra_freqs_low + Nf` on) holds zero in
`ep_start`, `et_start`, `aeffp_start`, `aefft_start` and `dir_start`, and position
`extra_freqs_low + i` of `dir_start` holds the native directivity sample `i`. -/
theorem C5_padded_samples_zero (env : Numerics K C) (ant : AngleSlice K C)
    (tmax ts fixed_delay loss : K) :
    (∀ j : Nat,
      j < ant.freq_ant.length + extra_freqs_low (array_min ant.freq_ant) (df tmax ts)
        + extra_freqs_high (array_max ant.freq_ant) (fsim_max ts) →
      (j < extra_freqs_low (array_min ant.freq_ant) (df tmax ts) ∨
        extra_freqs_low (array_min ant.freq_ant) (df tmax ts) + ant.freq_ant.length ≤ j) →
      (start_arrays env ant tmax ts fixed_delay loss).ep_start[j]? = some 0 ∧
      (start_arrays env ant tmax ts fixed_delay loss).et_start[j]? = some 0 ∧
      (start_arrays env ant tmax ts fixed_delay loss).aeffp_start[j]? = some 0 ∧
      (start_arrays env ant tmax ts fixed_delay loss).aefft_start[j]? = some 0 ∧
      (start_arrays env ant tmax ts fixed_delay loss).dir_start[j]? = some 0) ∧
    (∀ (i : Nat) (h : i < ant.dir_ant.length), i < ant.freq_ant.length →
      (start_arrays env ant tmax ts fixed_delay loss).dir_start[
        extra_freqs_low (array_min ant.freq_ant) (df tmax ts) + i]? = some ant.dir_ant[i]) := by
  constructor
  · intro j hj hpad
    have hn : ¬ (extra_freqs_low (array_min ant.freq_ant) (df tmax ts) ≤ j ∧
        j < extra_freqs_low (array_min ant.freq_ant) (df tmax ts) + ant.freq_ant.length) := by
      omega
    refine ⟨?_, ?_, ?_, ?_, ?_⟩
    · simp only [start_arrays, fill_loop, fill_ep_start, padded_ep_start, fill_resized,
        if_neg hn, if_pos hj]
    · simp only [start_arrays, fill_loop, fill_et_start, padded_et_start, fill_resized,
        if_neg hn, if_pos hj]
    · simp only [start_arrays, fill_loop, fill_aeffp_start, padded_aeffp_start, fill_resized,
        if_neg hn, if_pos hj]
    · simp only [start_arrays, fill_loop, fill_aefft_start, padded_aefft_start, fill_resized,
        if_neg hn, if_pos hj]
    · simp only [start_arrays, fill_loop, fill_dir_start, padded_dir_start, fill_resized,
        if_neg hn, if_pos hj]
  · intro i h hi
    have hy : extra_freqs_low (array_min ant.freq_ant) (df tmax ts) ≤
        extra_freqs_low (array_min ant.freq_ant) (df tmax ts) + i ∧
        extra_freqs_low (array_min ant.freq_ant) (df tmax ts) + i <
        extra_freqs_low (array_min ant.freq_ant) (df tmax ts) + ant.freq_ant.length := by
      omega
    simp only [start_arrays, fill_loop, fill_dir_start, padded_dir_start, fill_resized,
      if_pos hy, Nat.add_sub_cancel_left, getD_of_lt _ _ _ h]

/-- C5 at the sample slice: the last high pad (index 5) and the native sample 1. -/
theorem C5_padded_samples_zero_witness :
    ((start_arrays rational_stub sample_slice 4 (1 / 2) 0 0).ep_start[5]? = some 0 ∧
      (start_arrays rational_stub sample_slice 4 (1 / 2) 0 0).et_start[5]? = some 0 ∧
      (start_arrays rational_stub sample_slice 4 (1 / 2) 0 0).aeffp_start[5]? = some 0 ∧
      (start_arrays rational_stub sample_slice 4 (1 / 2) 0 0).aefft_start[5]? = some 0 ∧
      (start_arrays rational_stub sample_slice 4 (1 / 2) 0 0).dir_start[5]? = some 0) ∧
    (start_arrays rational_stub sample_slice 4 (1 / 2) 0 0).dir_start[
      extra_freqs_low (array_min sample_slice.freq_ant) (df (4 : ℚ) (1 / 2)) + 1]? = some 12 :=
  ⟨(C5_padded_samples_zero rational_stub sample_slice 4 (1 / 2) 0 0).1 5
      (by rw [sample_low, sample_high]; decide) (Or.inr (by rw [sample_low]; decide)),
    (C5_padded_samples_zero rational_stub sample_slice 4 (1 / 2) 0 0).2 1
      (by decide) (by decide)⟩

end CompensatorClaims

section CompensatorValues

variable {K C : Type} [LinearOrderedField K] [FloorRing K] [Field C] [Module K C]

variable (env : Numerics K C) (ant : AngleSlice K C) (tmax ts fixed_delay loss : K)

theorem start_freq_native (i : Nat) (hf : i < ant.freq_ant.length) :
    (start_arrays env ant tmax ts fixed_delay loss).freq_start[
      extra_freqs_low (array_min ant.freq_ant) (df tmax ts) + i]? = some ant.freq_ant[i] := by
  rw [start_arrays_freq_start,
    List.getElem?_append_left (by rw [List.length_append, low_pad_freqs_length]; omega),
    List.getElem?_append_right (by rw [low_pad_freqs_length]; omega),
    low_pad_freqs_length, Nat.add_sub_cancel_left, List.getElem?_eq_getElem hf]

theorem start_native_block (i : Nat) (hf : i < ant.freq_ant.length) :
    extra_freqs_low (array_min ant.freq_ant) (df tmax ts) ≤
        extra_freqs_low (array_min ant.freq_ant) (df tmax ts) + i ∧
      extra_freqs_low (array_min ant.freq_ant) (df tmax ts) + i <
        extra_freqs_low (array_min ant.freq_ant) (df tmax ts) + ant.freq_ant.length := by
  omega

theorem start_ep_native (i : Nat) (hf : i < ant.freq_ant.length) (h : i < ant.ep_ant.length) :
    (start_arrays env ant tmax ts fixed_delay loss).ep_start[
      extra_freqs_low (array_min ant.freq_ant) (df tmax ts) + i]? =
      some (ant.ep_ant[i] * comp_delay env fixed_delay loss ant.freq_ant[i]) := by
  simp only [start_arrays, fill_loop, fill_ep_start, padded_ep_start, fill_resized,
    if_pos (start_native_block ant tmax ts i hf), Nat.add_sub_cancel_left,
    getD_of_lt _ _ _ h, getD_of_lt _ _ _ hf]

theorem start_et_native (i : Nat) (hf : i < ant.freq_ant.length) (h : i < ant.et_ant.length) :
    (start_arrays env ant tmax ts fixed_delay loss).et_start[
      extra_freqs_low (array_min ant.freq_ant) (df tmax ts) + i]? =
      some (ant.et_ant[i] * comp_delay env fixed_delay loss ant.freq_ant[i]) := by
  simp only [start_arrays, fill_loop, fill_et_start, padded_et_start, fill_resized,
    if_pos (start_native_block ant tmax ts i hf), Nat.add_sub_cancel_left,
    getD_of_lt _ _ _ h, getD_of_lt _ _ _ hf]

theorem start_aeffp_native (i : Nat) (hf : i < ant.freq_ant.length)
    (h : i < ant.aeffp_ant.length) :
    (start_arrays env ant tmax ts fixed_delay loss).aeffp_start[
      extra_freqs_low (array_min ant.freq_ant) (df tmax ts) + i]? =
      some (ant.aeffp_ant[i] * comp_delay env fixed_delay loss ant.freq_ant[i]) := by
  simp only [start_arrays, fill_loop, fill_aeffp_start, padded_aeffp_start, fill_resized,
    if_pos (start_native_block ant tmax ts i hf), Nat.add_sub_cancel_left,
    getD_of_lt _ _ _ h, getD_of_lt _ _ _ hf]

theorem start_aefft_native (i : Nat) (hf : i < ant.freq_ant.length)
    (h : i < ant.aefft_ant.length) :
    (start_arrays env ant tmax ts fixed_delay loss).aefft_start[
      extra_freqs_low (array_min ant.freq_ant) (df tmax ts) + i]? =
      some (ant.aefft_ant[i] * comp_delay env fixed_delay loss ant.freq_ant[i]) := by
  simp only [start_arrays, fill_loop, fill_aefft_start, padded_aefft_start, fill_resized,
    if_pos (start_native_block ant tmax ts i hf), Nat.add_sub_cancel_left,
    getD_of_lt _ _ _ h, getD_of_lt _ _ _ hf]

/-- The loop of line 187 leaves every cell outside the native block as it was. -/
theorem fill_loop_frame (low : Nat) (st : StartArrays K C) (j : Nat)
    (hj : j < low ∨ low + ant.freq_ant.length ≤ j) :
    (fill_loop env ant fixed_delay loss low ant.freq_ant.length st).freq_start[j]? =
        st.freq_start[j]? ∧
      (fill_loop env ant fixed_delay loss low ant.freq_ant.length st).ep_start[j]? =
        st.ep_start[j]? ∧
      (fill_loop env ant fixed_delay loss low ant.freq_ant.length st).et_start[j]? =
        st.et_start[j]? ∧
      (fill_loop env ant fixed_delay loss low ant.freq_ant.length st).aeffp_start[j]? =
        st.aeffp_start[j]? ∧
      (fill_loop env ant fixed_delay loss low ant.freq_ant.length st).aefft_start[j]? =
        st.aefft_start[j]? ∧
      (fill_loop env ant fixed_delay loss low ant.freq_ant.length st).dir_start[j]? =
        st.dir_start[j]? := by
  have hn : ∀ n : Nat, ¬ (low ≤ j ∧ j < low + ant.freq_ant.length ∧ j < n) := by
    intro n; omega
  refine ⟨?_, ?_, ?_, ?_, ?_, ?_⟩
  · simp only [fill_loop, fill_freq_start, foldl_set_range_getElem?, if_neg (hn _)]
  · simp only [fill_loop, fill_ep_start, foldl_set_range_getElem?, if_neg (hn _)]
  · simp only [fill_loop, fill_et_start, foldl_set_range_getElem?, if_neg (hn _)]
  · simp only [fill_loop, fill_aeffp_start, foldl_set_range_getElem?, if_neg (hn _)]
  · simp only [fill_loop, fill_aefft_start, foldl_set_range_getElem?, if_neg (hn _)]
  · simp only [fill_loop, fill_dir_start, foldl_set_range_getElem?, if_neg (hn _)]

/-- C7: for the native sample `i`, the compensator stores at padded index
`extra_freqs_low + i` the frequency `f_i` and each of `Ep, Et, AeffP, AeffT`
multiplied by `pow (10, loss / 20) * exp (i * 2 * pi * f_i * delay)` with
`delay = REF_DISTANCE / C0 - fixed_delay`; at a padded position all six arrays
keep the content they had before the loop. -/
theorem C7_compensator_values :
    (∀ (i : Nat) (hf : i < ant.freq_ant.length),
      (start_arrays env ant tmax ts fixed_delay loss).freq_start[
        extra_freqs_low (array_min ant.freq_ant) (df tmax ts) + i]? = some ant.freq_ant[i] ∧
      (∀ h : i < ant.ep_ant.length,
        (start_arrays env ant tmax ts fixed_delay loss).ep_start[
          extra_freqs_low (array_min ant.freq_ant) (df tmax ts) + i]? =
          some (ant.ep_ant[i] * (env.pow 10 (loss / 20) •
            env.cexp (2 * env.M_PI * ant.freq_ant[i]
              * (env.REF_DISTANCE / env.C0 - fixed_delay))))) ∧
      (∀ h : i < ant.et_ant.length,
        (start_arrays env ant tmax ts fixed_delay loss).et_start[
          extra_freqs_low (array_min ant.freq_ant) (df tmax ts) + i]? =
          some (ant.et_ant[i] * (env.pow 10 (loss / 20) •
            env.cexp (2 * env.M_PI * ant.freq_ant[i]
              * (env.REF_DISTANCE / env.C0 - fixed_delay))))) ∧
      (∀ h : i < ant.aeffp_ant.length,
        (start_arrays env ant tmax ts fixed_delay loss).aeffp_start[
          extra_freqs_low (array_min ant.freq_ant) (df tmax ts) + i]? =
          some (ant.aeffp_ant[i] * (env.pow 10 (loss / 20) •
            env.cexp (2 * env.M_PI * ant.freq_ant[i]
              * (env.REF_DISTANCE / env.C0 - fixed_delay))))) ∧
      (∀ h : i < ant.aefft_ant.length,
        (start_arrays env ant tmax ts fixed_delay loss).aefft_start[
          extra_freqs_low (array_min ant.freq_ant) (df tmax ts) + i]? =
          some (ant.aefft_ant[i] * (env.pow 10 (loss / 20) •
            env.cexp (2 * env.M_PI * ant.freq_ant[i]
              * (env.REF_DISTANCE / env.C0 - fixed_delay)))))) ∧
    (∀ j : Nat,
      (j < extra_freqs_low (array_min ant.freq_ant) (df tmax ts) ∨
        extra_freqs_low (array_min ant.freq_ant) (df tmax ts) + ant.freq_ant.length ≤ j) →
      (start_arrays env ant tmax ts fixed_delay loss).freq_start[j]? =
        (padded_arrays ant tmax ts : StartArrays K C).freq_start[j]? ∧
      (start_arrays env ant tmax ts fixed_delay loss).ep_start[j]? =
        (padded_arrays ant tmax ts : StartArrays K C).ep_start[j]? ∧
      (start_arrays env ant tmax ts fixed_delay loss).et_start[j]? =
        (padded_arrays ant tmax ts : StartArrays K C).et_start[j]? ∧
      (start_arrays env ant tmax ts fixed_delay loss).aeffp_start[j]? =
        (padded_arrays ant tmax ts : StartArrays K C).aeffp_start[j]? ∧
      (start_arrays env ant tmax ts fixed_delay loss).aefft_start[j]? =
        (padded_arrays ant tmax ts : StartArrays K C).aefft_start[j]? ∧
      (start_arrays env ant tmax ts fixed_delay loss).dir_start[j]? =
        (padded_arrays ant tmax ts : StartArrays K C).dir_start[j]?) := by
  constructor
  · intro i hf
    exact ⟨start_freq_native env ant tmax ts fixed_delay loss i hf,
      fun h => start_ep_native env ant tmax ts fixed_delay loss i hf h,
      fun h => start_et_native env ant tmax ts fixed_delay loss i hf h,
      fun h => start_aeffp_native env ant tmax ts fixed_delay loss i hf h,
      fun h => start_aefft_native env ant tmax ts fixed_delay loss i hf h⟩
  · intro j hj
    exact fill_loop_frame env ant fixed_delay loss _ _ j hj

/-- C7 at the sample slice, native sample 0. -/
theorem C7_compensator_values_witness :
    (start_arrays rational_stub sample_slice 4 (1 / 2) 0 0).freq_start[
        extra_freqs_low (array_min sample_slice.freq_ant) (df (4 : ℚ) (1 / 2)) + 0]? =
        some (1 / 4) ∧
      (start_arrays rational_stub sample_slice 4 (1 / 2) 0 0).ep_start[
        extra_freqs_low (array_min sample_slice.freq_ant) (df (4 : ℚ) (1 / 2)) + 0]? =
        some (3 * (rational_stub.pow 10 (0 / 20) •
          rational_stub.cexp (2 * rational_stub.M_PI * (1 / 4)
            * (rational_stub.REF_DISTANCE / rational_stub.C0 - 0)))) ∧
      (start_arrays rational_stub sample_slice 4 (1 / 2) 0 0).ep_start[0]? =
        (padded_arrays sample_slice 4 (1 / 2) : StartArrays ℚ ℚ).ep_start[0]? :=
  ⟨((C7_compensator_values rational_stub sample_slice 4 (1 / 2) 0 0).1 0 (by decide)).1,
    ((C7_compensator_values rational_stub sample_slice 4 (1 / 2) 0 0).1 0 (by decide)).2.1
      (by decide),
    ((C7_compensator_values rational_stub sample_slice 4 (1 / 2) 0 0).2 0
      (Or.inl (by rw [sample_low]; decide))).2.1⟩

end CompensatorValues

section Modulus

theorem exact_comp_delay_abs (REF_DISTANCE C0 : ℝ) (unwrap : ℝ → ℝ)
    (interp1 : List ℝ → List ℂ → List ℝ → List ℂ)
    (interp1_real : List ℝ → List ℝ → List ℝ → List ℝ) (fixed_delay curr_freq : ℝ) :
    Complex.abs (comp_delay (exact_numerics REF_DISTANCE C0 unwrap interp1 interp1_real)
      fixed_delay 0 curr_freq) = 1 := by
  simp only [comp_delay, loss_factor, exact_numerics, zero_div, Real.rpow_zero, one_smul,
    Complex.abs_exp, Real.exp_zero]

/-- C8: with `loss = 0` the compensator leaves the modulus of every native sample
of `Ep`, `Et`, `AeffP` and `AeffT` unchanged, for every delay and every complex
field value. -/
theorem C8_modulus_preserved (REF_DISTANCE C0 : ℝ) (unwrap : ℝ → ℝ)
    (interp1 : List ℝ → List ℂ → List ℝ → List ℂ)
    (interp1_real : List ℝ → List ℝ → List ℝ → List ℝ)
    (ant : AngleSlice ℝ ℂ) (tmax ts fixed_delay : ℝ) (i : Nat)
    (hf : i < ant.freq_ant.length) :
    (∀ h : i < ant.ep_ant.length,
      ((start_arrays (exact_numerics REF_DISTANCE C0 unwrap interp1 interp1_real) ant tmax ts
        fixed_delay 0).ep_start[extra_freqs_low (array_min ant.freq_ant) (df tmax ts) + i]?).map
        Complex.abs = some (Complex.abs ant.ep_ant[i])) ∧
    (∀ h : i < ant.et_ant.length,
      ((start_arrays (exact_numerics REF_DISTANCE C0 unwrap interp1 interp1_real) ant tmax ts
        fixed_delay 0).et_start[extra_freqs_low (array_min ant.freq_ant) (df tmax ts) + i]?).map
        Complex.abs = some (Complex.abs ant.et_ant[i])) ∧
    (∀ h : i < ant.aeffp_ant.length,
      ((start_arrays (exact_numerics REF_DISTANCE C0 unwrap interp1 interp1_real) ant tmax ts
        fixed_delay 0).aeffp_start[
          extra_freqs_low (array_min ant.freq_ant) (df tmax ts) + i]?).map
        Complex.abs = some (Complex.abs ant.aeffp_ant[i])) ∧
    (∀ h : i < ant.aefft_ant.length,
      ((start_arrays (exact_numerics REF_DISTANCE C0 unwrap interp1 interp1_real) ant tmax ts
        fixed_delay 0).aefft_start[
          extra_freqs_low (array_min ant.freq_ant) (df tmax ts) + i]?).map
        Complex.abs = some (Complex.abs ant.aefft_ant[i])) := by
  refine ⟨fun h => ?_, fun h => ?_, fun h => ?_, fun h => ?_⟩
  · rw [start_ep_native _ ant tmax ts fixed_delay 0 i hf h, Option.map_some', map_mul,
      exact_comp_delay_abs, mul_one]
  · rw [start_et_native _ ant tmax ts fixed_delay 0 i hf h, Option.map_some', map_mul,
      exact_comp_delay_abs, mul_one]
  · rw [start_aeffp_native _ ant tmax ts fixed_delay 0 i hf h, Option.map_some', map_mul,
      exact_comp_delay_abs, mul_one]
  · rw [start_aefft_native _ ant tmax ts fixed_delay 0 i hf h, Option.map_some', map_mul,
      exact_comp_delay_abs, mul_one]

/-- C8 at the real sample slice, native sample 1, where `Ep = i`. -/
theorem C8_modulus_preserved_witness :
    ((start_arrays sample_exact sample_slice_real 4 (1 / 2) (1 / 3) 0).ep_start[
      extra_freqs_low (array_min sample_slice_real.freq_ant) (df (4 : ℝ) (1 / 2)) + 1]?).map
      Complex.abs = some (Complex.abs Complex.I) :=
  (C8_modulus_preserved 1 299792458 (fun x => x) (fun _ _ xi => xi.map (fun _ => 0))
    (fun _ _ xi => xi.map (fun _ => 0)) sample_slice_real 4 (1 / 2) (1 / 3) 1
    (by simp [sample_slice_real])).1 (by simp [sample_slice_real])

end Modulus

section Grid

variable {K C : Type} [LinearOrderedField K] [FloorRing K] [Field C] [Module K C]

theorem foldl_set_range_zero {α : Type} (g : Nat → α) (n : Nat) (l : List α) (j : Nat) :
    ((List.range n).foldl (fun a f => a.set f (g f)) l)[j]? =
      if j < n ∧ j < l.length then some (g j) else l[j]? := by
  have h := foldl_set_range_getElem? g 0 n l j
  simp only [Nat.zero_add, Nat.zero_le, true_and, Nat.sub_zero] at h
  exact h

theorem nsamples_pos (tmax ts : K) (hts : 0 < ts) (h : ts ≤ tmax) : 1 ≤ nsamples tmax ts := by
  unfold nsamples
  rw [Int.le_floor, Int.cast_one, le_div_iff₀ hts, one_mul]
  exact h

theorem fft_half_max_eq_spec (N : Int) (hN : 0 ≤ N) : fft_half_max N = spec_last_bin N := by
  unfold fft_half_max spec_last_bin
  rw [Int.tmod_eq_emod hN (by decide), Int.tdiv_eq_ediv hN (by decide)]
  by_cases h : N % 2 = 1
  · rw [if_pos h, if_neg (by omega), Int.tdiv_eq_ediv (by omega) (by decide)]
  · rw [if_neg h, if_pos (by omega)]

theorem freq_of_interests_length (tmax ts : K) :
    (freq_of_interests tmax ts).length = (fft_half_max (nsamples tmax ts) + 1).toNat := by
  simp only [freq_of_interests]
  rw [foldl_set_length (fun f => f)]
  simp [resize]

theorem freq_of_interests_getElem? (tmax ts : K) (k : Nat)
    (hk : k < (fft_half_max (nsamples tmax ts) + 1).toNat) :
    (freq_of_interests tmax ts)[k]? = some ((k : K) * df tmax ts) := by
  simp only [freq_of_interests]
  rw [foldl_set_range_zero, if_pos ⟨hk, by simpa [resize] using hk⟩]

/-- The target grid in exact arithmetic (no rounding, `N` an unbounded integer): for
`tmax ≥ ts > 0`, with `N = floor (tmax / ts)` and `df = 1 / (N * ts)`, the grid has
exactly `K + 1` bins `f_k = k * df`, `k = 0..K`, where `K = N / 2` for even `N` and
`(N - 1) / 2` for odd `N`, and the last bin is at most `fNyq = 1 / (2 * ts)`. -/
theorem target_grid_exact (env : Numerics K C) (ant : AngleSlice K C)
    (tmax ts az_angle zen_angle fixed_delay loss : K) (hts : 0 < ts) (h : ts ≤ tmax) :
    (((ant_build_time_domain_angle env ant tmax ts az_angle zen_angle fixed_delay
        loss).td_freqs.length : Nat) : Int) = spec_last_bin (nsamples tmax ts) + 1 ∧
      (∀ k : Nat, (k : Int) ≤ spec_last_bin (nsamples tmax ts) →
        (ant_build_time_domain_angle env ant tmax ts az_angle zen_angle fixed_delay
          loss).td_freqs[k]? = some ((k : K) * (1 / ((nsamples tmax ts : K) * ts)))) ∧
      ((spec_last_bin (nsamples tmax ts) : Int) : K) * (1 / ((nsamples tmax ts : K) * ts)) ≤
        1 / (2 * ts) := by
  show ((freq_of_interests tmax ts).length : Int) = spec_last_bin (nsamples tmax ts) + 1 ∧
      (∀ k : Nat, (k : Int) ≤ spec_last_bin (nsamples tmax ts) →
        (freq_of_interests tmax ts)[k]? = some ((k : K) * (1 / ((nsamples tmax ts : K) * ts)))) ∧
      ((spec_last_bin (nsamples tmax ts) : Int) : K) * (1 / ((nsamples tmax ts : K) * ts)) ≤
        1 / (2 * ts)
  have hN := nsamples_pos tmax ts hts h
  have hK := fft_half_max_eq_spec (nsamples tmax ts) (by omega)
  have hK0 : 0 ≤ spec_last_bin (nsamples tmax ts) := by
    unfold spec_last_bin; split <;> omega
  have hK2 : 2 * spec_last_bin (nsamples tmax ts) ≤ nsamples tmax ts := by
    unfold spec_last_bin; split <;> omega
  refine ⟨?_, ?_, ?_⟩
  · rw [freq_of_interests_length, hK]; omega
  · intro k hk
    have := freq_of_interests_getElem? tmax ts k (by rw [hK]; omega)
    rw [this]; rfl
  · have hNpos : (0 : K) < (nsamples tmax ts : K) := by exact_mod_cast (by omega : 0 < nsamples tmax ts)
    have h2 : (2 : K) * ((spec_last_bin (nsamples tmax ts) : Int) : K) ≤ (nsamples tmax ts : K) := by
      exact_mod_cast hK2
    rw [mul_one_div, div_le_div_iff₀ (mul_pos hNpos hts) (by positivity)]
    nlinarith [mul_le_mul_of_nonneg_right h2 hts.le]

theorem sample_last_bin : spec_last_bin (nsamples (4 : ℚ) (1 / 2)) = 4 := by
  rw [sample_nsamples]; decide

/-- The exact grid at `tmax = 4`, `ts = 1/2`: `N = 8`, five bins, the last at
`fNyq = 1`. -/
theorem target_grid_exact_sample :
    (((ant_build_time_domain_angle rational_stub sample_slice 4 (1 / 2) 0 0 0
        0).td_freqs.length : Nat) : Int) = spec_last_bin (nsamples (4 : ℚ) (1 / 2)) + 1 ∧
      (ant_build_time_domain_angle rational_stub sample_slice 4 (1 / 2) 0 0 0 0).td_freqs[4]? =
        some (((4 : Nat) : ℚ) * (1 / ((nsamples (4 : ℚ) (1 / 2) : ℚ) * (1 / 2)))) ∧
      ((spec_last_bin (nsamples (4 : ℚ) (1 / 2)) : Int) : ℚ)
        * (1 / ((nsamples (4 : ℚ) (1 / 2) : ℚ) * (1 / 2))) ≤ 1 / (2 * (1 / 2)) :=
  ⟨(target_grid_exact rational_stub sample_slice 4 (1 / 2) 0 0 0 0 (by norm_num) (by norm_num)).1,
    (target_grid_exact rational_stub sample_slice 4 (1 / 2) 0 0 0 0 (by norm_num) (by norm_num)).2.1
      4 (by rw [sample_last_bin]; decide),
    (target_grid_exact rational_stub sample_slice 4 (1 / 2) 0 0 0 0 (by norm_num) (by norm_num)).2.2⟩

end Grid

section PhaseRamp

variable {K C : Type} [LinearOrderedField K] [FloorRing K] [Field C] [Module K C]

/-- One write of the corrector on one array, given what the array holds after `n`
passes. -/
theorem ramp_write (l e : List C) (n k : Nat) (c : C) (r : Nat → C)
    (hlen : l.length = e.length)
    (hl : ∀ k, l[k]? = if k < n then (e[k]?).map (fun x => x * r k) else e[k]?)
    (hc : c = r n) :
    (l.set n (l.getD n 0 * c)).length = e.length ∧
      (l.set n (l.getD n 0 * c))[k]? =
        if k < n + 1 then (e[k]?).map (fun x => x * r k) else e[k]? := by
  refine ⟨by rw [List.length_set, hlen], ?_⟩
  rw [List.getElem?_set]
  by_cases h1 : n = k
  · subst h1
    rw [if_pos rfl, if_pos (Nat.lt_succ_self n)]
    by_cases h2 : n < l.length
    · have h3 : n < e.length := hlen ▸ h2
      have h4 := hl n
      rw [if_neg (Nat.lt_irrefl n)] at h4
      rw [if_pos h2, List.getD_eq_getElem?_getD, h4, List.getElem?_eq_getElem h3, hc]
      rfl
    · rw [if_neg h2, List.getElem?_eq_none (by omega)]
      rfl
  · rw [if_neg h1, hl k]
    by_cases h5 : k < n
    · rw [if_pos h5, if_pos (by omega)]
    · rw [if_neg h5, if_neg (by omega)]

theorem ramp_loop_spec (dexp : C) (epi eti aepi aeti : List C) (n : Nat) :
    (ramp_loop dexp n epi eti aepi aeti).comp_delay = spec_phase_ramp dexp n ∧
    ((ramp_loop dexp n epi eti aepi aeti).epi.length = epi.length ∧
      ∀ k, (ramp_loop dexp n epi eti aepi aeti).epi[k]? =
        if k < n then (epi[k]?).map (fun x => x * spec_phase_ramp dexp k) else epi[k]?) ∧
    ((ramp_loop dexp n epi eti aepi aeti).eti.length = eti.length ∧
      ∀ k, (ramp_loop dexp n epi eti aepi aeti).eti[k]? =
        if k < n then (eti[k]?).map (fun x => x * spec_phase_ramp dexp k) else eti[k]?) ∧
    ((ramp_loop dexp n epi eti aepi aeti).aepi.length = aepi.length ∧
      ∀ k, (ramp_loop dexp n epi eti aepi aeti).aepi[k]? =
        if k < n then (aepi[k]?).map (fun x => x * spec_phase_ramp dexp k) else aepi[k]?) ∧
    ((ramp_loop dexp n epi eti aepi aeti).aeti.length = aeti.length ∧
      ∀ k, (ramp_loop dexp n epi eti aepi aeti).aeti[k]? =
        if k < n then (aeti[k]?).map (fun x => x * spec_phase_ramp dexp k) else aeti[k]?) := by
  induction n with
  | zero =>
    simp only [ramp_loop, List.range_zero, List.foldl_nil, spec_phase_ramp, Nat.not_lt_zero,
      if_false, implies_true, and_self]
  | succ n ih =>
    obtain ⟨hc, ⟨h1l, h1⟩, ⟨h2l, h2⟩, ⟨h3l, h3⟩, ⟨h4l, h4⟩⟩ := ih
    have hstep : ramp_loop dexp (n + 1) epi eti aepi aeti =
        ramp_step dexp (ramp_loop dexp n epi eti aepi aeti) n := by
      simp only [ramp_loop, List.range_succ, List.foldl_append, List.foldl_cons, List.foldl_nil]
    rw [hstep]
    refine ⟨?_, ?_, ?_, ?_, ?_⟩
    · simp only [ramp_step, hc, spec_phase_ramp]
    · exact ⟨(ramp_write _ epi n 0 _ _ h1l h1 hc).1,
        fun k => (ramp_write _ epi n k _ _ h1l h1 hc).2⟩
    · exact ⟨(ramp_write _ eti n 0 _ _ h2l h2 hc).1,
        fun k => (ramp_write _ eti n k _ _ h2l h2 hc).2⟩
    · exact ⟨(ramp_write _ aepi n 0 _ _ h3l h3 hc).1,
        fun k => (ramp_write _ aepi n k _ _ h3l h3 hc).2⟩
    · exact ⟨(ramp_write _ aeti n 0 _ _ h4l h4 hc).1,
        fun k => (ramp_write _ aeti n k _ _ h4l h4 hc).2⟩

/-- C9: bin `k` of each of the resampled `Ep, Et, AeffP, AeffT` is multiplied by
`r_k`, where `r_0 = 1` and `r_{k+1} = r_k * exp (-i * 2 * pi * df * delay)`, for
every bin `k` of the target grid; the factors of bins `k` and `k + 1` differ by one
multiplication by `exp (-i * 2 * pi * df * delay)`. -/
theorem C9_phase_ramp (env : Numerics K C) (ant : AngleSlice K C)
    (tmax ts az_angle zen_angle fixed_delay loss : K) (k : Nat)
    (hk : k < (freq_of_interests tmax ts).length) :
    let r := spec_phase_ramp
      (env.cexp (-2 * env.M_PI * df tmax ts * (env.REF_DISTANCE / env.C0 - fixed_delay)))
    let st := start_arrays env ant tmax ts fixed_delay loss
    let foi := freq_of_interests tmax ts
    let out := ant_build_time_domain_angle env ant tmax ts az_angle zen_angle fixed_delay loss
    out.td_ep[k]? = ((env.interp1 st.freq_start st.ep_start foi)[k]?).map (fun x => x * r k) ∧
      out.td_et[k]? = ((env.interp1 st.freq_start st.et_start foi)[k]?).map (fun x => x * r k) ∧
      out.td_aeffp[k]? =
        ((env.interp1 st.freq_start st.aeffp_start foi)[k]?).map (fun x => x * r k) ∧
      out.td_aefft[k]? =
        ((env.interp1 st.freq_start st.aefft_start foi)[k]?).map (fun x => x * r k) ∧
      r 0 = 1 ∧
      r (k + 1) = r k *
        env.cexp (-2 * env.M_PI * df tmax ts * (env.REF_DISTANCE / env.C0 - fixed_delay)) := by
  intro r st foi out
  obtain ⟨_, ⟨_, h1⟩, ⟨_, h2⟩, ⟨_, h3⟩, ⟨_, h4⟩⟩ :=
    ramp_loop_spec (dexp env tmax ts fixed_delay)
      (env.interp1 st.freq_start st.ep_start foi) (env.interp1 st.freq_start st.et_start foi)
      (env.interp1 st.freq_start st.aeffp_start foi)
      (env.interp1 st.freq_start st.aefft_start foi) foi.length
  have e1 := h1 k
  have e2 := h2 k
  have e3 := h3 k
  have e4 := h4 k
  rw [if_pos hk] at e1 e2 e3 e4
  exact ⟨e1, e2, e3, e4, rfl, rfl⟩

/-- C9 at the sample slice, bin 4 (the last of five). -/
theorem C9_phase_ramp_witness :
    (ant_build_time_domain_angle rational_stub sample_slice 4 (1 / 2) 0 0 0 0).td_ep[4]? =
      ((rational_stub.interp1
        (start_arrays rational_stub sample_slice 4 (1 / 2) 0 0).freq_start
        (start_arrays rational_stub sample_slice 4 (1 / 2) 0 0).ep_start
        (freq_of_interests (4 : ℚ) (1 / 2)))[4]?).map
        (fun x => x * spec_phase_ramp (rational_stub.cexp (-2 * rational_stub.M_PI
          * df (4 : ℚ) (1 / 2) * (rational_stub.REF_DISTANCE / rational_stub.C0 - 0))) 4) :=
  (C9_phase_ramp rational_stub sample_slice 4 (1 / 2) 0 0 0 0 4
    (by rw [freq_of_interests_length, sample_nsamples]; decide)).1

end PhaseRamp

section GroupDelayClaims

variable {K C : Type} [LinearOrderedField K] [Field C]

/-- A run of element writes leaves at the cell of a visited key the value of that
key, when keys that share a cell share the value. -/
theorem foldl_set_visited {α β : Type} (idx : β → Nat) (val : β → α) (t : β) (L : List β) :
    ∀ l : List α, (t ∈ L ∨ l[idx t]? = some (val t)) →
      (∀ u ∈ L, idx u = idx t → val u = val t) → idx t < l.length →
      (L.foldl (fun l u => l.set (idx u) (val u)) l)[idx t]? = some (val t) := by
  induction L with
  | nil =>
    intro l h _ _
    rcases h with h | h
    · cases h
    · exact h
  | cons b L ih =>
    intro l h hinj hlt
    rw [List.foldl_cons]
    apply ih
    · by_cases hb : idx b = idx t
      · right
        rw [List.getElem?_set, if_pos hb, if_pos (by omega), hinj b (List.mem_cons_self _ _) hb]
      · rcases h with h | h
        · rcases List.mem_cons.mp h with h | h
          · exact absurd (by rw [h]) hb
          · exact Or.inl h
        · right
          rw [List.getElem?_set, if_neg hb]
          exact h
    · exact fun u hu => hinj u (List.mem_cons_of_mem _ hu)
    · rw [List.length_set]; exact hlt

theorem foldl_set_length_keys {α β : Type} (idx : β → Nat) (val : β → α) (L : List β)
    (l : List α) : (L.foldl (fun l u => l.set (idx u) (val u)) l).length = l.length := by
  induction L generalizing l with
  | nil => rfl
  | cons b L ih => rw [List.foldl_cons, ih, List.length_set]

theorem mem_loop_triples (nint naz nzen f a z : Nat) :
    (f, a, z) ∈ loop_triples nint naz nzen ↔ f < nint ∧ a < naz ∧ z < nzen := by
  simp only [loop_triples, List.mem_flatMap, List.mem_map, List.mem_range, Prod.mk.injEq]
  constructor
  · rintro ⟨f', hf, a', ha, z', hz, rfl, rfl, rfl⟩
    exact ⟨hf, ha, hz⟩
  · rintro ⟨hf, ha, hz⟩
    exact ⟨f, hf, a, ha, z, hz, rfl, rfl, rfl⟩

theorem xelem_index_inj (naz nzen a z f a' z' f' : Nat) (ha : a < naz) (ha' : a' < naz)
    (hz : z < nzen) (hz' : z' < nzen)
    (h : xelem_index naz nzen a z f = xelem_index naz nzen a' z' f') :
    a = a' ∧ z = z' ∧ f = f' := by
  unfold xelem_index at h
  have h1 : a = a' := by
    have := congrArg (fun n => n % naz) h
    simpa [Nat.add_mul_mod_self_left, Nat.mod_eq_of_lt ha, Nat.mod_eq_of_lt ha'] using this
  subst h1
  have h2 : z + nzen * f = z' + nzen * f' :=
    Nat.eq_of_mul_eq_mul_left (by omega : 0 < naz) (Nat.add_left_cancel h)
  have h3 : z = z' := by
    have := congrArg (fun n => n % nzen) h2
    simpa [Nat.add_mul_mod_self_left, Nat.mod_eq_of_lt hz, Nat.mod_eq_of_lt hz'] using this
  subst h3
  exact ⟨rfl, rfl, Nat.eq_of_mul_eq_mul_left (by omega : 0 < nzen) (Nat.add_left_cancel h2)⟩

theorem xelem_index_lt (naz nzen nint a z f : Nat) (ha : a < naz) (hz : z < nzen)
    (hf : f < nint) : xelem_index naz nzen a z f < naz * nzen * nint := by
  unfold xelem_index
  have h1 : z + nzen * f + 1 ≤ nzen * nint := by
    calc z + nzen * f + 1 ≤ nzen * (f + 1) := by rw [Nat.mul_succ]; omega
      _ ≤ nzen * nint := Nat.mul_le_mul_left _ hf
  have h2 : naz * (z + nzen * f + 1) ≤ naz * (nzen * nint) := Nat.mul_le_mul_left _ h1
  rw [Nat.mul_succ] at h2
  rw [Nat.mul_assoc]
  omega

variable (env : Numerics K C) (ant : AntennaFields K C)

theorem gd_loops_flat (naz nzen nint : Nat) (st : List K × List K) :
    gd_loops env ant naz nzen nint st =
      (loop_triples nint naz nzen).foldl
        (fun st t => gd_store env ant naz nzen t.1 t.2.1 st t.2.2) st := by
  simp only [gd_loops, loop_triples, List.flatMap_def, List.foldl_flatten, List.foldl_map]

theorem gd_fold_fst (naz nzen : Nat) (L : List (Nat × Nat × Nat)) (st : List K × List K) :
    (L.foldl (fun st t => gd_store env ant naz nzen t.1 t.2.1 st t.2.2) st).1 =
      L.foldl (fun l t => l.set (xelem_index naz nzen t.2.1 t.2.2 t.1)
        (group_delay_value env ant.fixed_delay (ant.freq.getD (t.1 + 1) 0)
          (ant.freq.getD t.1 0) (ant.ep t.2.1 t.2.2 (t.1 + 1)) (ant.ep t.2.1 t.2.2 t.1))) st.1 := by
  induction L generalizing st with
  | nil => rfl
  | cons b L ih => simp only [List.foldl_cons, ih]; rfl

theorem gd_fold_snd (naz nzen : Nat) (L : List (Nat × Nat × Nat)) (st : List K × List K) :
    (L.foldl (fun st t => gd_store env ant naz nzen t.1 t.2.1 st t.2.2) st).2 =
      L.foldl (fun l t => l.set (xelem_index naz nzen t.2.1 t.2.2 t.1)
        (group_delay_value env ant.fixed_delay (ant.freq.getD (t.1 + 1) 0)
          (ant.freq.getD t.1 0) (ant.et t.2.1 t.2.2 (t.1 + 1)) (ant.et t.2.1 t.2.2 t.1))) st.2 := by
  induction L generalizing st with
  | nil => rfl
  | cons b L ih => simp only [List.foldl_cons, ih]; rfl

/-- After the three loops, cell `(a, z, f)` of an array holds the value computed
from the fields `x` at `f + 1` and `f`. -/
theorem gd_cell (x : Nat → Nat → Nat → C) (naz nzen nint a z f : Nat) (l : List K)
    (ha : a < naz) (hz : z < nzen) (hf : f < nint) (hl : l.length = naz * nzen * nint) :
    ((loop_triples nint naz nzen).foldl (fun l t => l.set (xelem_index naz nzen t.2.1 t.2.2 t.1)
        (group_delay_value env ant.fixed_delay (ant.freq.getD (t.1 + 1) 0)
          (ant.freq.getD t.1 0) (x t.2.1 t.2.2 (t.1 + 1)) (x t.2.1 t.2.2 t.1))) l)[
        xelem_index naz nzen a z f]? =
      some (group_delay_value env ant.fixed_delay (ant.freq.getD (f + 1) 0)
        (ant.freq.getD f 0) (x a z (f + 1)) (x a z f)) := by
  refine foldl_set_visited (fun t : Nat × Nat × Nat => xelem_index naz nzen t.2.1 t.2.2 t.1)
    (fun t => group_delay_value env ant.fixed_delay (ant.freq.getD (t.1 + 1) 0)
      (ant.freq.getD t.1 0) (x t.2.1 t.2.2 (t.1 + 1)) (x t.2.1 t.2.2 t.1)) (f, a, z)
    (loop_triples nint naz nzen) l
    (Or.inl ((mem_loop_triples nint naz nzen f a z).mpr ⟨hf, ha, hz⟩)) ?_ ?_
  · rintro ⟨f', a', z'⟩ hu hidx
    obtain ⟨_, ha', hz'⟩ := (mem_loop_triples nint naz nzen f' a' z').mp hu
    obtain ⟨h1, h2, h3⟩ := xelem_index_inj naz nzen a' z' f' a z f ha' ha hz' hz hidx
    subst h1 h2 h3
    rfl
  · rw [hl]
    exact xelem_index_lt naz nzen nint a z f ha hz hf

end GroupDelayClaims

section GroupDelayMain

variable {K C : Type} [LinearOrderedField K] [Field C]

/-- C10: for a record that passes validation and has `Nf ≥ 2` frequencies, the
output arrays have shape `(Naz, Nzen, Nf - 1)` and, for every direction `(a, z)`
and every interval `i`, `gd_X (a, z, i) = fixedDelay + delayRef + relPhase / dOmega`
with `delayRef = REF_DISTANCE / C0`, `dOmega = 2 * pi * (f_{i+1} - f_i)` and
`relPhase = unwrap (arg (exp (i * dOmega * delayRef) * X (a, z, i + 1)
* conj (X (a, z, i))))`, for `X = Ep` and `X = Et`. -/
theorem C10_group_delay_values (env : Numerics K C) (ant : AntennaFields K C)
    (hnf : 2 ≤ ant.freq.length) :
    ∃ out : GroupDelayFields K,
      antenna_group_delay env none ant = GroupDelayResult.fields out ∧
      out.dims = ((ant.azimuth.length : Int), (ant.zenith.length : Int),
        (ant.freq.length : Int) - 1) ∧
      out.gd_p.length = ant.azimuth.length * ant.zenith.length * (ant.freq.length - 1) ∧
      out.gd_t.length = ant.azimuth.length * ant.zenith.length * (ant.freq.length - 1) ∧
      ∀ (a z i : Nat) (_ : a < ant.azimuth.length) (_ : z < ant.zenith.length)
        (h1 : i + 1 < ant.freq.length),
        out.gd_p[xelem_index ant.azimuth.length ant.zenith.length a z i]? =
          some (ant.fixed_delay + env.REF_DISTANCE / env.C0 +
            env.unwrap (env.arg (env.cexp (2 * env.M_PI * (ant.freq[i + 1] - ant.freq[i])
                * (env.REF_DISTANCE / env.C0)) * ant.ep a z (i + 1) * env.conj (ant.ep a z i)))
              / (2 * env.M_PI * (ant.freq[i + 1] - ant.freq[i]))) ∧
        out.gd_t[xelem_index ant.azimuth.length ant.zenith.length a z i]? =
          some (ant.fixed_delay + env.REF_DISTANCE / env.C0 +
            env.unwrap (env.arg (env.cexp (2 * env.M_PI * (ant.freq[i + 1] - ant.freq[i])
                * (env.REF_DISTANCE / env.C0)) * ant.et a z (i + 1) * env.conj (ant.et a z i)))
              / (2 * env.M_PI * (ant.freq[i + 1] - ant.freq[i]))) := by
  have hne : ¬ ((ant.freq.length : Int) = 1) := by omega
  have hneg : ¬ ((ant.freq.length : Int) - 1 < 0) := by omega
  have hint : ((ant.freq.length : Int) - 1).toNat = ant.freq.length - 1 := by omega
  have hres : antenna_group_delay env none ant = GroupDelayResult.fields
      { dims := ((ant.azimuth.length : Int), (ant.zenith.length : Int),
          (ant.freq.length : Int) - 1)
        gd_p := (gd_loops env ant ant.azimuth.length ant.zenith.length (ant.freq.length - 1)
          (List.replicate (ant.azimuth.length * ant.zenith.length * (ant.freq.length - 1)) 0,
            List.replicate (ant.azimuth.length * ant.zenith.length
              * (ant.freq.length - 1)) 0)).1
        gd_t := (gd_loops env ant ant.azimuth.length ant.zenith.length (ant.freq.length - 1)
          (List.replicate (ant.azimuth.length * ant.zenith.length * (ant.freq.length - 1)) 0,
            List.replicate (ant.azimuth.length * ant.zenith.length
              * (ant.freq.length - 1)) 0)).2 } := by
    simp only [antenna_group_delay, if_neg hne, if_neg hneg, hint]
  refine ⟨_, hres, rfl, ?_, ?_, ?_⟩
  · simp only [gd_loops_flat, gd_fold_fst, foldl_set_length_keys, List.length_replicate]
  · simp only [gd_loops_flat, gd_fold_snd, foldl_set_length_keys, List.length_replicate]
  · intro a z i ha hz h1
    have hi : i < ant.freq.length - 1 := by omega
    have hi0 : i < ant.freq.length := by omega
    constructor
    · simp only [gd_loops_flat, gd_fold_fst]
      rw [gd_cell env ant ant.ep _ _ _ a z i _ ha hz hi (List.length_replicate _ _)]
      simp only [group_delay_value, getD_of_lt _ _ _ h1, getD_of_lt _ _ _ hi0]
    · simp only [gd_loops_flat, gd_fold_snd]
      rw [gd_cell env ant ant.et _ _ _ a z i _ ha hz hi (List.length_replicate _ _)]
      simp only [group_delay_value, getD_of_lt _ _ _ h1, getD_of_lt _ _ _ hi0]

/-- C10 at the sample record (two azimuths, one zenith, three frequencies). -/
theorem C10_group_delay_values_witness :
    ∃ out : GroupDelayFields ℚ,
      antenna_group_delay rational_stub none sample_antenna = GroupDelayResult.fields out ∧
      out.dims = (2, 1, 2) ∧ out.gd_p.length = 4 ∧ out.gd_t.length = 4 := by
  obtain ⟨out, h1, h2, h3, h4, _⟩ :=
    C10_group_delay_values rational_stub sample_antenna (by decide)
  exact ⟨out, h1, h2, h3, h4⟩

end GroupDelayMain

section ErrorClaims

variable {K C : Type} [LinearOrderedField K] [Field C]

/-- C12: on a record that passes validation and has exactly one frequency sample the
routine prints "need at least two freq points" and returns the empty value: no
`gd_p` or `gd_t` is computed or returned. -/
theorem C12_single_frequency (env : Numerics K C) (ant : AntennaFields K C)
    (h : ant.freq.length = 1) :
    antenna_group_delay env none ant =
        GroupDelayResult.printed "need at least two freq points" ∧
      ∀ out : GroupDelayFields K,
        antenna_group_delay env none ant ≠ GroupDelayResult.fields out := by
  have h1 : ((ant.freq.length : Nat) : Int) = 1 := by omega
  have hres : antenna_group_delay env none ant =
      GroupDelayResult.printed "need at least two freq points" := by
    simp only [antenna_group_delay, if_pos h1]
  refine ⟨hres, fun out hout => ?_⟩
  rw [hres] at hout
  cases hout

/-- C12 at the sample record with the single frequency 1. -/
theorem C12_single_frequency_witness :
    antenna_group_delay rational_stub none sample_antenna_one =
      GroupDelayResult.printed "need at least two freq points" :=
  (C12_single_frequency rational_stub sample_antenna_one (by decide)).1

/-- C13: on a record with fewer than two frequency samples no output record is
returned and nothing is computed, whatever the validation says: with one sample a
valid record gets the message "need at least two freq points" and the empty value;
with no sample the test of line 66 fails and the allocation of line 71, with the
dimension `-1`, raises `std::bad_alloc`, which Octave reports as an error. -/
theorem C13_fewer_than_two (env : Numerics K C) (ant : AntennaFields K C)
    (h : ant.freq.length < 2) :
    (∀ (check : Option String) (out : GroupDelayFields K),
        antenna_group_delay env check ant ≠ GroupDelayResult.fields out) ∧
      (ant.freq.length = 1 → antenna_group_delay env none ant =
        GroupDelayResult.printed "need at least two freq points") ∧
      (ant.freq.length = 0 → antenna_group_delay env none ant =
        GroupDelayResult.raised "std::bad_alloc") := by
  have h1 : ant.freq.length = 1 → antenna_group_delay env none ant =
      GroupDelayResult.printed "need at least two freq points" := by
    intro h1
    have h2 : ((ant.freq.length : Nat) : Int) = 1 := by omega
    simp only [antenna_group_delay, if_pos h2]
  have h0 : ant.freq.length = 0 → antenna_group_delay env none ant =
      GroupDelayResult.raised "std::bad_alloc" := by
    intro h0
    have h2 : ¬ ((ant.freq.length : Nat) : Int) = 1 := by omega
    have h3 : ((ant.freq.length : Nat) : Int) - 1 < 0 := by omega
    simp only [antenna_group_delay, if_neg h2, if_pos h3]
  refine ⟨fun check out hout => ?_, h1, h0⟩
  cases check with
  | some msg => cases hout
  | none =>
    rcases Nat.lt_or_ge ant.freq.length 1 with hlt | hge
    · rw [h0 (by omega)] at hout
      cases hout
    · rw [h1 (by omega)] at hout
      cases hout

/-- C13 at the sample record with the empty frequency axis. -/
theorem C13_fewer_than_two_witness :
    (∀ (check : Option String) (out : GroupDelayFields ℚ),
        antenna_group_delay rational_stub check sample_antenna_empty ≠
          GroupDelayResult.fields out) ∧
      antenna_group_delay rational_stub none sample_antenna_empty =
        GroupDelayResult.raised "std::bad_alloc" :=
  ⟨(C13_fewer_than_two rational_stub sample_antenna_empty (by decide)).1,
    (C13_fewer_than_two rational_stub sample_antenna_empty (by decide)).2.2 rfl⟩

end ErrorClaims

section Unwrap

variable {K : Type} [LinearOrderedField K] [FloorRing K]

theorem unwrap_bounds (pi θ : K) (hpi : 0 < pi) :
    -pi < unwrap pi θ ∧ unwrap pi θ ≤ pi := by
  have h2 : 0 < 2 * pi := by linarith
  have h1 := Int.le_ceil ((θ - pi) / (2 * pi))
  have h3 := Int.ceil_lt_add_one ((θ - pi) / (2 * pi))
  rw [div_le_iff₀ h2] at h1
  rw [← sub_lt_iff_lt_add, lt_div_iff₀ h2] at h3
  unfold unwrap
  constructor <;> linarith

theorem unwrap_turns (pi θ : K) :
    unwrap pi θ = θ + ((-Int.ceil ((θ - pi) / (2 * pi)) : Int) : K) * (2 * pi) := by
  unfold unwrap
  push_cast
  ring

theorem unwrap_of_mem (pi θ : K) (hpi : 0 < pi) (h1 : -pi < θ) (h2 : θ ≤ pi) :
    unwrap pi θ = θ := by
  have h0 : 0 < 2 * pi := by linarith
  have hc : Int.ceil ((θ - pi) / (2 * pi)) = 0 := by
    rw [Int.ceil_eq_iff]
    constructor
    · rw [Int.cast_zero, zero_sub, lt_div_iff₀ h0]; linarith
    · rw [Int.cast_zero, div_le_iff₀ h0]; linarith
  unfold unwrap
  rw [hc, Int.cast_zero, zero_mul, sub_zero]

/-- C16: for every real angle `θ` the value of `unwrap` lies in `(-π, π]` and
differs from `θ` by an integer multiple of `2 π`. -/
theorem C16_unwrap_principal (θ : ℝ) :
    -Real.pi < unwrap Real.pi θ ∧ unwrap Real.pi θ ≤ Real.pi ∧
      ∃ k : Int, unwrap Real.pi θ = θ + (k : ℝ) * (2 * Real.pi) :=
  ⟨(unwrap_bounds Real.pi θ Real.pi_pos).1, (unwrap_bounds Real.pi θ Real.pi_pos).2,
    _, unwrap_turns Real.pi θ⟩

end Unwrap

section TopBin

variable {K C : Type} [LinearOrderedField K] [FloorRing K] [Field C] [Module K C]

theorem df_pos (tmax ts : K) (hts : 0 < ts) (h : ts ≤ tmax) : 0 < df tmax ts := by
  have hN := nsamples_pos tmax ts hts h
  have hNpos : (0 : K) < (nsamples tmax ts : K) := by
    exact_mod_cast (by omega : 0 < nsamples tmax ts)
  unfold df
  exact one_div_pos.mpr (mul_pos hNpos hts)

/-- The last bin in exact arithmetic (no rounding, `N` an unbounded integer): for
`tmax ≥ ts > 0` one has `N ≥ 1` and `df > 0`; the last bin of the target grid is
`fNyq = 1 / (2 ts)` when `N` is even and `fNyq - df / 2` when `N` is odd, so it lies
within half a bin below `fNyq`. -/
theorem top_bin_exact (env : Numerics K C) (ant : AngleSlice K C)
    (tmax ts az_angle zen_angle fixed_delay loss : K) (hts : 0 < ts) (h : ts ≤ tmax) :
    1 ≤ nsamples tmax ts ∧ 0 < df tmax ts ∧
      (ant_build_time_domain_angle env ant tmax ts az_angle zen_angle fixed_delay
        loss).td_freqs.getLast? =
        some (if nsamples tmax ts % 2 = 0 then 1 / (2 * ts)
          else 1 / (2 * ts) - df tmax ts / 2) ∧
      1 / (2 * ts) - df tmax ts / 2 ≤
        (if nsamples tmax ts % 2 = 0 then 1 / (2 * ts) else 1 / (2 * ts) - df tmax ts / 2) ∧
      (if nsamples tmax ts % 2 = 0 then 1 / (2 * ts) else 1 / (2 * ts) - df tmax ts / 2) ≤
        1 / (2 * ts) := by
  have hN := nsamples_pos tmax ts hts h
  have hdf := df_pos tmax ts hts h
  have hK := fft_half_max_eq_spec (nsamples tmax ts) (by omega)
  have hNpos : (0 : K) < (nsamples tmax ts : K) := by
    exact_mod_cast (by omega : 0 < nsamples tmax ts)
  have hNne : (nsamples tmax ts : K) ≠ 0 := ne_of_gt hNpos
  have htsne : ts ≠ 0 := ne_of_gt hts
  refine ⟨hN, hdf, ?_, ?_, ?_⟩
  · show (freq_of_interests tmax ts).getLast? = _
    have hlen := freq_of_interests_length tmax ts
    rw [List.getLast?_eq_getElem?, hlen]
    by_cases hev : nsamples tmax ts % 2 = 0
    · have hk : spec_last_bin (nsamples tmax ts) = nsamples tmax ts / 2 := by
        unfold spec_last_bin; rw [if_pos hev]
      have hidx : (fft_half_max (nsamples tmax ts) + 1).toNat - 1 =
          (nsamples tmax ts / 2).toNat := by rw [hK, hk]; omega
      rw [hidx, freq_of_interests_getElem? tmax ts _ (by rw [hK, hk]; omega), if_pos hev]
      have hcast : (((nsamples tmax ts / 2).toNat : Nat) : K) * 2 = (nsamples tmax ts : K) := by
        have : (((nsamples tmax ts / 2).toNat : Nat) : Int) * 2 = nsamples tmax ts := by omega
        exact_mod_cast this
      congr 1
      unfold df
      field_simp
      linear_combination ts * hcast
    · have hk : spec_last_bin (nsamples tmax ts) = (nsamples tmax ts - 1) / 2 := by
        unfold spec_last_bin; rw [if_neg hev]
      have hidx : (fft_half_max (nsamples tmax ts) + 1).toNat - 1 =
          ((nsamples tmax ts - 1) / 2).toNat := by rw [hK, hk]; omega
      rw [hidx, freq_of_interests_getElem? tmax ts _ (by rw [hK, hk]; omega), if_neg hev]
      have hcast : ((((nsamples tmax ts - 1) / 2).toNat : Nat) : K) * 2 =
          (nsamples tmax ts : K) - 1 := by
        have : ((((nsamples tmax ts - 1) / 2).toNat : Nat) : Int) * 2 =
            nsamples tmax ts - 1 := by omega
        exact_mod_cast this
      have hk2 : ((((nsamples tmax ts - 1) / 2).toNat : Nat) : K) =
          ((nsamples tmax ts : K) - 1) / 2 := by linarith
      congr 1
      unfold df
      rw [hk2]
      field_simp
      ring
  · split <;> linarith
  · split <;> linarith

/-- The exact last bin at `tmax = 4`, `ts = 1/2` (`N = 8`, even): `fNyq = 1`. -/
theorem top_bin_exact_sample :
    (ant_build_time_domain_angle rational_stub sample_slice 4 (1 / 2) 0 0 0
      0).td_freqs.getLast? =
      some (if nsamples (4 : ℚ) (1 / 2) % 2 = 0 then 1 / (2 * (1 / 2))
        else 1 / (2 * (1 / 2)) - df (4 : ℚ) (1 / 2) / 2) :=
  (top_bin_exact rational_stub sample_slice 4 (1 / 2) 0 0 0 0 (by norm_num) (by norm_num)).2.2.1

end TopBin

section LowPadding

variable {K C : Type} [LinearOrderedField K] [FloorRing K] [Field C] [Module K C]

theorem low_pad_between (fmin d : K) (hd : 0 < d) (hl : extra_freqs_low fmin d = 2) :
    0 < max (fmin - 1000000000) (fmin / 2) ∧ max (fmin - 1000000000) (fmin / 2) < fmin := by
  have hge : d ≤ fmin := by
    by_contra hlt
    rw [not_le] at hlt
    simp [extra_freqs_low, hlt] at hl
  have hpos : 0 < fmin := lt_of_lt_of_le hd hge
  constructor
  · exact lt_max_of_lt_right (by linarith)
  · exact max_lt (by linarith) (by linarith)

/-- C20: when `extra_freqs_low = 2` and `df > 0`, the second low-pad frequency lies
strictly between 0 and `fmin`; if moreover the native axis is strictly increasing
and `extra_freqs_high = 0`, the padded axis is strictly ascending and starts at 0. -/
theorem C20_low_padding_ordered (env : Numerics K C) (ant : AngleSlice K C)
    (tmax ts fixed_delay loss : K) (hdf : 0 < df tmax ts)
    (hl : extra_freqs_low (array_min ant.freq_ant) (df tmax ts) = 2) :
    (0 < max (array_min ant.freq_ant - 1000000000) (array_min ant.freq_ant / 2) ∧
      max (array_min ant.freq_ant - 1000000000) (array_min ant.freq_ant / 2) <
        array_min ant.freq_ant) ∧
    (ant.freq_ant.Sorted (· < ·) → ant.freq_ant ≠ [] →
      extra_freqs_high (array_max ant.freq_ant) (fsim_max ts) = 0 →
      (start_arrays env ant tmax ts fixed_delay loss).freq_start.Sorted (· < ·) ∧
      (start_arrays env ant tmax ts fixed_delay loss).freq_start.head? = some 0) := by
  have hb := low_pad_between (array_min ant.freq_ant) (df tmax ts) hdf hl
  refine ⟨hb, fun hs hne hh => ?_⟩
  have hmin := (array_min_spec ant.freq_ant hne).2
  rw [start_arrays_freq_start, hl, hh]
  simp only [low_pad_freqs, high_pad_freqs, if_true, f_skip, List.append_nil,
    show ¬ ((0 : Nat) = 2) by decide, if_false, List.cons_append, List.nil_append,
    List.head?_cons, and_true]
  simp only [List.Sorted, List.pairwise_cons]
  refine ⟨fun y hy => ?_, fun y hy => ?_, hs⟩
  · rcases List.mem_cons.mp hy with h | h
    · rw [h]; exact hb.1
    · exact lt_of_lt_of_le (lt_trans hb.1 hb.2) (hmin y h)
  · exact lt_of_lt_of_le hb.2 (hmin y hy)

theorem sample_wide_low :
    extra_freqs_low (array_min sample_slice_wide.freq_ant) (df (4 : ℚ) (1 / 2)) = 2 := by
  rw [sample_df]
  simp only [extra_freqs_low, sample_slice_wide, array_min, List.foldl_cons, List.foldl_nil]
  norm_num

theorem sample_wide_high :
    extra_freqs_high (array_max sample_slice_wide.freq_ant) (fsim_max (1 / 2 : ℚ)) = 0 := by
  simp only [extra_freqs_high, sample_slice_wide, array_max, fsim_max, List.foldl_cons,
    List.foldl_nil]
  norm_num

/-- C20 at the slice with native axis `[1/4, 2]`, `tmax = 4`, `ts = 1/2`: two low
pads, no high pad. -/
theorem C20_low_padding_ordered_witness :
    (start_arrays rational_stub sample_slice_wide 4 (1 / 2) 0 0).freq_start.Sorted (· < ·) ∧
      (start_arrays rational_stub sample_slice_wide 4 (1 / 2) 0 0).freq_start.head? = some 0 :=
  (C20_low_padding_ordered rational_stub sample_slice_wide 4 (1 / 2) 0 0
    (by rw [sample_df]; norm_num) sample_wide_low).2
    (by simp only [sample_slice_wide, List.Sorted, List.pairwise_cons]; norm_num)
    (by simp [sample_slice_wide]) sample_wide_high

end LowPadding

section Directivity

variable {K C : Type} [LinearOrderedField K] [FloorRing K] [Field C] [Module K C]

theorem start_dir_start_indep (env : Numerics K C) (ant : AngleSlice K C)
    (tmax ts fixed_delay loss fixed_delay2 loss2 : K) :
    (start_arrays env ant tmax ts fixed_delay loss).dir_start =
        (start_arrays env ant tmax ts fixed_delay2 loss2).dir_start ∧
      (start_arrays env ant tmax ts fixed_delay loss).freq_start =
        (start_arrays env ant tmax ts fixed_delay2 loss2).freq_start := by
  constructor
  · simp only [start_arrays, fill_loop, fill_dir_start]
  · rw [start_arrays_freq_start, start_arrays_freq_start]

/-- The padded directivity, as one list: zeros, the native samples, zeros. -/
theorem start_arrays_dir_start (env : Numerics K C) (ant : AngleSlice K C)
    (tmax ts fixed_delay loss : K) (hdir : ant.dir_ant.length = ant.freq_ant.length) :
    (start_arrays env ant tmax ts fixed_delay loss).dir_start =
      List.replicate (extra_freqs_low (array_min ant.freq_ant) (df tmax ts)) 0
        ++ ant.dir_ant
        ++ List.replicate (extra_freqs_high (array_max ant.freq_ant) (fsim_max ts)) 0 := by
  have h := fill_middle (0 : K)
    (List.replicate (extra_freqs_low (array_min ant.freq_ant) (df tmax ts)) 0)
    (List.replicate ant.freq_ant.length 0)
    (List.replicate (extra_freqs_high (array_max ant.freq_ant) (fsim_max ts)) 0)
    ant.dir_ant (by rw [List.length_replicate, hdir])
  rw [List.length_replicate, hdir] at h
  have hres : (resize (ant.freq_ant.length
      + extra_freqs_low (array_min ant.freq_ant) (df tmax ts)
      + extra_freqs_high (array_max ant.freq_ant) (fsim_max ts)) : List K) =
      List.replicate (extra_freqs_low (array_min ant.freq_ant) (df tmax ts)) 0
        ++ List.replicate ant.freq_ant.length 0
        ++ List.replicate (extra_freqs_high (array_max ant.freq_ant) (fsim_max ts)) 0 := by
    rw [resize, ← List.replicate_add, ← List.replicate_add, Nat.add_comm ant.freq_ant.length]
  simp only [start_arrays, fill_loop, fill_dir_start, padded_dir_start, hres]
  exact h

/-- C15: `td_dir_abs` is the result of `interp1` on the padded axis and the padded
directivity (zeros, the native samples as they are, zeros) at the bins `td_freqs`;
no compensation factor and no phase-ramp factor enters, and `td_dir_abs` is the
same for every `fixed_delay` and `loss`. -/
theorem C15_directivity_unaffected (env : Numerics K C) (ant : AngleSlice K C)
    (tmax ts az_angle zen_angle fixed_delay loss fixed_delay2 loss2 : K) :
    (ant.dir_ant.length = ant.freq_ant.length →
      (ant_build_time_domain_angle env ant tmax ts az_angle zen_angle fixed_delay
        loss).td_dir_abs =
      env.interp1_real
        (low_pad_freqs (array_min ant.freq_ant)
            (extra_freqs_low (array_min ant.freq_ant) (df tmax ts))
          ++ ant.freq_ant
          ++ high_pad_freqs (array_max ant.freq_ant) (fsim_max ts)
            (extra_freqs_high (array_max ant.freq_ant) (fsim_max ts)))
        (List.replicate (extra_freqs_low (array_min ant.freq_ant) (df tmax ts)) 0
          ++ ant.dir_ant
          ++ List.replicate (extra_freqs_high (array_max ant.freq_ant) (fsim_max ts)) 0)
        (ant_build_time_domain_angle env ant tmax ts az_angle zen_angle fixed_delay
          loss).td_freqs) ∧
    (ant_build_time_domain_angle env ant tmax ts az_angle zen_angle fixed_delay2
        loss2).td_dir_abs =
      (ant_build_time_domain_angle env ant tmax ts az_angle zen_angle fixed_delay
        loss).td_dir_abs := by
  constructor
  · intro hdir
    show env.interp1_real (start_arrays env ant tmax ts fixed_delay loss).freq_start
      (start_arrays env ant tmax ts fixed_delay loss).dir_start (freq_of_interests tmax ts) = _
    rw [start_arrays_freq_start, start_arrays_dir_start env ant tmax ts fixed_delay loss hdir]
    rfl
  · show env.interp1_real (start_arrays env ant tmax ts fixed_delay2 loss2).freq_start
      (start_arrays env ant tmax ts fixed_delay2 loss2).dir_start (freq_of_interests tmax ts) =
      env.interp1_real (start_arrays env ant tmax ts fixed_delay loss).freq_start
      (start_arrays env ant tmax ts fixed_delay loss).dir_start (freq_of_interests tmax ts)
    rw [(start_dir_start_indep env ant tmax ts fixed_delay loss fixed_delay2 loss2).1,
      (start_dir_start_indep env ant tmax ts fixed_delay loss fixed_delay2 loss2).2]

/-- C15 at the sample slice: the interpolated arrays, and two different delays and
losses. -/
theorem C15_directivity_unaffected_witness :
    (ant_build_time_domain_angle rational_stub sample_slice 4 (1 / 2) 0 0 0 0).td_dir_abs =
      rational_stub.interp1_real
        (low_pad_freqs (array_min sample_slice.freq_ant)
            (extra_freqs_low (array_min sample_slice.freq_ant) (df (4 : ℚ) (1 / 2)))
          ++ sample_slice.freq_ant
          ++ high_pad_freqs (array_max sample_slice.freq_ant) (fsim_max (1 / 2 : ℚ))
            (extra_freqs_high (array_max sample_slice.freq_ant) (fsim_max (1 / 2 : ℚ))))
        (List.replicate
            (extra_freqs_low (array_min sample_slice.freq_ant) (df (4 : ℚ) (1 / 2))) 0
          ++ sample_slice.dir_ant
          ++ List.replicate
            (extra_freqs_high (array_max sample_slice.freq_ant) (fsim_max (1 / 2 : ℚ))) 0)
        (ant_build_time_domain_angle rational_stub sample_slice 4 (1 / 2) 0 0 0 0).td_freqs ∧
    (ant_build_time_domain_angle rational_stub sample_slice 4 (1 / 2) 0 0 (1 / 3) 6).td_dir_abs =
      (ant_build_time_domain_angle rational_stub sample_slice 4 (1 / 2) 0 0 0 0).td_dir_abs :=
  ⟨(C15_directivity_unaffected rational_stub sample_slice 4 (1 / 2) 0 0 0 0 (1 / 3) 6).1
      (by decide),
    (C15_directivity_unaffected rational_stub sample_slice 4 (1 / 2) 0 0 0 0 (1 / 3) 6).2⟩

end Directivity

section Gauge

theorem exact_value_gauge (REF_DISTANCE C0 : ℝ) (unwrap : ℝ → ℝ)
    (interp1 : List ℝ → List ℂ → List ℝ → List ℂ)
    (interp1_real : List ℝ → List ℝ → List ℝ → List ℝ)
    (fixed_delay freq1 freq0 : ℝ) (c x1 x0 : ℂ) (hc : c ≠ 0) :
    group_delay_value (exact_numerics REF_DISTANCE C0 unwrap interp1 interp1_real)
        fixed_delay freq1 freq0 (c * x1) (c * x0) =
      group_delay_value (exact_numerics REF_DISTANCE C0 unwrap interp1 interp1_real)
        fixed_delay freq1 freq0 x1 x0 := by
  have hpos : 0 < Complex.normSq c := Complex.normSq_pos.mpr hc
  have hmul : ∀ r : ℂ, r * (c * x1) * (starRingEnd ℂ) (c * x0) =
      ((Complex.normSq c : ℝ) : ℂ) * (r * x1 * (starRingEnd ℂ) x0) := by
    intro r
    rw [map_mul, ← Complex.mul_conj c]
    ring
  simp only [group_delay_value, exact_numerics, hmul, Complex.arg_real_mul _ hpos]

theorem gd_loops_congr {K C : Type} [LinearOrderedField K] [Field C] (env : Numerics K C)
    (ant ant2 : AntennaFields K C) (naz nzen nint : Nat) (st : List K × List K)
    (h : ∀ f a st z, gd_store env ant2 naz nzen f a st z = gd_store env ant naz nzen f a st z) :
    gd_loops env ant2 naz nzen nint st = gd_loops env ant naz nzen nint st := by
  have hfun : gd_store env ant2 naz nzen = gd_store env ant naz nzen := by
    funext f a st z
    exact h f a st z
  simp only [gd_loops, hfun]

/-- C18: multiplying `Ep` (resp. `Et`) of every direction by a nonzero complex
constant of that direction, at all frequencies, leaves the result of
`antenna_group_delay`, and so `gd_p` (resp. `gd_t`) of every interval, unchanged. -/
theorem C18_gauge_invariance (REF_DISTANCE C0 : ℝ) (unwrap : ℝ → ℝ)
    (interp1 : List ℝ → List ℂ → List ℝ → List ℂ)
    (interp1_real : List ℝ → List ℝ → List ℝ → List ℝ)
    (check : Option String) (ant : AntennaFields ℝ ℂ) (c : Nat → Nat → ℂ)
    (hc : ∀ a z, c a z ≠ 0) :
    antenna_group_delay (exact_numerics REF_DISTANCE C0 unwrap interp1 interp1_real) check
        { ant with ep := fun a z f => c a z * ant.ep a z f } =
      antenna_group_delay (exact_numerics REF_DISTANCE C0 unwrap interp1 interp1_real) check
        ant ∧
    antenna_group_delay (exact_numerics REF_DISTANCE C0 unwrap interp1 interp1_real) check
        { ant with et := fun a z f => c a z * ant.et a z f } =
      antenna_group_delay (exact_numerics REF_DISTANCE C0 unwrap interp1 interp1_real) check
        ant := by
  constructor
  · cases check with
    | some msg => rfl
    | none =>
      simp only [antenna_group_delay]
      rw [gd_loops_congr _ ant { ant with ep := fun a z f => c a z * ant.ep a z f }]
      intro f a st z
      simp only [gd_store, exact_value_gauge _ _ _ _ _ _ _ _ _ _ _ (hc a z)]
  · cases check with
    | some msg => rfl
    | none =>
      simp only [antenna_group_delay]
      rw [gd_loops_congr _ ant { ant with et := fun a z f => c a z * ant.et a z f }]
      intro f a st z
      simp only [gd_store, exact_value_gauge _ _ _ _ _ _ _ _ _ _ _ (hc a z)]

/-- C18 at the real sample record, with the constant `i` in every direction. -/
theorem C18_gauge_invariance_witness :
    antenna_group_delay sample_exact none
        { sample_antenna_real with ep := fun a z f => Complex.I * sample_antenna_real.ep a z f } =
      antenna_group_delay sample_exact none sample_antenna_real :=
  (C18_gauge_invariance 1 299792458 (fun x => x) (fun _ _ xi => xi.map (fun _ => 0))
    (fun _ _ xi => xi.map (fun _ => 0)) none sample_antenna_real (fun _ _ => Complex.I)
    (fun _ _ => Complex.I_ne_zero)).1

end Gauge

section Cancellation

theorem spec_phase_ramp_pow {C : Type} [Field C] (d : C) (k : Nat) :
    spec_phase_ramp d k = d ^ k := by
  induction k with
  | zero => rw [spec_phase_ramp, pow_zero]
  | succ k ih => rw [spec_phase_ramp, ih, pow_succ]

theorem mk_zero_eq (θ : ℝ) : Complex.mk 0 θ = (θ : ℂ) * Complex.I := by
  apply Complex.ext <;> simp

/-- The closed form of the rotating phasor: `r_k = exp (-i 2 π (k df) delay)`. -/
theorem exact_ramp_closed (REF_DISTANCE C0 : ℝ) (unwrap : ℝ → ℝ)
    (interp1 : List ℝ → List ℂ → List ℝ → List ℂ)
    (interp1_real : List ℝ → List ℝ → List ℝ → List ℝ) (tmax ts fixed_delay : ℝ) (k : Nat) :
    spec_phase_ramp (dexp (exact_numerics REF_DISTANCE C0 unwrap interp1 interp1_real)
        tmax ts fixed_delay) k =
      Complex.exp (Complex.mk 0
        (-2 * Real.pi * ((k : ℝ) * df tmax ts) * (REF_DISTANCE / C0 - fixed_delay))) := by
  rw [spec_phase_ramp_pow]
  simp only [dexp, delay, exact_numerics]
  rw [← Complex.exp_nat_mul, mk_zero_eq, mk_zero_eq]
  congr 1
  push_cast
  ring

/-- A compensated native sample times the phasor of a bin at the same frequency. -/
theorem exact_cancel (REF_DISTANCE C0 : ℝ) (unwrap : ℝ → ℝ)
    (interp1 : List ℝ → List ℂ → List ℝ → List ℂ)
    (interp1_real : List ℝ → List ℝ → List ℝ → List ℝ)
    (tmax ts fixed_delay loss f : ℝ) (k : Nat) (x : ℂ) (hbin : (k : ℝ) * df tmax ts = f) :
    x * comp_delay (exact_numerics REF_DISTANCE C0 unwrap interp1 interp1_real)
          fixed_delay loss f *
        spec_phase_ramp (dexp (exact_numerics REF_DISTANCE C0 unwrap interp1 interp1_real)
          tmax ts fixed_delay) k =
      (((10 : ℝ) ^ (loss / 20) : ℝ) : ℂ) * x := by
  rw [exact_ramp_closed, hbin]
  simp only [comp_delay, loss_factor, delay, exact_numerics, Complex.real_smul]
  have hexp : Complex.exp (Complex.mk 0 (2 * Real.pi * f * (REF_DISTANCE / C0 - fixed_delay))) *
      Complex.exp (Complex.mk 0 (-2 * Real.pi * f * (REF_DISTANCE / C0 - fixed_delay))) = 1 := by
    rw [← Complex.exp_add, mk_zero_eq, mk_zero_eq, ← add_mul, ← Complex.ofReal_add]
    have : 2 * Real.pi * f * (REF_DISTANCE / C0 - fixed_delay) +
        -2 * Real.pi * f * (REF_DISTANCE / C0 - fixed_delay) = 0 := by ring
    rw [this, Complex.ofReal_zero, zero_mul, Complex.exp_zero]
  calc x * ((((10 : ℝ) ^ (loss / 20) : ℝ) : ℂ) *
          Complex.exp (Complex.mk 0 (2 * Real.pi * f * (REF_DISTANCE / C0 - fixed_delay)))) *
        Complex.exp (Complex.mk 0 (-2 * Real.pi * f * (REF_DISTANCE / C0 - fixed_delay)))
      = (((10 : ℝ) ^ (loss / 20) : ℝ) : ℂ) * x *
          (Complex.exp (Complex.mk 0 (2 * Real.pi * f * (REF_DISTANCE / C0 - fixed_delay))) *
          Complex.exp (Complex.mk 0 (-2 * Real.pi * f * (REF_DISTANCE / C0 - fixed_delay)))) := by
        ring
    _ = (((10 : ℝ) ^ (loss / 20) : ℝ) : ℂ) * x := by rw [hexp, mul_one]

/-- C17: in exact arithmetic the phase-ramp factor is
`r_k = exp (-i 2 π f_k delay)` with `f_k = k df`; when the bin `f_k` equals the
native frequency `f_j` and `interp1` returns there the value stored at node `j`,
the output is `td_X (k) = 10 ^ (loss / 20) * X (f_j)`, for `X` each of `Ep`, `Et`,
`AeffP`, `AeffT`. -/
theorem C17_phase_cancellation (REF_DISTANCE C0 : ℝ) (unwrap : ℝ → ℝ)
    (interp1 : List ℝ → List ℂ → List ℝ → List ℂ)
    (interp1_real : List ℝ → List ℝ → List ℝ → List ℝ)
    (ant : AngleSlice ℝ ℂ) (tmax ts az_angle zen_angle fixed_delay loss : ℝ) (k j : Nat)
    (hk : k < (freq_of_interests tmax ts).length) (hj : j < ant.freq_ant.length)
    (hbin : (k : ℝ) * df tmax ts = ant.freq_ant[j]) :
    spec_phase_ramp (dexp (exact_numerics REF_DISTANCE C0 unwrap interp1 interp1_real)
        tmax ts fixed_delay) k =
      Complex.exp (Complex.mk 0
        (-2 * Real.pi * ((k : ℝ) * df tmax ts) * (REF_DISTANCE / C0 - fixed_delay))) ∧
    (∀ h : j < ant.ep_ant.length,
      (interp1 (start_arrays (exact_numerics REF_DISTANCE C0 unwrap interp1 interp1_real) ant
          tmax ts fixed_delay loss).freq_start
        (start_arrays (exact_numerics REF_DISTANCE C0 unwrap interp1 interp1_real) ant
          tmax ts fixed_delay loss).ep_start (freq_of_interests tmax ts))[k]? =
        (start_arrays (exact_numerics REF_DISTANCE C0 unwrap interp1 interp1_real) ant
          tmax ts fixed_delay loss).ep_start[
            extra_freqs_low (array_min ant.freq_ant) (df tmax ts) + j]? →
      (ant_build_time_domain_angle (exact_numerics REF_DISTANCE C0 unwrap interp1 interp1_real)
          ant tmax ts az_angle zen_angle fixed_delay loss).td_ep[k]? =
        some ((((10 : ℝ) ^ (loss / 20) : ℝ) : ℂ) * ant.ep_ant[j])) ∧
    (∀ h : j < ant.et_ant.length,
      (interp1 (start_arrays (exact_numerics REF_DISTANCE C0 unwrap interp1 interp1_real) ant
          tmax ts fixed_delay loss).freq_start
        (start_arrays (exact_numerics REF_DISTANCE C0 unwrap interp1 interp1_real) ant
          tmax ts fixed_delay loss).et_start (freq_of_interests tmax ts))[k]? =
        (start_arrays (exact_numerics REF_DISTANCE C0 unwrap interp1 interp1_real) ant
          tmax ts fixed_delay loss).et_start[
            extra_freqs_low (array_min ant.freq_ant) (df tmax ts) + j]? →
      (ant_build_time_domain_angle (exact_numerics REF_DISTANCE C0 unwrap interp1 interp1_real)
          ant tmax ts az_angle zen_angle fixed_delay loss).td_et[k]? =
        some ((((10 : ℝ) ^ (loss / 20) : ℝ) : ℂ) * ant.et_ant[j])) ∧
    (∀ h : j < ant.aeffp_ant.length,
      (interp1 (start_arrays (exact_numerics REF_DISTANCE C0 unwrap interp1 interp1_real) ant
          tmax ts fixed_delay loss).freq_start
        (start_arrays (exact_numerics REF_DISTANCE C0 unwrap interp1 interp1_real) ant
          tmax ts fixed_delay loss).aeffp_start (freq_of_interests tmax ts))[k]? =
        (start_arrays (exact_numerics REF_DISTANCE C0 unwrap interp1 interp1_real) ant
          tmax ts fixed_delay loss).aeffp_start[
            extra_freqs_low (array_min ant.freq_ant) (df tmax ts) + j]? →
      (ant_build_time_domain_angle (exact_numerics REF_DISTANCE C0 unwrap interp1 interp1_real)
          ant tmax ts az_angle zen_angle fixed_delay loss).td_aeffp[k]? =
        some ((((10 : ℝ) ^ (loss / 20) : ℝ) : ℂ) * ant.aeffp_ant[j])) ∧
    (∀ h : j < ant.aefft_ant.length,
      (interp1 (start_arrays (exact_numerics REF_DISTANCE C0 unwrap interp1 interp1_real) ant
          tmax ts fixed_delay loss).freq_start
        (start_arrays (exact_numerics REF_DISTANCE C0 unwrap interp1 interp1_real) ant
          tmax ts fixed_delay loss).aefft_start (freq_of_interests tmax ts))[k]? =
        (start_arrays (exact_numerics REF_DISTANCE C0 unwrap interp1 interp1_real) ant
          tmax ts fixed_delay loss).aefft_start[
            extra_freqs_low (array_min ant.freq_ant) (df tmax ts) + j]? →
      (ant_build_time_domain_angle (exact_numerics REF_DISTANCE C0 unwrap interp1 interp1_real)
          ant tmax ts az_angle zen_angle fixed_delay loss).td_aefft[k]? =
        some ((((10 : ℝ) ^ (loss / 20) : ℝ) : ℂ) * ant.aefft_ant[j])) := by
  obtain ⟨_, ⟨_, h1⟩, ⟨_, h2⟩, ⟨_, h3⟩, ⟨_, h4⟩⟩ :=
    ramp_loop_spec (dexp (exact_numerics REF_DISTANCE C0 unwrap interp1 interp1_real)
        tmax ts fixed_delay)
      (interp1 (start_arrays (exact_numerics REF_DISTANCE C0 unwrap interp1 interp1_real) ant
          tmax ts fixed_delay loss).freq_start
        (start_arrays (exact_numerics REF_DISTANCE C0 unwrap interp1 interp1_real) ant
          tmax ts fixed_delay loss).ep_start (freq_of_interests tmax ts))
      (interp1 (start_arrays (exact_numerics REF_DISTANCE C0 unwrap interp1 interp1_real) ant
          tmax ts fixed_delay loss).freq_start
        (start_arrays (exact_numerics REF_DISTANCE C0 unwrap interp1 interp1_real) ant
          tmax ts fixed_delay loss).et_start (freq_of_interests tmax ts))
      (interp1 (start_arrays (exact_numerics REF_DISTANCE C0 unwrap interp1 interp1_real) ant
          tmax ts fixed_delay loss).freq_start
        (start_arrays (exact_numerics REF_DISTANCE C0 unwrap interp1 interp1_real) ant
          tmax ts fixed_delay loss).aeffp_start (freq_of_interests tmax ts))
      (interp1 (start_arrays (exact_numerics REF_DISTANCE C0 unwrap interp1 interp1_real) ant
          tmax ts fixed_delay loss).freq_start
        (start_arrays (exact_numerics REF_DISTANCE C0 unwrap interp1 interp1_real) ant
          tmax ts fixed_delay loss).aefft_start (freq_of_interests tmax ts))
      (freq_of_interests tmax ts).length
  have e1 := h1 k
  have e2 := h2 k
  have e3 := h3 k
  have e4 := h4 k
  rw [if_pos hk] at e1 e2 e3 e4
  refine ⟨exact_ramp_closed _ _ _ _ _ _ _ _ _, fun h hnode => ?_, fun h hnode => ?_,
    fun h hnode => ?_, fun h hnode => ?_⟩
  · refine e1.trans ?_
    rw [hnode, start_ep_native _ ant tmax ts fixed_delay loss j hj h, Option.map_some',
      exact_cancel _ _ _ _ _ _ _ _ _ _ _ _ hbin]
  · refine e2.trans ?_
    rw [hnode, start_et_native _ ant tmax ts fixed_delay loss j hj h, Option.map_some',
      exact_cancel _ _ _ _ _ _ _ _ _ _ _ _ hbin]
  · refine e3.trans ?_
    rw [hnode, start_aeffp_native _ ant tmax ts fixed_delay loss j hj h, Option.map_some',
      exact_cancel _ _ _ _ _ _ _ _ _ _ _ _ hbin]
  · refine e4.trans ?_
    rw [hnode, start_aefft_native _ ant tmax ts fixed_delay loss j hj h, Option.map_some',
      exact_cancel _ _ _ _ _ _ _ _ _ _ _ _ hbin]

end Cancellation

section CancellationWitness

theorem real_nsamples : nsamples (4 : ℝ) (1 / 2) = 8 := by
  unfold nsamples
  rw [Int.floor_eq_iff]
  norm_num

theorem real_df : df (4 : ℝ) (1 / 2) = 1 / 4 := by
  unfold df
  rw [real_nsamples]
  norm_num

theorem real_low :
    extra_freqs_low (array_min sample_slice_real.freq_ant) (df (4 : ℝ) (1 / 2)) = 2 := by
  rw [real_df]
  simp only [extra_freqs_low, sample_slice_real, array_min, List.foldl_cons, List.foldl_nil]
  norm_num

theorem real_high :
    extra_freqs_high (array_max sample_slice_real.freq_ant) (fsim_max (1 / 2 : ℝ)) = 2 := by
  simp only [extra_freqs_high, sample_slice_real, array_max, fsim_max, List.foldl_cons,
    List.foldl_nil]
  norm_num

theorem real_freq_start (env : Numerics ℝ ℂ) (fixed_delay loss : ℝ) :
    (start_arrays env sample_slice_real 4 (1 / 2) fixed_delay loss).freq_start =
      [0, 1 / 8, 1 / 4, 1 / 2, 3 / 4, 0] := by
  rw [start_arrays_freq_start, real_low, real_high]
  simp only [low_pad_freqs, high_pad_freqs, sample_slice_real, array_min, array_max, fsim_max,
    f_skip]
  norm_num

theorem real_foi_length : (freq_of_interests (4 : ℝ) (1 / 2)).length = 5 := by
  rw [freq_of_interests_length, real_nsamples]; decide

/-- With `node_lookup`, bin 1 of the grid (`1/4`) reads node 2 of the padded axis. -/
theorem real_node (fixed_delay loss : ℝ) (y : List ℂ) (v : ℂ) (hy : y[2]? = some v) :
    (node_lookup (start_arrays sample_exact_lookup sample_slice_real 4 (1 / 2) fixed_delay
      loss).freq_start y (freq_of_interests (4 : ℝ) (1 / 2)))[1]? = y[2]? := by
  have hfoi := freq_of_interests_getElem? (4 : ℝ) (1 / 2) 1
    (by rw [real_nsamples]; decide)
  rw [real_df] at hfoi
  have hidx : List.indexOf ((1 : ℝ) / 4) [(0 : ℝ), 1 / 8, 1 / 4, 1 / 2, 3 / 4, 0] = 2 := by
    rw [List.indexOf_cons_ne _ (by norm_num), List.indexOf_cons_ne _ (by norm_num),
      List.indexOf_cons_eq _ rfl]
  rw [real_freq_start]
  simp only [node_lookup, List.getElem?_map, hfoi, Option.map_some', Nat.cast_one, one_mul,
    hidx, List.getD_eq_getElem?_getD, hy, Option.getD_some]

/-- C17 at the real sample slice: bin 1 of the grid equals the native frequency
`1/4` (sample 0) and `node_lookup` returns the stored node there. -/
theorem C17_phase_cancellation_witness :
    (ant_build_time_domain_angle sample_exact_lookup sample_slice_real 4 (1 / 2) 0 0 (1 / 3)
      6).td_ep[1]? = some ((((10 : ℝ) ^ ((6 : ℝ) / 20) : ℝ) : ℂ) * 3) :=
  (C17_phase_cancellation 1 299792458 (fun x => x) node_lookup
    (fun _ _ xi => xi.map (fun _ => 0)) sample_slice_real 4 (1 / 2) 0 0 (1 / 3) 6 1 0
    (by rw [real_foi_length]; decide) (by simp [sample_slice_real])
    (by rw [real_df]; simp [sample_slice_real])).2.1 (by simp [sample_slice_real])
    (by
      have h := start_ep_native sample_exact_lookup sample_slice_real 4 (1 / 2) (1 / 3) 6 0
        (by simp [sample_slice_real]) (by simp [sample_slice_real])
      rw [real_low] at h
      rw [real_low]
      exact real_node (1 / 3) 6 _ _ h)

end CancellationWitness

section RecordClaims

variable {K C : Type} [LinearOrderedField K] [FloorRing K] [Field C] [Module K C]

theorem lookup_map_ne (m : octave_map K C) (key key2 : String) (v : octave_value K C)
    (h : key2 ≠ key) :
    List.lookup key2 (List.map (fun p => if p.1 == key then (key, v) else p) m) =
      List.lookup key2 m := by
  induction m with
  | nil => rfl
  | cons p m ih =>
    obtain ⟨k, w⟩ := p
    by_cases hk : k = key
    · subst hk
      have h1 : (key2 == k) = false := by simpa using h
      simp only [List.map_cons, beq_self_eq_true, if_true, List.lookup_cons, h1, ih]
    · have h1 : (k == key) = false := by simpa using hk
      simp only [List.map_cons, h1, Bool.false_eq_true, if_false, List.lookup_cons, ih]

theorem lookup_append_ne (m : octave_map K C) (key key2 : String) (v : octave_value K C)
    (h : key2 ≠ key) :
    List.lookup key2 (m ++ [(key, v)]) = List.lookup key2 m := by
  induction m with
  | nil =>
    have h1 : (key2 == key) = false := by simpa using h
    simp only [List.nil_append, List.lookup_cons, h1, List.lookup_nil]
  | cons p m ih =>
    obtain ⟨k, w⟩ := p
    simp only [List.cons_append, List.lookup_cons, ih]

/-- An assignment leaves the value of every other field as it was. -/
theorem getfield_assign_ne (m : octave_map K C) (key key2 : String) (v : octave_value K C)
    (h : key2 ≠ key) : getfield (assign m key v) key2 = getfield m key2 := by
  unfold getfield assign
  split
  · exact lookup_map_ne m key key2 v h
  · exact lookup_append_ne m key key2 v h

theorem lookup_map_self (m : octave_map K C) (key : String) (v : octave_value K C)
    (h : contains m key = true) :
    List.lookup key (List.map (fun p => if p.1 == key then (key, v) else p) m) = some v := by
  induction m with
  | nil => simp [contains] at h
  | cons p m ih =>
    obtain ⟨k, w⟩ := p
    by_cases hk : k = key
    · subst hk
      simp only [List.map_cons, beq_self_eq_true, if_true, List.lookup_cons]
    · have h1 : (k == key) = false := by simpa using hk
      have h2 : (key == k) = false := by simpa using fun e : key = k => hk e.symm
      have h3 : contains m key = true := by
        simpa [contains, h1] using h
      simp only [List.map_cons, h1, Bool.false_eq_true, if_false, List.lookup_cons, h2, ih h3]

theorem lookup_append_self (m : octave_map K C) (key : String) (v : octave_value K C)
    (h : contains m key = false) : List.lookup key (m ++ [(key, v)]) = some v := by
  induction m with
  | nil => simp only [List.nil_append, List.lookup_cons, beq_self_eq_true]
  | cons p m ih =>
    obtain ⟨k, w⟩ := p
    have h0 : (k == key) = false ∧ contains m key = false := by
      simpa [contains] using h
    have h2 : (key == k) = false := by
      have : k ≠ key := by simpa using h0.1
      simpa using fun e : key = k => this e.symm
    simp only [List.cons_append, List.lookup_cons, h2, ih h0.2]

/-- After an assignment the field holds the assigned value. -/
theorem getfield_assign_self (m : octave_map K C) (key : String) (v : octave_value K C) :
    getfield (assign m key v) key = some v := by
  unfold getfield assign
  by_cases h : contains m key = true
  · rw [if_pos h]; exact lookup_map_self m key v h
  · rw [if_neg h]; exact lookup_append_self m key v (by simpa using h)

end RecordClaims

section RecordFrame

variable {K C : Type} [LinearOrderedField K] [FloorRing K] [Field C] [Module K C]

/-- The thirteen assignments leave every field with another name as it was. -/
theorem getfield_assign_time_domain (ant : octave_map K C) (out : TimeDomainFields K C)
    (key : String) (h : key ∉ time_domain_names) :
    getfield (assign_time_domain ant out) key = getfield ant key := by
  simp only [time_domain_names, List.mem_cons, List.mem_singleton, not_or, List.not_mem_nil,
    not_false_eq_true, and_true] at h
  obtain ⟨h1, h2, h3, h4, h5, h6, h7, h8, h9, h10, h11, h12, h13⟩ := h
  simp only [assign_time_domain]
  rw [getfield_assign_ne _ _ _ _ h13, getfield_assign_ne _ _ _ _ h12,
    getfield_assign_ne _ _ _ _ h11, getfield_assign_ne _ _ _ _ h10,
    getfield_assign_ne _ _ _ _ h9, getfield_assign_ne _ _ _ _ h8,
    getfield_assign_ne _ _ _ _ h7, getfield_assign_ne _ _ _ _ h6,
    getfield_assign_ne _ _ _ _ h5, getfield_assign_ne _ _ _ _ h4,
    getfield_assign_ne _ _ _ _ h3, getfield_assign_ne _ _ _ _ h2,
    getfield_assign_ne _ _ _ _ h1]

/-- After the thirteen assignments each assigned field holds the new value. -/
theorem getfield_assign_time_domain_new (ant : octave_map K C) (out : TimeDomainFields K C) :
    getfield (assign_time_domain ant out) "td_freqs" =
        some (octave_value.real_array out.td_freqs) ∧
      getfield (assign_time_domain ant out) "td_ep" =
        some (octave_value.complex_array out.td_ep) ∧
      getfield (assign_time_domain ant out) "td_et" =
        some (octave_value.complex_array out.td_et) ∧
      getfield (assign_time_domain ant out) "td_aeffp" =
        some (octave_value.complex_array out.td_aeffp) ∧
      getfield (assign_time_domain ant out) "td_aefft" =
        some (octave_value.complex_array out.td_aefft) ∧
      getfield (assign_time_domain ant out) "td_az" =
        some (octave_value.real_scalar out.td_az) ∧
      getfield (assign_time_domain ant out) "td_zen" =
        some (octave_value.real_scalar out.td_zen) ∧
      getfield (assign_time_domain ant out) "td_tmax" =
        some (octave_value.real_scalar out.td_tmax) ∧
      getfield (assign_time_domain ant out) "td_ts" =
        some (octave_value.real_scalar out.td_ts) ∧
      getfield (assign_time_domain ant out) "n_ffts" =
        some (octave_value.int_scalar out.n_ffts) ∧
      getfield (assign_time_domain ant out) "td_delay" =
        some (octave_value.real_scalar out.td_delay) ∧
      getfield (assign_time_domain ant out) "td_loss" =
        some (octave_value.real_scalar out.td_loss) ∧
      getfield (assign_time_domain ant out) "td_dir_abs" =
        some (octave_value.real_array out.td_dir_abs) := by
  simp only [assign_time_domain]
  refine ⟨?_, ?_, ?_, ?_, ?_, ?_, ?_, ?_, ?_, ?_, ?_, ?_, ?_⟩
  · rw [getfield_assign_ne _ _ _ _ (by decide), getfield_assign_ne _ _ _ _ (by decide),
      getfield_assign_ne _ _ _ _ (by decide), getfield_assign_ne _ _ _ _ (by decide),
      getfield_assign_ne _ _ _ _ (by decide), getfield_assign_ne _ _ _ _ (by decide),
      getfield_assign_ne _ _ _ _ (by decide), getfield_assign_ne _ _ _ _ (by decide),
      getfield_assign_ne _ _ _ _ (by decide), getfield_assign_ne _ _ _ _ (by decide),
      getfield_assign_ne _ _ _ _ (by decide), getfield_assign_ne _ _ _ _ (by decide),
      getfield_assign_self]
  · rw [getfield_assign_ne _ _ _ _ (by decide), getfield_assign_ne _ _ _ _ (by decide),
      getfield_assign_ne _ _ _ _ (by decide), getfield_assign_ne _ _ _ _ (by decide),
      getfield_assign_ne _ _ _ _ (by decide), getfield_assign_ne _ _ _ _ (by decide),
      getfield_assign_ne _ _ _ _ (by decide), getfield_assign_ne _ _ _ _ (by decide),
      getfield_assign_ne _ _ _ _ (by decide), getfield_assign_ne _ _ _ _ (by decide),
      getfield_assign_ne _ _ _ _ (by decide), getfield_assign_self]
  · rw [getfield_assign_ne _ _ _ _ (by decide), getfield_assign_ne _ _ _ _ (by decide),
      getfield_assign_ne _ _ _ _ (by decide), getfield_assign_ne _ _ _ _ (by decide),
      getfield_assign_ne _ _ _ _ (by decide), getfield_assign_ne _ _ _ _ (by decide),
      getfield_assign_ne _ _ _ _ (by decide), getfield_assign_ne _ _ _ _ (by decide),
      getfield_assign_ne _ _ _ _ (by decide), getfield_assign_ne _ _ _ _ (by decide),
      getfield_assign_self]
  · rw [getfield_assign_ne _ _ _ _ (by decide), getfield_assign_ne _ _ _ _ (by decide),
      getfield_assign_ne _ _ _ _ (by decide), getfield_assign_ne _ _ _ _ (by decide),
      getfield_assign_ne _ _ _ _ (by decide), getfield_assign_ne _ _ _ _ (by decide),
      getfield_assign_ne _ _ _ _ (by decide), getfield_assign_ne _ _ _ _ (by decide),
      getfield_assign_ne _ _ _ _ (by decide), getfield_assign_self]
  · rw [getfield_assign_ne _ _ _ _ (by decide), getfield_assign_ne _ _ _ _ (by decide),
      getfield_assign_ne _ _ _ _ (by decide), getfield_assign_ne _ _ _ _ (by decide),
      getfield_assign_ne _ _ _ _ (by decide), getfield_assign_ne _ _ _ _ (by decide),
      getfield_assign_ne _ _ _ _ (by decide), getfield_assign_ne _ _ _ _ (by decide),
      getfield_assign_self]
  · rw [getfield_assign_ne _ _ _ _ (by decide), getfield_assign_ne _ _ _ _ (by decide),
      getfield_assign_ne _ _ _ _ (by decide), getfield_assign_ne _ _ _ _ (by decide),
      getfield_assign_ne _ _ _ _ (by decide), getfield_assign_ne _ _ _ _ (by decide),
      getfield_assign_ne _ _ _ _ (by decide), getfield_assign_self]
  · rw [getfield_assign_ne _ _ _ _ (by decide), getfield_assign_ne _ _ _ _ (by decide),
      getfield_assign_ne _ _ _ _ (by decide), getfield_assign_ne _ _ _ _ (by decide),
      getfield_assign_ne _ _ _ _ (by decide), getfield_assign_ne _ _ _ _ (by decide),
      getfield_assign_self]
  · rw [getfield_assign_ne _ _ _ _ (by decide), getfield_assign_ne _ _ _ _ (by decide),
      getfield_assign_ne _ _ _ _ (by decide), getfield_assign_ne _ _ _ _ (by decide),
      getfield_assign_ne _ _ _ _ (by decide), getfield_assign_self]
  · rw [getfield_assign_ne _ _ _ _ (by decide), getfield_assign_ne _ _ _ _ (by decide),
      getfield_assign_ne _ _ _ _ (by decide), getfield_assign_ne _ _ _ _ (by decide),
      getfield_assign_self]
  · rw [getfield_assign_ne _ _ _ _ (by decide), getfield_assign_ne _ _ _ _ (by decide),
      getfield_assign_ne _ _ _ _ (by decide), getfield_assign_self]
  · rw [getfield_assign_ne _ _ _ _ (by decide), getfield_assign_ne _ _ _ _ (by decide),
      getfield_assign_self]
  · rw [getfield_assign_ne _ _ _ _ (by decide), getfield_assign_self]
  · rw [getfield_assign_self]

theorem ant_build_record_present (env : Numerics K C)
    (directivity : octave_map K C → octave_map K C) (slice : octave_map K C → AngleSlice K C)
    (antenna : octave_map K C) (tmax ts az_angle zen_angle fixed_delay loss : K)
    (hp : contains antenna "aeff_p" = true) (ht : contains antenna "aeff_t" = true) :
    ant_build_record env directivity slice antenna tmax ts az_angle zen_angle fixed_delay loss =
      assign_time_domain antenna (ant_build_time_domain_angle env (slice antenna) tmax ts
        az_angle zen_angle fixed_delay loss) := by
  simp [ant_build_record, hp, ht]

theorem sample_record_present :
    contains sample_record "aeff_p" = true ∧ contains sample_record "aeff_t" = true := by
  constructor <;> simp [contains, sample_record]

theorem sample_record_slice : single_direction_slice sample_record = sample_slice := by
  simp [single_direction_slice, real_field, complex_field, getfield, sample_record, sample_slice,
    List.lookup]

/-- What `antenna_group_delay` returns on the record, when it returns one. -/
theorem antenna_group_delay_record_some (env : Numerics K C) (check : Option String)
    (fields : octave_map K C → AntennaFields K C) (antenna r : octave_map K C)
    (hr : antenna_group_delay_record env check fields antenna = some r) :
    ∃ out : GroupDelayFields K,
      antenna_group_delay env check (fields antenna) = GroupDelayResult.fields out ∧
      r = assign (assign antenna "gd_p" (octave_value.real_array out.gd_p)) "gd_t"
        (octave_value.real_array out.gd_t) := by
  unfold antenna_group_delay_record at hr
  split at hr
  · cases hr
  · cases hr
  · next out hout =>
    injection hr with hr
    exact ⟨out, hout, hr.symm⟩

/-- C14, refuted at the complete record `sample_record` (one direction, two
frequencies, all the fields the routine reads, and a field `td_tmax` with the value
1 from an earlier call), read by `single_direction_slice`: the record returned for
`tmax = 4` holds `td_tmax = 4`, so a field of the input record has been
overwritten. -/
theorem C14_counterexample :
    contains sample_record "aeff_p" = true ∧ contains sample_record "aeff_t" = true ∧
      getfield sample_record "td_tmax" = some (octave_value.real_scalar 1) ∧
      getfield (ant_build_record rational_stub (fun m => m) single_direction_slice
        sample_record 4 (1 / 2) 0 0 0 0) "td_tmax" = some (octave_value.real_scalar 4) ∧
      getfield (ant_build_record rational_stub (fun m => m) single_direction_slice
        sample_record 4 (1 / 2) 0 0 0 0) "td_tmax" ≠ getfield sample_record "td_tmax" := by
  have h1 : getfield sample_record "td_tmax" = some (octave_value.real_scalar 1) := by
    simp [getfield, sample_record, List.lookup]
  have h2 : getfield (ant_build_record rational_stub (fun m => m) single_direction_slice
      sample_record 4 (1 / 2) 0 0 0 0) "td_tmax" = some (octave_value.real_scalar 4) := by
    rw [ant_build_record_present _ _ _ _ _ _ _ _ _ _ sample_record_present.1
      sample_record_present.2]
    exact (getfield_assign_time_domain_new _ _).2.2.2.2.2.2.2.1
  refine ⟨sample_record_present.1, sample_record_present.2, h1, h2, ?_⟩
  rw [h1, h2]
  intro h
  have h3 : (4 : ℚ) = 1 := by
    injection h with h
    injection h
  norm_num at h3

/-- C14, amended: for a record that holds `aeff_p` and `aeff_t`, every field whose
name is not one of the thirteen assigned names has the same value in the record
returned by `ant_build_time_domain_angle`, and each of the thirteen names holds the
new value, whether the input record had a field of that name or not; a record
returned by `antenna_group_delay` holds `gd_p` and `gd_t` with the new values and
every other field with the value of the input record, and a record is returned
when the input passes validation and has at least two frequencies. -/
theorem C14_other_fields_kept (env : Numerics K C)
    (directivity : octave_map K C → octave_map K C) (slice : octave_map K C → AngleSlice K C)
    (antenna : octave_map K C) (tmax ts az_angle zen_angle fixed_delay loss : K)
    (check : Option String) (fields : octave_map K C → AntennaFields K C) :
    (contains antenna "aeff_p" = true → contains antenna "aeff_t" = true →
      (∀ key : String, key ∉ time_domain_names →
        getfield (ant_build_record env directivity slice antenna tmax ts az_angle zen_angle
          fixed_delay loss) key = getfield antenna key) ∧
      getfield (ant_build_record env directivity slice antenna tmax ts az_angle zen_angle
          fixed_delay loss) "td_freqs" =
        some (octave_value.real_array (ant_build_time_domain_angle env (slice antenna) tmax ts
          az_angle zen_angle fixed_delay loss).td_freqs) ∧
      getfield (ant_build_record env directivity slice antenna tmax ts az_angle zen_angle
          fixed_delay loss) "td_ep" =
        some (octave_value.complex_array (ant_build_time_domain_angle env (slice antenna) tmax
          ts az_angle zen_angle fixed_delay loss).td_ep) ∧
      getfield (ant_build_record env directivity slice antenna tmax ts az_angle zen_angle
          fixed_delay loss) "td_et" =
        some (octave_value.complex_array (ant_build_time_domain_angle env (slice antenna) tmax
          ts az_angle zen_angle fixed_delay loss).td_et) ∧
      getfield (ant_build_record env directivity slice antenna tmax ts az_angle zen_angle
          fixed_delay loss) "td_aeffp" =
        some (octave_value.complex_array (ant_build_time_domain_angle env (slice antenna) tmax
          ts az_angle zen_angle fixed_delay loss).td_aeffp) ∧
      getfield (ant_build_record env directivity slice antenna tmax ts az_angle zen_angle
          fixed_delay loss) "td_aefft" =
        some (octave_value.complex_array (ant_build_time_domain_angle env (slice antenna) tmax
          ts az_angle zen_angle fixed_delay loss).td_aefft) ∧
      getfield (ant_build_record env directivity slice antenna tmax ts az_angle zen_angle
          fixed_delay loss) "td_az" = some (octave_value.real_scalar az_angle) ∧
      getfield (ant_build_record env directivity slice antenna tmax ts az_angle zen_angle
          fixed_delay loss) "td_zen" = some (octave_value.real_scalar zen_angle) ∧
      getfield (ant_build_record env directivity slice antenna tmax ts az_angle zen_angle
          fixed_delay loss) "td_tmax" = some (octave_value.real_scalar tmax) ∧
      getfield (ant_build_record env directivity slice antenna tmax ts az_angle zen_angle
          fixed_delay loss) "td_ts" = some (octave_value.real_scalar ts) ∧
      getfield (ant_build_record env directivity slice antenna tmax ts az_angle zen_angle
          fixed_delay loss) "n_ffts" = some (octave_value.int_scalar (nsamples tmax ts)) ∧
      getfield (ant_build_record env directivity slice antenna tmax ts az_angle zen_angle
          fixed_delay loss) "td_delay" = some (octave_value.real_scalar fixed_delay) ∧
      getfield (ant_build_record env directivity slice antenna tmax ts az_angle zen_angle
          fixed_delay loss) "td_loss" = some (octave_value.real_scalar loss) ∧
      getfield (ant_build_record env directivity slice antenna tmax ts az_angle zen_angle
          fixed_delay loss) "td_dir_abs" =
        some (octave_value.real_array (ant_build_time_domain_angle env (slice antenna) tmax ts
          az_angle zen_angle fixed_delay loss).td_dir_abs)) ∧
    (∀ r : octave_map K C, antenna_group_delay_record env check fields antenna = some r →
      ∃ out : GroupDelayFields K,
        antenna_group_delay env check (fields antenna) = GroupDelayResult.fields out ∧
        (∀ key : String, key ≠ "gd_p" → key ≠ "gd_t" → getfield r key = getfield antenna key) ∧
        getfield r "gd_p" = some (octave_value.real_array out.gd_p) ∧
        getfield r "gd_t" = some (octave_value.real_array out.gd_t)) ∧
    (check = none → 2 ≤ (fields antenna).freq.length →
      ∃ r : octave_map K C, antenna_group_delay_record env check fields antenna = some r) := by
  refine ⟨fun hp ht => ?_, fun r hr => ?_, fun hc hnf => ?_⟩
  · rw [ant_build_record_present _ _ _ _ _ _ _ _ _ _ hp ht]
    exact ⟨fun key hkey => getfield_assign_time_domain _ _ _ hkey,
      getfield_assign_time_domain_new _ _⟩
  · obtain ⟨out, hout, hr2⟩ := antenna_group_delay_record_some env check fields antenna r hr
    refine ⟨out, hout, fun key hp ht => ?_, ?_, ?_⟩
    · rw [hr2, getfield_assign_ne _ _ _ _ ht, getfield_assign_ne _ _ _ _ hp]
    · rw [hr2, getfield_assign_ne _ _ _ _ (by decide), getfield_assign_self]
    · rw [hr2, getfield_assign_self]
  · subst hc
    have hne : ¬ (((fields antenna).freq.length : Nat) : Int) = 1 := by omega
    have hneg : ¬ (((fields antenna).freq.length : Nat) : Int) - 1 < 0 := by omega
    simp only [antenna_group_delay_record, antenna_group_delay, if_neg hne, if_neg hneg]
    exact ⟨_, rfl⟩

theorem sample_record_freq :
    (single_direction_fields sample_record : AntennaFields ℚ ℚ).freq = [1 / 4, 1 / 2] := by
  simp [single_direction_fields, real_field, getfield, sample_record, List.lookup]

/-- C14 (amended) at `sample_record`: the field `freq` is kept by both routines,
`td_tmax` holds the new value 4, and `antenna_group_delay` returns a record. -/
theorem C14_other_fields_kept_witness :
    getfield (ant_build_record rational_stub (fun m => m) single_direction_slice
        sample_record 4 (1 / 2) 0 0 0 0) "freq" = getfield sample_record "freq" ∧
      getfield (ant_build_record rational_stub (fun m => m) single_direction_slice
        sample_record 4 (1 / 2) 0 0 0 0) "td_tmax" = some (octave_value.real_scalar 4) ∧
      ∃ r : octave_map ℚ ℚ,
        antenna_group_delay_record rational_stub none single_direction_fields sample_record =
          some r :=
  ⟨((C14_other_fields_kept rational_stub (fun m => m) single_direction_slice sample_record 4
      (1 / 2) 0 0 0 0 none single_direction_fields).1 sample_record_present.1
      sample_record_present.2).1 "freq" (by decide),
    ((C14_other_fields_kept rational_stub (fun m => m) single_direction_slice sample_record 4
      (1 / 2) 0 0 0 0 none single_direction_fields).1 sample_record_present.1
      sample_record_present.2).2.2.2.2.2.2.2.2.1,
    (C14_other_fields_kept rational_stub (fun m => m) single_direction_slice sample_record 4
      (1 / 2) 0 0 0 0 none single_direction_fields).2.2 rfl
      (by rw [sample_record_freq]; decide)⟩

end RecordFrame

section LinearPhase

/-- The cells of the two output arrays, for a record with at least two
frequencies that passes validation. -/
theorem antenna_group_delay_cells {K C : Type} [LinearOrderedField K] [Field C]
    (env : Numerics K C) (ant : AntennaFields K C) (hnf : 2 ≤ ant.freq.length) :
    ∃ out : GroupDelayFields K,
      antenna_group_delay env none ant = GroupDelayResult.fields out ∧
      ∀ (a z i : Nat) (_ : a < ant.azimuth.length) (_ : z < ant.zenith.length)
        (hi : i + 1 < ant.freq.length),
        out.gd_p[xelem_index ant.azimuth.length ant.zenith.length a z i]? =
          some (group_delay_value env ant.fixed_delay ant.freq[i + 1] ant.freq[i]
            (ant.ep a z (i + 1)) (ant.ep a z i)) ∧
        out.gd_t[xelem_index ant.azimuth.length ant.zenith.length a z i]? =
          some (group_delay_value env ant.fixed_delay ant.freq[i + 1] ant.freq[i]
            (ant.et a z (i + 1)) (ant.et a z i)) := by
  have hne : ¬ ((ant.freq.length : Int) = 1) := by omega
  have hneg : ¬ ((ant.freq.length : Int) - 1 < 0) := by omega
  have hint : ((ant.freq.length : Int) - 1).toNat = ant.freq.length - 1 := by omega
  refine ⟨_, by simp only [antenna_group_delay, if_neg hne, if_neg hneg, hint]; rfl, ?_⟩
  intro a z i ha hz h1
  have hi : i < ant.freq.length - 1 := by omega
  have hi0 : i < ant.freq.length := by omega
  constructor
  · simp only [gd_loops_flat, gd_fold_fst]
    rw [gd_cell env ant ant.ep _ _ _ a z i _ ha hz hi (List.length_replicate _ _)]
    simp only [getD_of_lt _ _ _ h1, getD_of_lt _ _ _ hi0]
  · simp only [gd_loops_flat, gd_fold_snd]
    rw [gd_cell env ant ant.et _ _ _ a z i _ ha hz hi (List.length_replicate _ _)]
    simp only [getD_of_lt _ _ _ h1, getD_of_lt _ _ _ hi0]

/-- The value stored for a linear-phase field when the compensated phase step lies
in `(-π, π]`. -/
theorem exact_linear_value (REF_DISTANCE C0 : ℝ)
    (interp1 : List ℝ → List ℂ → List ℝ → List ℂ)
    (interp1_real : List ℝ → List ℝ → List ℝ → List ℝ) (f1 f0 tau : ℝ) (hne : f1 ≠ f0)
    (hlo : -Real.pi < 2 * Real.pi * (f1 - f0) * (REF_DISTANCE / C0 - tau))
    (hhi : 2 * Real.pi * (f1 - f0) * (REF_DISTANCE / C0 - tau) ≤ Real.pi) :
    group_delay_value (exact_numerics REF_DISTANCE C0 (unwrap Real.pi) interp1 interp1_real) 0
        f1 f0 (Complex.exp (Complex.mk 0 (-(2 * Real.pi * f1 * tau))))
        (Complex.exp (Complex.mk 0 (-(2 * Real.pi * f0 * tau)))) =
      2 * (REF_DISTANCE / C0) - tau := by
  have hprod : Complex.exp (Complex.mk 0 (2 * Real.pi * (f1 - f0) * (REF_DISTANCE / C0))) *
      Complex.exp (Complex.mk 0 (-(2 * Real.pi * f1 * tau))) *
      (starRingEnd ℂ) (Complex.exp (Complex.mk 0 (-(2 * Real.pi * f0 * tau)))) =
      Complex.exp (((2 * Real.pi * (f1 - f0) * (REF_DISTANCE / C0 - tau) : ℝ) : ℂ)
        * Complex.I) := by
    rw [← Complex.exp_conj, mk_zero_eq, mk_zero_eq, mk_zero_eq, map_mul, Complex.conj_ofReal,
      Complex.conj_I, ← Complex.exp_add, ← Complex.exp_add]
    congr 1
    push_cast
    ring
  have harg : Complex.arg (Complex.exp
      (((2 * Real.pi * (f1 - f0) * (REF_DISTANCE / C0 - tau) : ℝ) : ℂ) * Complex.I)) =
      2 * Real.pi * (f1 - f0) * (REF_DISTANCE / C0 - tau) := by
    rw [Complex.exp_mul_I, Complex.arg_cos_add_sin_mul_I ⟨hlo, hhi⟩]
  have hom : 2 * Real.pi * (f1 - f0) ≠ 0 :=
    mul_ne_zero (mul_ne_zero two_ne_zero Real.pi_ne_zero) (sub_ne_zero.mpr hne)
  simp only [group_delay_value, exact_numerics]
  rw [hprod, harg, unwrap_of_mem _ _ Real.pi_pos hlo hhi]
  field_simp
  ring

end LinearPhase

section LinearPhaseAllConstants

/-- For the axis `[0, 1]`: if the stored value of a linear-phase field is
`delayRef + τ`, then `exp (i 2 π delayRef) = exp (i 4 π τ)`. -/
theorem linear_value_sum (REF_DISTANCE C0 tau : ℝ)
    (h : group_delay_value (exact_unwrap_numerics REF_DISTANCE C0) 0 1 0
        (Complex.exp (Complex.mk 0 (-(2 * Real.pi * 1 * tau))))
        (Complex.exp (Complex.mk 0 (-(2 * Real.pi * 0 * tau)))) = REF_DISTANCE / C0 + tau) :
    Complex.exp (((2 * Real.pi * (REF_DISTANCE / C0) : ℝ) : ℂ) * Complex.I) =
      Complex.exp (((4 * Real.pi * tau : ℝ) : ℂ) * Complex.I) := by
  have hprod : Complex.exp (Complex.mk 0 (2 * Real.pi * (1 - 0) * (REF_DISTANCE / C0))) *
      Complex.exp (Complex.mk 0 (-(2 * Real.pi * 1 * tau))) *
      (starRingEnd ℂ) (Complex.exp (Complex.mk 0 (-(2 * Real.pi * 0 * tau)))) =
      Complex.exp (((2 * Real.pi * (REF_DISTANCE / C0 - tau) : ℝ) : ℂ) * Complex.I) := by
    rw [← Complex.exp_conj, mk_zero_eq, mk_zero_eq, mk_zero_eq, map_mul, Complex.conj_ofReal,
      Complex.conj_I, ← Complex.exp_add, ← Complex.exp_add]
    congr 1
    push_cast
    ring
  simp only [group_delay_value, exact_unwrap_numerics, exact_numerics] at h
  rw [hprod, unwrap_of_mem _ _ Real.pi_pos (Complex.neg_pi_lt_arg _) (Complex.arg_le_pi _)] at h
  have hpi : (2 * Real.pi * (1 - 0) : ℝ) ≠ 0 := by
    have := Real.pi_pos
    nlinarith
  have hw : Complex.arg (Complex.exp
      (((2 * Real.pi * (REF_DISTANCE / C0 - tau) : ℝ) : ℂ) * Complex.I)) =
      2 * Real.pi * tau := by
    have hdiv : Complex.arg (Complex.exp
        (((2 * Real.pi * (REF_DISTANCE / C0 - tau) : ℝ) : ℂ) * Complex.I))
        / (2 * Real.pi * (1 - 0)) = tau := by linarith
    rw [div_eq_iff hpi] at hdiv
    rw [hdiv]
    ring
  have hz := Complex.abs_mul_exp_arg_mul_I (Complex.exp
    (((2 * Real.pi * (REF_DISTANCE / C0 - tau) : ℝ) : ℂ) * Complex.I))
  rw [Complex.abs_exp_ofReal_mul_I, hw, Complex.ofReal_one, one_mul] at hz
  have hsum : ((2 * Real.pi * (REF_DISTANCE / C0) : ℝ) : ℂ) * Complex.I =
      ((2 * Real.pi * (REF_DISTANCE / C0 - tau) : ℝ) : ℂ) * Complex.I
        + ((2 * Real.pi * tau : ℝ) : ℂ) * Complex.I := by
    push_cast
    ring
  have hdbl : ((4 * Real.pi * tau : ℝ) : ℂ) * Complex.I =
      ((2 * Real.pi * tau : ℝ) : ℂ) * Complex.I + ((2 * Real.pi * tau : ℝ) : ℂ) * Complex.I := by
    push_cast
    ring
  rw [hsum, hdbl, Complex.exp_add, Complex.exp_add, ← hz]

/-- Whatever the constants `REF_DISTANCE` and `C0`: on the axis `[0, 1]` the value
`delayRef + τ` is not returned for both `τ = 1/4` and `τ = 1/8`. -/
theorem linear_phase_sum_refuted (REF_DISTANCE C0 : ℝ) :
    ¬ (group_delay_value (exact_unwrap_numerics REF_DISTANCE C0) 0 1 0
          (Complex.exp (Complex.mk 0 (-(2 * Real.pi * 1 * (1 / 4)))))
          (Complex.exp (Complex.mk 0 (-(2 * Real.pi * 0 * (1 / 4))))) =
          REF_DISTANCE / C0 + 1 / 4 ∧
        group_delay_value (exact_unwrap_numerics REF_DISTANCE C0) 0 1 0
          (Complex.exp (Complex.mk 0 (-(2 * Real.pi * 1 * (1 / 8)))))
          (Complex.exp (Complex.mk 0 (-(2 * Real.pi * 0 * (1 / 8))))) =
          REF_DISTANCE / C0 + 1 / 8) := by
  rintro ⟨hA, hB⟩
  have eA := linear_value_sum REF_DISTANCE C0 (1 / 4) hA
  have eB := linear_value_sum REF_DISTANCE C0 (1 / 8) hB
  have h1 : ((4 * Real.pi * (1 / 4) : ℝ) : ℂ) = (Real.pi : ℂ) := by push_cast; ring
  have h2 : ((4 * Real.pi * (1 / 8) : ℝ) : ℂ) = (Real.pi : ℂ) / 2 := by push_cast; ring
  rw [h1, Complex.exp_pi_mul_I] at eA
  have h3 : Complex.exp ((Real.pi : ℂ) / 2 * Complex.I) = Complex.I := by
    have h4 : (Real.pi : ℂ) / 2 = ((Real.pi / 2 : ℝ) : ℂ) := by push_cast; ring
    rw [h4, Complex.exp_mul_I, ← Complex.ofReal_cos, ← Complex.ofReal_sin, Real.cos_pi_div_two,
      Real.sin_pi_div_two, Complex.ofReal_zero, Complex.ofReal_one, zero_add, one_mul]
  rw [h2, h3, eA] at eB
  have := congrArg Complex.re eB
  norm_num at this

/-- Whatever the constants `REF_DISTANCE` and `C0`: for the two records with one
direction, the axis `[0, 1]` and the linear phases `τ = 1/4` and `τ = 1/8`, the
outputs are not both `gd_p (0) = delayRef + τ`. -/
theorem linear_phase_outputs_refuted (REF_DISTANCE C0 : ℝ) :
    ∃ outA outB : GroupDelayFields ℝ,
      antenna_group_delay (exact_unwrap_numerics REF_DISTANCE C0) none
        (linear_phase_antenna [0] [0] [0, 1] (1 / 4)) = GroupDelayResult.fields outA ∧
      antenna_group_delay (exact_unwrap_numerics REF_DISTANCE C0) none
        (linear_phase_antenna [0] [0] [0, 1] (1 / 8)) = GroupDelayResult.fields outB ∧
      ¬ (outA.gd_p[0]? = some (REF_DISTANCE / C0 + 1 / 4) ∧
        outB.gd_p[0]? = some (REF_DISTANCE / C0 + 1 / 8)) := by
  obtain ⟨outA, hA, cA⟩ := antenna_group_delay_cells (exact_unwrap_numerics REF_DISTANCE C0)
    (linear_phase_antenna [0] [0] [0, 1] (1 / 4)) (by decide)
  obtain ⟨outB, hB, cB⟩ := antenna_group_delay_cells (exact_unwrap_numerics REF_DISTANCE C0)
    (linear_phase_antenna [0] [0] [0, 1] (1 / 8)) (by decide)
  refine ⟨outA, outB, hA, hB, ?_⟩
  rintro ⟨eA, eB⟩
  have pA := (cA 0 0 0 (by decide) (by decide) (by decide)).1
  have pB := (cB 0 0 0 (by decide) (by decide) (by decide)).1
  have qA : outA.gd_p[0]? = _ := pA
  have qB : outB.gd_p[0]? = _ := pB
  rw [eA] at qA
  rw [eB] at qB
  injection qA with qA
  injection qB with qB
  apply linear_phase_sum_refuted REF_DISTANCE C0
  constructor
  · rw [qA]
    simp [linear_phase_antenna]
  · rw [qB]
    simp [linear_phase_antenna]

end LinearPhaseAllConstants

section LinearPhaseClaims

theorem canonical_step :
    -Real.pi < 2 * Real.pi * ((1100000000 : ℝ) - 1000000000)
        * ((1 : ℝ) / 299792458 - 1 / 1000000000) ∧
      2 * Real.pi * ((1100000000 : ℝ) - 1000000000) * ((1 : ℝ) / 299792458 - 1 / 1000000000)
        ≤ Real.pi := by
  have h : 2 * Real.pi * ((1100000000 : ℝ) - 1000000000)
      * ((1 : ℝ) / 299792458 - 1 / 1000000000) = Real.pi * (350103771 / 749481145) := by
    ring
  rw [h]
  constructor <;> nlinarith [Real.pi_pos]

/-- C11, what the code returns: for a field with the linear phase
`X (f) = exp (-i 2 π f τ)` and `fixedDelay = 0`, in exact arithmetic, the routine
returns `gd_X (i) = 2 delayRef - τ`, with `delayRef = REF_DISTANCE / C0`, for every
interval `i` with `f_{i+1} ≠ f_i` whose compensated phase step
`2 π (f_{i+1} - f_i) (delayRef - τ)` lies in `(-π, π]`: the phase slope that lines
92-93 add is the one that the group delay `delayRef + τ` subtracts. -/
theorem C11_linear_phase (REF_DISTANCE C0 : ℝ) (azimuth zenith freq : List ℝ) (tau : ℝ)
    (a z i : Nat) (ha : a < azimuth.length) (hz : z < zenith.length) (hi : i + 1 < freq.length)
    (hne : freq[i + 1] ≠ freq[i])
    (hlo : -Real.pi < 2 * Real.pi * (freq[i + 1] - freq[i]) * (REF_DISTANCE / C0 - tau))
    (hhi : 2 * Real.pi * (freq[i + 1] - freq[i]) * (REF_DISTANCE / C0 - tau) ≤ Real.pi) :
    ∃ out : GroupDelayFields ℝ,
      antenna_group_delay (exact_unwrap_numerics REF_DISTANCE C0) none
        (linear_phase_antenna azimuth zenith freq tau) = GroupDelayResult.fields out ∧
      out.gd_p[xelem_index azimuth.length zenith.length a z i]? =
        some (2 * (REF_DISTANCE / C0) - tau) ∧
      out.gd_t[xelem_index azimuth.length zenith.length a z i]? =
        some (2 * (REF_DISTANCE / C0) - tau) := by
  obtain ⟨out, hout, hcell⟩ := antenna_group_delay_cells (exact_unwrap_numerics REF_DISTANCE C0)
    (linear_phase_antenna azimuth zenith freq tau) (by show 2 ≤ freq.length; omega)
  obtain ⟨hp, ht⟩ := hcell a z i ha hz hi
  have hval := exact_linear_value REF_DISTANCE C0 (fun _ _ xi => xi.map (fun _ => 0))
    (fun _ _ xi => xi.map (fun _ => 0)) freq[i + 1] freq[i] tau hne hlo hhi
  have hi0 : i < freq.length := by omega
  refine ⟨out, hout, ?_, ?_⟩
  · rw [← hval]
    simpa only [linear_phase_antenna, getD_of_lt _ _ _ hi, getD_of_lt _ _ _ hi0] using hp
  · rw [← hval]
    simpa only [linear_phase_antenna, getD_of_lt _ _ _ hi, getD_of_lt _ _ _ hi0] using ht

/-- C11 at the canonical record (`f0 = 1e9`, `f1 = 1.1e9`, `τ = 1e-9`), with the
values 1 and 299792458 standing for the constants of the header. -/
theorem C11_linear_phase_witness :
    ∃ out : GroupDelayFields ℝ,
      antenna_group_delay (exact_unwrap_numerics 1 299792458) none
        (linear_phase_antenna [0] [0] [1000000000, 1100000000] (1 / 1000000000)) =
        GroupDelayResult.fields out ∧
      out.gd_p[xelem_index 1 1 0 0 0]? = some (2 * ((1 : ℝ) / 299792458) - 1 / 1000000000) ∧
      out.gd_t[xelem_index 1 1 0 0 0]? = some (2 * ((1 : ℝ) / 299792458) - 1 / 1000000000) :=
  C11_linear_phase 1 299792458 [0] [0] [1000000000, 1100000000] (1 / 1000000000) 0 0 0
    (by decide) (by decide) (by simp) (by norm_num) canonical_step.1 canonical_step.2

end LinearPhaseClaims

/-! ## Double precision: rounding -/

theorem round_half_even_floor_le (y : ℚ) : Int.floor y ≤ round_half_even y := by
  unfold round_half_even
  split_ifs <;> omega

theorem round_half_even_le_floor_succ (y : ℚ) : round_half_even y ≤ Int.floor y + 1 := by
  unfold round_half_even
  split_ifs <;> omega

theorem round_half_even_error (y : ℚ) : |(round_half_even y : ℚ) - y| ≤ 1 / 2 := by
  have h1 := Int.floor_le y
  have h2 := Int.lt_floor_add_one y
  unfold round_half_even
  rw [abs_le]
  split_ifs with ha hb hc
  · constructor <;> linarith
  · push_cast; constructor <;> linarith
  · constructor <;> linarith
  · push_cast; constructor <;> linarith

theorem round_half_even_ge (y : ℚ) (n : Int) (h : (n : ℚ) ≤ y) : n ≤ round_half_even y :=
  le_trans (Int.le_floor.mpr h) (round_half_even_floor_le y)

theorem round_half_even_near (y : ℚ) (m : Int) (h : |y - m| < 1 / 2) :
    round_half_even y = m := by
  rw [abs_lt] at h
  have h1 := Int.floor_le y
  have h2 := Int.lt_floor_add_one y
  have e := round_half_even_error y
  rw [abs_le] at e
  have a : ((round_half_even y : Int) : ℚ) - m < 1 := by linarith
  have b : (-1 : ℚ) < (round_half_even y : ℚ) - m := by linarith
  have a1 : round_half_even y - m < 1 := by exact_mod_cast a
  have b1 : -1 < round_half_even y - m := by exact_mod_cast b
  omega

theorem round_half_even_tie_odd (m : Int) (h : m % 2 = 1) :
    round_half_even ((m : ℚ) + 1 / 2) = m + 1 := by
  have hf : Int.floor ((m : ℚ) + 1 / 2) = m := by
    rw [Int.floor_eq_iff]; constructor <;> linarith
  unfold round_half_even
  rw [hf]
  have e : (m : ℚ) + 1 / 2 - m = 1 / 2 := by ring
  rw [e]
  simp [h]

theorem log_two_eq (x : ℚ) (k : Int) (h1 : (2 : ℚ) ^ k ≤ x) (h2 : x < (2 : ℚ) ^ (k + 1)) :
    Int.log 2 x = k := by
  have hx : 0 < x := lt_of_lt_of_le (by positivity) h1
  have a : k ≤ Int.log 2 x := (Int.zpow_le_iff_le_log (by norm_num) hx).mp (by exact_mod_cast h1)
  have b : Int.log 2 x < k + 1 := (Int.lt_zpow_iff_log_lt (by norm_num) hx).mp (by exact_mod_cast h2)
  omega

/-- Evaluation of `round_double` at a positive value with known exponent. -/
theorem round_double_eval (x : ℚ) (e m : Int) (he : -1074 ≤ e) (h1 : (2 : ℚ) ^ (e + 52) ≤ x)
    (h2 : x < (2 : ℚ) ^ (e + 52 + 1)) (hm : round_half_even (x / 2 ^ e) = m) :
    round_double x = (m : ℚ) * 2 ^ e := by
  have hx : 0 < x := lt_of_lt_of_le (by positivity) h1
  have hl : Int.log 2 |x| = e + 52 := by
    rw [abs_of_pos hx]; exact log_two_eq x _ h1 h2
  have hd : double_exponent x = e := by
    unfold double_exponent; rw [hl]; omega
  unfold round_double
  rw [if_neg (ne_of_gt hx), hd, hm]

/-- In the normal range the last place is 52 binary places below the leading one. -/
theorem double_exponent_normal (x : ℚ) (hx : 1 / 2 ^ 1022 ≤ x) :
    double_exponent x = Int.log 2 x - 52 := by
  have hx0 : 0 < x := lt_of_lt_of_le (by positivity) hx
  have h : (((2 : ℕ) : ℚ)) ^ (-1022 : Int) ≤ x := by
    have e : (((2 : ℕ) : ℚ)) ^ (-1022 : Int) = 1 / 2 ^ 1022 := by
      rw [zpow_neg, one_div]; norm_cast
    rw [e]; exact hx
  have hL := (Int.zpow_le_iff_le_log (by norm_num) hx0).mp h
  unfold double_exponent
  rw [abs_of_pos hx0]
  omega

theorem round_double_zero : round_double 0 = 0 := by
  unfold round_double; simp

/-- One rounding moves a positive value by at most the fraction `2 ^ (-53)` of it. -/
theorem round_double_error (x : ℚ) (hn : 1 / 2 ^ 1022 ≤ x) :
    |round_double x - x| ≤ x * (1 / 2 ^ 53) := by
  have hx : 0 < x := lt_of_lt_of_le (by positivity) hn
  have hlo : ((2 : ℕ) : ℚ) ^ Int.log 2 x ≤ x := Int.zpow_log_le_self (by norm_num) hx
  unfold round_double
  rw [if_neg (ne_of_gt hx), double_exponent_normal x hn]
  set L := Int.log 2 x with hL
  have hp : (0 : ℚ) < 2 ^ (L - 52) := by positivity
  have e := round_half_even_error (x / 2 ^ (L - 52))
  have hsplit : (2 : ℚ) ^ L = 2 ^ (L - 52) * 2 ^ (52 : ℕ) := by
    rw [← zpow_natCast, ← zpow_add₀ (by norm_num)]; congr 1; omega
  have hlo2 : (2 : ℚ) ^ L ≤ x := by exact_mod_cast hlo
  have key : (round_half_even (x / 2 ^ (L - 52)) : ℚ) * 2 ^ (L - 52) - x
      = ((round_half_even (x / 2 ^ (L - 52)) : ℚ) - x / 2 ^ (L - 52)) * 2 ^ (L - 52) := by
    field_simp
  rw [key, abs_mul, abs_of_pos hp]
  calc |(round_half_even (x / 2 ^ (L - 52)) : ℚ) - x / 2 ^ (L - 52)| * 2 ^ (L - 52)
      ≤ 1 / 2 * 2 ^ (L - 52) := by
        exact mul_le_mul_of_nonneg_right e (le_of_lt hp)
    _ = 2 ^ L * (1 / 2 ^ 53) := by rw [hsplit]; ring
    _ ≤ x * (1 / 2 ^ 53) := by
        exact mul_le_mul_of_nonneg_right hlo2 (by positivity)

theorem round_double_lower (x : ℚ) (hx : 1 / 2 ^ 1022 ≤ x) :
    x * (1 - 1 / 2 ^ 53) ≤ round_double x := by
  have h := round_double_error x hx
  rw [abs_le] at h
  linarith [h.1]

theorem round_double_upper (x : ℚ) (hx : 1 / 2 ^ 1022 ≤ x) :
    round_double x ≤ x * (1 + 1 / 2 ^ 53) := by
  have h := round_double_error x hx
  rw [abs_le] at h
  linarith [h.2]

theorem round_double_pos (x : ℚ) (hn : 1 / 2 ^ 1022 ≤ x) : 0 < round_double x := by
  have hx : 0 < x := lt_of_lt_of_le (by positivity) hn
  have h := round_double_lower x hn
  have : 0 < x * (1 - 1 / 2 ^ 53) := mul_pos hx (by norm_num)
  linarith

/-- Rounding keeps a value that is at least `1` at least `1`. -/
theorem round_double_one_le (x : ℚ) (hx : 1 ≤ x) : 1 ≤ round_double x := by
  have hx0 : 0 < x := by linarith
  have hlo : ((2 : ℕ) : ℚ) ^ Int.log 2 x ≤ x := Int.zpow_log_le_self (by norm_num) hx0
  have hL : 0 ≤ Int.log 2 x := by
    have := (Int.zpow_le_iff_le_log (b := 2) (x := 0) (by norm_num) hx0).mp (by simpa using hx)
    exact this
  have hn : (1 : ℚ) / 2 ^ 1022 ≤ x :=
    le_trans (by rw [div_le_iff₀ (by positivity)]; norm_num) hx
  unfold round_double
  rw [if_neg (ne_of_gt hx0), double_exponent_normal x hn]
  set L := Int.log 2 x with hLd
  have hp : (0 : ℚ) < 2 ^ (L - 52) := by positivity
  have hsplit : (2 : ℚ) ^ L = 2 ^ (L - 52) * 2 ^ (52 : ℕ) := by
    rw [← zpow_natCast, ← zpow_add₀ (by norm_num)]; congr 1; omega
  have hlo2 : (2 : ℚ) ^ L ≤ x := by exact_mod_cast hlo
  have hq : (((2 : Int) ^ 52 : Int) : ℚ) ≤ x / 2 ^ (L - 52) := by
    rw [le_div_iff₀ hp]
    have e2 : (((2 : Int) ^ 52 : Int) : ℚ) = 2 ^ (52 : ℕ) := by push_cast; rfl
    rw [e2, mul_comm, ← hsplit]; exact hlo2
  have hr := round_half_even_ge _ _ hq
  have hr2 : ((2 : ℚ) ^ (52 : ℕ)) ≤ (round_half_even (x / 2 ^ (L - 52)) : ℚ) := by
    exact_mod_cast hr
  have h1 : (1 : ℚ) ≤ 2 ^ L := by
    exact one_le_zpow₀ (by norm_num) hL
  calc (1 : ℚ) ≤ 2 ^ L := h1
    _ = 2 ^ (52 : ℕ) * 2 ^ (L - 52) := by rw [hsplit]; ring
    _ ≤ _ := mul_le_mul_of_nonneg_right hr2 (le_of_lt hp)

/-! ## Double precision: the grid -/

theorem round_double_exact (x : ℚ) (e m : Int) (he : -1074 ≤ e) (h1 : (2 : ℚ) ^ (e + 52) ≤ x)
    (h2 : x < (2 : ℚ) ^ (e + 52 + 1)) (hm : x / 2 ^ e = (m : ℚ)) :
    round_double x = x := by
  rw [round_double_eval x e m he h1 h2 (round_half_even_near _ m (by rw [hm]; norm_num)), ← hm]
  have : (0 : ℚ) < 2 ^ e := by positivity
  field_simp

theorem freq_of_interests_double_length (n : Int) (ts : ℚ) :
    (freq_of_interests_double n ts).length = (fft_half_max n + 1).toNat := by
  simp only [freq_of_interests_double]
  rw [foldl_set_length (fun f => f)]
  simp [resize]

theorem freq_of_interests_double_getElem? (n : Int) (ts : ℚ) (k : Nat)
    (hk : k < (fft_half_max n + 1).toNat) :
    (freq_of_interests_double n ts)[k]? = some (round_double ((k : ℚ) * df_double n ts)) := by
  simp only [freq_of_interests_double]
  rw [foldl_set_range_zero, if_pos ⟨hk, by simpa [resize] using hk⟩]

theorem double_quotient_66_3 : round_double (66 / 3) = 22 := by
  have e : (66 : ℚ) / 3 = 22 := by norm_num
  rw [e]
  exact round_double_exact 22 (-48) (22 * 2 ^ 48) (by decide) (by norm_num) (by norm_num)
    (by norm_num)

theorem double_nsamples_66_3 : nsamples_double 66 3 = some 22 := by
  unfold nsamples_double
  rw [if_neg (by norm_num), double_quotient_66_3]
  simp

theorem double_df_22_3 : df_double 22 3 = 8734253822779144 / 2 ^ 59 := by
  unfold df_double
  have e : ((22 : Int) : ℚ) * 3 = 66 := by norm_num
  rw [e, round_double_exact 66 (-46) (66 * 2 ^ 46) (by decide) (by norm_num) (by norm_num)
    (by norm_num)]
  rw [round_double_eval (1 / 66) (-59) 8734253822779144 (by decide) (by norm_num) (by norm_num)
    (round_half_even_near _ _ (by rw [abs_lt]; constructor <;> norm_num))]
  norm_num

theorem double_last_22_3 :
    round_double (((11 : Nat) : ℚ) * df_double 22 3) = 6004799503160662 / 2 ^ 55 := by
  rw [double_df_22_3]
  have h := round_half_even_tie_odd 6004799503160661 (by decide)
  rw [round_double_eval _ (-55) (6004799503160661 + 1) (by decide) (by norm_num) (by norm_num)
    (by rw [← h]; congr 1; norm_num)]
  norm_num

theorem double_fsim_max_3 : fsim_max_double 3 = 6004799503160661 / 2 ^ 55 := by
  unfold fsim_max_double
  have e : (3 : ℚ) * 2 = 6 := by norm_num
  rw [e, round_double_exact 6 (-50) (6 * 2 ^ 50) (by decide) (by norm_num) (by norm_num)
    (by norm_num)]
  rw [round_double_eval (1 / 6) (-55) 6004799503160661 (by decide) (by norm_num) (by norm_num)
    (round_half_even_near _ _ (by rw [abs_lt]; constructor <;> norm_num))]
  norm_num

theorem double_quotient_rounds_up :
    round_double ((6 + 1 / 2 ^ 50) / (1 + 1 / 2 ^ 52)) = 6 := by
  rw [round_double_eval _ (-50) (6 * 2 ^ 50) (by decide) (by norm_num) (by norm_num)
    (round_half_even_near _ _ (by rw [abs_lt]; constructor <;> norm_num))]
  norm_num

theorem double_quotient_large : round_double (3000000000 / 1) = 3000000000 := by
  have e : (3000000000 : ℚ) / 1 = 3000000000 := by norm_num
  rw [e]
  exact round_double_exact 3000000000 (-21) (3000000000 * 2 ^ 21) (by decide) (by norm_num)
    (by norm_num) (by norm_num)

/-! ## Double precision: error bounds -/

/-- The rounded reciprocal of a value `p` known up to one rounding of `x`. -/
theorem double_inverse_bounds (x p : ℚ) (hx : 0 < x) (hxu : x ≤ 2 ^ 1000)
    (h1 : x * (1 - 1 / 2 ^ 53) ≤ p) (h2 : p ≤ x * (1 + 1 / 2 ^ 53)) :
    1 / x * ((1 - 1 / 2 ^ 53) / (1 + 1 / 2 ^ 53)) ≤ round_double (1 / p) ∧
      round_double (1 / p) ≤ 1 / x * ((1 + 1 / 2 ^ 53) / (1 - 1 / 2 ^ 53)) := by
  have hp : 0 < p := lt_of_lt_of_le (mul_pos hx (by norm_num)) h1
  have i1 : 1 / (x * (1 + 1 / 2 ^ 53)) ≤ 1 / p := one_div_le_one_div_of_le hp h2
  have i2 : 1 / p ≤ 1 / (x * (1 - 1 / 2 ^ 53)) :=
    one_div_le_one_div_of_le (mul_pos hx (by norm_num)) h1
  have e1 : 1 / (x * (1 + 1 / 2 ^ 53)) = 1 / x * (1 / (1 + 1 / 2 ^ 53)) := by
    rw [one_div_mul_one_div]
  have e2 : 1 / (x * (1 - 1 / 2 ^ 53)) = 1 / x * (1 / (1 - 1 / 2 ^ 53)) := by
    rw [one_div_mul_one_div]
  rw [e1] at i1
  rw [e2] at i2
  have hy : (1 : ℚ) / 2 ^ 1000 ≤ 1 / x := one_div_le_one_div_of_le hx hxu
  have hn : (1 : ℚ) / 2 ^ 1022 ≤ 1 / p := by
    have c : (1 : ℚ) / 2 ^ 1022 ≤ 1 / 2 ^ 1000 * (1 / (1 + 1 / 2 ^ 53)) := by norm_num
    have d : (1 : ℚ) / 2 ^ 1000 * (1 / (1 + 1 / 2 ^ 53)) ≤ 1 / x * (1 / (1 + 1 / 2 ^ 53)) :=
      mul_le_mul_of_nonneg_right hy (by norm_num)
    linarith
  have l := round_double_lower (1 / p) hn
  have r := round_double_upper (1 / p) hn
  have l2 : 1 / x * (1 / (1 + 1 / 2 ^ 53)) * (1 - 1 / 2 ^ 53) ≤ 1 / p * (1 - 1 / 2 ^ 53) :=
    mul_le_mul_of_nonneg_right i1 (by norm_num)
  have r2 : 1 / p * (1 + 1 / 2 ^ 53) ≤ 1 / x * (1 / (1 - 1 / 2 ^ 53)) * (1 + 1 / 2 ^ 53) :=
    mul_le_mul_of_nonneg_right i2 (by norm_num)
  constructor
  · calc 1 / x * ((1 - 1 / 2 ^ 53) / (1 + 1 / 2 ^ 53))
        = 1 / x * (1 / (1 + 1 / 2 ^ 53)) * (1 - 1 / 2 ^ 53) := by ring
      _ ≤ _ := le_trans l2 l
  · calc round_double (1 / p) ≤ 1 / x * (1 / (1 - 1 / 2 ^ 53)) * (1 + 1 / 2 ^ 53) :=
          le_trans r r2
      _ = 1 / x * ((1 + 1 / 2 ^ 53) / (1 - 1 / 2 ^ 53)) := by ring

/-- The step `df` in double precision against the exact quotient `1 / (N * ts)`. -/
theorem df_double_bounds (N : Int) (ts : ℚ) (hN1 : 1 ≤ N) (hN2 : N ≤ 2147483647)
    (h1 : 1 / 2 ^ 1000 ≤ ts) (h2 : ts ≤ 2 ^ 900) :
    1 / ((N : ℚ) * ts) * ((1 - 1 / 2 ^ 53) / (1 + 1 / 2 ^ 53)) ≤ df_double N ts ∧
      df_double N ts ≤ 1 / ((N : ℚ) * ts) * ((1 + 1 / 2 ^ 53) / (1 - 1 / 2 ^ 53)) := by
  have hts : 0 < ts := lt_of_lt_of_le (by positivity) h1
  have hNq : (1 : ℚ) ≤ (N : ℚ) := by exact_mod_cast hN1
  have hNu : (N : ℚ) ≤ 2147483647 := by exact_mod_cast hN2
  have hx : 0 < (N : ℚ) * ts := mul_pos (by linarith) hts
  have hlow : ts ≤ (N : ℚ) * ts := by nlinarith
  have hup : (N : ℚ) * ts ≤ 2 ^ 1000 := by
    calc (N : ℚ) * ts ≤ 2147483647 * 2 ^ 900 :=
          mul_le_mul hNu h2 (le_of_lt hts) (by norm_num)
      _ ≤ 2 ^ 1000 := by norm_num
  have hn : (1 : ℚ) / 2 ^ 1022 ≤ (N : ℚ) * ts :=
    le_trans (le_trans (by norm_num) h1) hlow
  exact double_inverse_bounds _ _ hx hup (round_double_lower _ hn) (round_double_upper _ hn)

/-- The bound `fsim_max` in double precision against the exact `1 / (2 * ts)`. -/
theorem fsim_max_double_bounds (ts : ℚ) (h1 : 1 / 2 ^ 1000 ≤ ts) (h2 : ts ≤ 2 ^ 900) :
    1 / (2 * ts) * ((1 - 1 / 2 ^ 53) / (1 + 1 / 2 ^ 53)) ≤ fsim_max_double ts ∧
      fsim_max_double ts ≤ 1 / (2 * ts) * ((1 + 1 / 2 ^ 53) / (1 - 1 / 2 ^ 53)) := by
  have hts : 0 < ts := lt_of_lt_of_le (by positivity) h1
  have e : ts * 2 = 2 * ts := mul_comm _ _
  unfold fsim_max_double
  rw [e]
  have hup : 2 * ts ≤ 2 ^ 1000 := by
    calc 2 * ts ≤ 2 * 2 ^ 900 := by linarith
      _ ≤ 2 ^ 1000 := by norm_num
  have hn : (1 : ℚ) / 2 ^ 1022 ≤ 2 * ts := by
    have : (1 : ℚ) / 2 ^ 1022 ≤ 1 / 2 ^ 1000 := by norm_num
    linarith
  exact double_inverse_bounds _ _ (by linarith) hup (round_double_lower _ hn)
    (round_double_upper _ hn)

/-- Bin `k ≥ 1` in double precision against the exact `k / (N * ts)`. -/
theorem bin_double_bounds (N : Int) (ts : ℚ) (k : Nat) (hk : 1 ≤ k) (hN1 : 1 ≤ N)
    (hN2 : N ≤ 2147483647) (h1 : 1 / 2 ^ 1000 ≤ ts) (h2 : ts ≤ 2 ^ 900) :
    (k : ℚ) * (1 / ((N : ℚ) * ts))
        * ((1 - 1 / 2 ^ 53) / (1 + 1 / 2 ^ 53) * (1 - 1 / 2 ^ 53)) ≤
        round_double ((k : ℚ) * df_double N ts) ∧
      round_double ((k : ℚ) * df_double N ts) ≤
        (k : ℚ) * (1 / ((N : ℚ) * ts))
          * ((1 + 1 / 2 ^ 53) / (1 - 1 / 2 ^ 53) * (1 + 1 / 2 ^ 53)) := by
  have hts : 0 < ts := lt_of_lt_of_le (by positivity) h1
  have hNq : (1 : ℚ) ≤ (N : ℚ) := by exact_mod_cast hN1
  have hNu : (N : ℚ) ≤ 2147483647 := by exact_mod_cast hN2
  have hkq : (1 : ℚ) ≤ (k : ℚ) := by exact_mod_cast hk
  have hx : 0 < (N : ℚ) * ts := mul_pos (by linarith) hts
  have hup : (N : ℚ) * ts ≤ 2 ^ 1000 := by
    calc (N : ℚ) * ts ≤ 2147483647 * 2 ^ 900 :=
          mul_le_mul hNu h2 (le_of_lt hts) (by norm_num)
      _ ≤ 2 ^ 1000 := by norm_num
  have hD : (1 : ℚ) / 2 ^ 1000 ≤ 1 / ((N : ℚ) * ts) := one_div_le_one_div_of_le hx hup
  obtain ⟨dl, du⟩ := df_double_bounds N ts hN1 hN2 h1 h2
  have hdn : (1 : ℚ) / 2 ^ 1022 ≤ df_double N ts := by
    have c : (1 : ℚ) / 2 ^ 1022 ≤ 1 / 2 ^ 1000 * ((1 - 1 / 2 ^ 53) / (1 + 1 / 2 ^ 53)) := by
      norm_num
    have d := mul_le_mul_of_nonneg_right hD
      (by norm_num : (0 : ℚ) ≤ (1 - 1 / 2 ^ 53) / (1 + 1 / 2 ^ 53))
    linarith
  have hd0 : 0 < df_double N ts := lt_of_lt_of_le (by positivity) hdn
  have hkn : (1 : ℚ) / 2 ^ 1022 ≤ (k : ℚ) * df_double N ts := by nlinarith
  have l := round_double_lower _ hkn
  have r := round_double_upper _ hkn
  have kl := mul_le_mul_of_nonneg_left dl (by linarith : (0 : ℚ) ≤ (k : ℚ))
  have ku := mul_le_mul_of_nonneg_left du (by linarith : (0 : ℚ) ≤ (k : ℚ))
  have kl2 := mul_le_mul_of_nonneg_right kl (by norm_num : (0 : ℚ) ≤ 1 - 1 / 2 ^ 53)
  have ku2 := mul_le_mul_of_nonneg_right ku (by norm_num : (0 : ℚ) ≤ 1 + 1 / 2 ^ 53)
  constructor
  · calc (k : ℚ) * (1 / ((N : ℚ) * ts))
          * ((1 - 1 / 2 ^ 53) / (1 + 1 / 2 ^ 53) * (1 - 1 / 2 ^ 53))
        = (k : ℚ) * (1 / ((N : ℚ) * ts) * ((1 - 1 / 2 ^ 53) / (1 + 1 / 2 ^ 53)))
          * (1 - 1 / 2 ^ 53) := by ring
      _ ≤ _ := le_trans kl2 l
  · calc round_double ((k : ℚ) * df_double N ts)
        ≤ (k : ℚ) * (1 / ((N : ℚ) * ts) * ((1 + 1 / 2 ^ 53) / (1 - 1 / 2 ^ 53)))
          * (1 + 1 / 2 ^ 53) := le_trans r ku2
      _ = _ := by ring

/-! ## Double precision: the grid against the Nyquist bound -/

theorem nsamples_double_some (tmax ts : ℚ) (hts : 0 < ts) (h : ts ≤ tmax)
    (hr : round_double (tmax / ts) < 2147483648) :
    nsamples_double tmax ts = some (Int.floor (round_double (tmax / ts))) ∧
      1 ≤ Int.floor (round_double (tmax / ts)) ∧
      Int.floor (round_double (tmax / ts)) ≤ 2147483647 := by
  have hq : 1 ≤ tmax / ts := by rw [le_div_iff₀ hts, one_mul]; exact h
  have h1 : 1 ≤ round_double (tmax / ts) := round_double_one_le _ hq
  have f1 : 1 ≤ Int.floor (round_double (tmax / ts)) := by
    rw [Int.le_floor]; exact_mod_cast h1
  have f2 : Int.floor (round_double (tmax / ts)) < 2147483648 := by
    rw [Int.floor_lt]; exact_mod_cast hr
  refine ⟨?_, f1, by omega⟩
  unfold nsamples_double
  rw [if_neg (ne_of_gt hts), if_pos ⟨by omega, by omega⟩]

theorem td_freqs_double_some (tmax ts : ℚ) (hts : 0 < ts) (h : ts ≤ tmax)
    (hr : round_double (tmax / ts) < 2147483648) :
    td_freqs_double tmax ts =
      some (freq_of_interests_double (Int.floor (round_double (tmax / ts))) ts) := by
  unfold td_freqs_double
  rw [(nsamples_double_some tmax ts hts h hr).1]
  rfl

/-- Every bin `k ≥ 0` in double precision against the exact `k / (N * ts)`. -/
theorem bin_double_bounds_all (N : Int) (ts : ℚ) (k : Nat) (hN1 : 1 ≤ N)
    (hN2 : N ≤ 2147483647) (h1 : 1 / 2 ^ 1000 ≤ ts) (h2 : ts ≤ 2 ^ 900) :
    (k : ℚ) * (1 / ((N : ℚ) * ts))
        * ((1 - 1 / 2 ^ 53) / (1 + 1 / 2 ^ 53) * (1 - 1 / 2 ^ 53)) ≤
        round_double ((k : ℚ) * df_double N ts) ∧
      round_double ((k : ℚ) * df_double N ts) ≤
        (k : ℚ) * (1 / ((N : ℚ) * ts))
          * ((1 + 1 / 2 ^ 53) / (1 - 1 / 2 ^ 53) * (1 + 1 / 2 ^ 53)) := by
  rcases Nat.eq_zero_or_pos k with h0 | hpos
  · subst h0
    simp [round_double_zero]
  · exact bin_double_bounds N ts k hpos hN1 hN2 h1 h2

/-- The exact quantities behind the grid: `D = 1 / (N * ts)` and `H = 1 / (2 * ts)`
are positive and `N * D = 2 * H`. -/
theorem exact_step_facts (N : Int) (ts : ℚ) (hN1 : 1 ≤ N) (hts : 0 < ts) :
    0 < 1 / ((N : ℚ) * ts) ∧ 0 < 1 / (2 * ts) ∧
      (N : ℚ) * (1 / ((N : ℚ) * ts)) = 2 * (1 / (2 * ts)) := by
  have hNq : (1 : ℚ) ≤ (N : ℚ) := by exact_mod_cast hN1
  have hN0 : (N : ℚ) ≠ 0 := by linarith
  refine ⟨by positivity, by positivity, ?_⟩
  field_simp
  ring

/-- A bin with `2 * k ≤ N` exceeds neither the rounded nor the exact Nyquist bound by
more than the fraction `2 ^ (-50)`. -/
theorem bin_double_le (N : Int) (ts : ℚ) (k : Nat) (hk : 2 * (k : Int) ≤ N) (hN1 : 1 ≤ N)
    (hN2 : N ≤ 2147483647) (h1 : 1 / 2 ^ 1000 ≤ ts) (h2 : ts ≤ 2 ^ 900) :
    round_double ((k : ℚ) * df_double N ts) ≤ fsim_max_double ts * (1 + 1 / 2 ^ 50) ∧
      round_double ((k : ℚ) * df_double N ts) ≤ 1 / (2 * ts) * (1 + 1 / 2 ^ 50) := by
  have hts : 0 < ts := lt_of_lt_of_le (by positivity) h1
  obtain ⟨hD, hH, hND⟩ := exact_step_facts N ts hN1 hts
  obtain ⟨-, bu⟩ := bin_double_bounds_all N ts k hN1 hN2 h1 h2
  obtain ⟨fl, -⟩ := fsim_max_double_bounds ts h1 h2
  have hkq : 2 * (k : ℚ) ≤ (N : ℚ) := by exact_mod_cast hk
  have hkD : (k : ℚ) * (1 / ((N : ℚ) * ts)) ≤ 1 / (2 * ts) := by
    have := mul_le_mul_of_nonneg_right hkq (le_of_lt hD)
    linarith
  set D := 1 / ((N : ℚ) * ts)
  set H := 1 / (2 * ts)
  set kD := (k : ℚ) * D
  have c1 := mul_le_mul_of_nonneg_right hkD
    (by norm_num : (0 : ℚ) ≤ (1 + 1 / 2 ^ 53) / (1 - 1 / 2 ^ 53) * (1 + 1 / 2 ^ 53))
  have n1 : ((1 : ℚ) + 1 / 2 ^ 53) / (1 - 1 / 2 ^ 53) * (1 + 1 / 2 ^ 53)
      ≤ (1 - 1 / 2 ^ 53) / (1 + 1 / 2 ^ 53) * (1 + 1 / 2 ^ 50) := by norm_num
  have n2 : ((1 : ℚ) + 1 / 2 ^ 53) / (1 - 1 / 2 ^ 53) * (1 + 1 / 2 ^ 53) ≤ 1 + 1 / 2 ^ 50 := by
    norm_num
  have c2 := mul_le_mul_of_nonneg_left n1 (le_of_lt hH)
  have c3 := mul_le_mul_of_nonneg_left n2 (le_of_lt hH)
  have c4 := mul_le_mul_of_nonneg_right fl (by norm_num : (0 : ℚ) ≤ 1 + 1 / 2 ^ 50)
  constructor
  · calc round_double ((k : ℚ) * df_double N ts)
        ≤ kD * ((1 + 1 / 2 ^ 53) / (1 - 1 / 2 ^ 53) * (1 + 1 / 2 ^ 53)) := bu
      _ ≤ H * ((1 + 1 / 2 ^ 53) / (1 - 1 / 2 ^ 53) * (1 + 1 / 2 ^ 53)) := c1
      _ ≤ H * ((1 - 1 / 2 ^ 53) / (1 + 1 / 2 ^ 53) * (1 + 1 / 2 ^ 50)) := c2
      _ = H * ((1 - 1 / 2 ^ 53) / (1 + 1 / 2 ^ 53)) * (1 + 1 / 2 ^ 50) := by ring
      _ ≤ _ := c4
  · exact le_trans bu (le_trans c1 c3)

theorem spec_last_bin_facts (N : Int) (hN : 1 ≤ N) :
    0 ≤ spec_last_bin N ∧ 2 * spec_last_bin N ≤ N ∧
      (N % 2 = 0 → 2 * spec_last_bin N = N) ∧ (N % 2 = 1 → 2 * spec_last_bin N = N - 1) := by
  unfold spec_last_bin
  split <;> refine ⟨by omega, by omega, by omega, by omega⟩

theorem freq_of_interests_double_last (N : Int) (ts : ℚ) (hN : 1 ≤ N) :
    (freq_of_interests_double N ts).getLast? =
      some (round_double ((((spec_last_bin N).toNat : Nat) : ℚ) * df_double N ts)) := by
  have hK := fft_half_max_eq_spec N (by omega)
  obtain ⟨h0, -, -, -⟩ := spec_last_bin_facts N hN
  rw [List.getLast?_eq_getElem?, freq_of_interests_double_length, hK]
  have hidx : (spec_last_bin N + 1).toNat - 1 = (spec_last_bin N).toNat := by omega
  rw [hidx, freq_of_interests_double_getElem? N ts _ (by rw [hK]; omega)]

/-- The last bin for even `N`: within the fraction `2 ^ (-50)` of the rounded Nyquist
bound. -/
theorem top_bin_double_even (N : Int) (ts : ℚ) (k : Nat) (hk : 2 * (k : Int) = N)
    (hN1 : 1 ≤ N) (hN2 : N ≤ 2147483647) (h1 : 1 / 2 ^ 1000 ≤ ts) (h2 : ts ≤ 2 ^ 900) :
    |round_double ((k : ℚ) * df_double N ts) - fsim_max_double ts|
      ≤ fsim_max_double ts / 2 ^ 50 := by
  have hts : 0 < ts := lt_of_lt_of_le (by positivity) h1
  obtain ⟨hD, hH, hND⟩ := exact_step_facts N ts hN1 hts
  obtain ⟨bl, bu⟩ := bin_double_bounds_all N ts k hN1 hN2 h1 h2
  obtain ⟨fl, fu⟩ := fsim_max_double_bounds ts h1 h2
  have hkq : 2 * (k : ℚ) = (N : ℚ) := by exact_mod_cast hk
  have hkD : (k : ℚ) * (1 / ((N : ℚ) * ts)) = 1 / (2 * ts) := by
    have : 2 * ((k : ℚ) * (1 / ((N : ℚ) * ts))) = 2 * (1 / (2 * ts)) := by
      rw [← mul_assoc, hkq, hND]
    linarith
  rw [hkD] at bl bu
  set H := 1 / (2 * ts)
  set x := round_double ((k : ℚ) * df_double N ts)
  set y := fsim_max_double ts
  norm_num at bl bu fl fu
  rw [abs_le]
  constructor <;> linarith

/-- The last bin for odd `N`: not above the rounded Nyquist bound, and within the
fraction `2 ^ (-50)` of it from the rounded `fNyq - df / 2`. -/
theorem top_bin_double_odd (N : Int) (ts : ℚ) (k : Nat) (hk : 2 * (k : Int) = N - 1)
    (hN1 : 1 ≤ N) (hN2 : N ≤ 2147483647) (h1 : 1 / 2 ^ 1000 ≤ ts) (h2 : ts ≤ 2 ^ 900) :
    round_double ((k : ℚ) * df_double N ts) ≤ fsim_max_double ts ∧
      |round_double ((k : ℚ) * df_double N ts) - (fsim_max_double ts - df_double N ts / 2)|
        ≤ fsim_max_double ts / 2 ^ 50 := by
  have hts : 0 < ts := lt_of_lt_of_le (by positivity) h1
  obtain ⟨hD, hH, hND⟩ := exact_step_facts N ts hN1 hts
  obtain ⟨bl, bu⟩ := bin_double_bounds_all N ts k hN1 hN2 h1 h2
  obtain ⟨fl, fu⟩ := fsim_max_double_bounds ts h1 h2
  obtain ⟨dl, du⟩ := df_double_bounds N ts hN1 hN2 h1 h2
  have hkq : 2 * (k : ℚ) = (N : ℚ) - 1 := by exact_mod_cast hk
  have hNu : (N : ℚ) ≤ 2147483647 := by exact_mod_cast hN2
  have hkD : (k : ℚ) * (1 / ((N : ℚ) * ts)) = 1 / (2 * ts) - 1 / ((N : ℚ) * ts) / 2 := by
    have : 2 * ((k : ℚ) * (1 / ((N : ℚ) * ts))) =
        (N : ℚ) * (1 / ((N : ℚ) * ts)) - 1 / ((N : ℚ) * ts) := by
      rw [← mul_assoc, hkq]; ring
    rw [hND] at this
    linarith
  have hDH : 2 * (1 / (2 * ts)) ≤ 2147483647 * (1 / ((N : ℚ) * ts)) := by
    rw [← hND]
    exact mul_le_mul_of_nonneg_right hNu (le_of_lt hD)
  rw [hkD] at bl bu
  set D := 1 / ((N : ℚ) * ts)
  set H := 1 / (2 * ts)
  set x := round_double ((k : ℚ) * df_double N ts)
  set y := fsim_max_double ts
  set d := df_double N ts
  norm_num at bl bu fl fu dl du
  refine ⟨by linarith, ?_⟩
  rw [abs_le]
  constructor <;> linarith

/-! ## C6 and C19 in double precision -/

theorem double_last_66_3 :
    (td_freqs_double 66 3).bind List.getLast? = some (6004799503160662 / 2 ^ 55) := by
  unfold td_freqs_double
  rw [double_nsamples_66_3]
  show (freq_of_interests_double 22 3).getLast? = _
  rw [freq_of_interests_double_last 22 3 (by decide)]
  have e : (spec_last_bin 22).toNat = 11 := by decide
  rw [e, double_last_22_3]

theorem double_nsamples_rounds_up :
    nsamples_double (6 + 1 / 2 ^ 50) (1 + 1 / 2 ^ 52) = some 6 := by
  unfold nsamples_double
  rw [if_neg (by norm_num), double_quotient_rounds_up]
  simp

theorem double_quotient_69_3 : round_double (69 / 3) = 23 := by
  have e : (69 : ℚ) / 3 = 23 := by norm_num
  rw [e]
  exact round_double_exact 23 (-48) (23 * 2 ^ 48) (by decide) (by norm_num) (by norm_num)
    (by norm_num)

theorem double_nsamples_69_3 : nsamples_double 69 3 = some 23 := by
  unfold nsamples_double
  rw [if_neg (by norm_num), double_quotient_69_3]
  simp

theorem double_df_23_3 : df_double 23 3 = 8354503656571355 / 2 ^ 59 := by
  unfold df_double
  have e : ((23 : Int) : ℚ) * 3 = 69 := by norm_num
  rw [e, round_double_exact 69 (-46) (69 * 2 ^ 46) (by decide) (by norm_num) (by norm_num)
    (by norm_num)]
  rw [round_double_eval (1 / 69) (-59) 8354503656571355 (by decide) (by norm_num) (by norm_num)
    (round_half_even_near _ _ (by rw [abs_lt]; constructor <;> norm_num))]
  norm_num

theorem double_last_23_3 :
    round_double (((11 : Nat) : ℚ) * df_double 23 3) = 5743721263892807 / 2 ^ 55 := by
  rw [double_df_23_3]
  rw [round_double_eval _ (-55) 5743721263892807 (by decide) (by norm_num) (by norm_num)
    (round_half_even_near _ _ (by rw [abs_lt]; constructor <;> norm_num))]
  norm_num

theorem double_last_69_3 :
    (td_freqs_double 69 3).bind List.getLast? = some (5743721263892807 / 2 ^ 55) := by
  unfold td_freqs_double
  rw [double_nsamples_69_3]
  show (freq_of_interests_double 23 3).getLast? = _
  rw [freq_of_interests_double_last 23 3 (by decide)]
  have e : (spec_last_bin 23).toNat = 11 := by decide
  rw [e, double_last_23_3]

/-- C6 as stated fails for the program's `double` and `int` arithmetic. At
`tmax = 66`, `ts = 3` (`N = 22`, `K = 11`) the last bin is one unit in the last place
above `fNyq`, both the rounded `1 / (ts * 2)` and the exact `1 / 6`. At
`tmax = 6 + 2 ^ (-50)`, `ts = 1 + 2 ^ (-52)` the exact quotient has floor `5`, but the
rounded quotient is `6`, so `nsamples` is `6` and the grid has `4` bins instead of the
`3` of `N = 5`. At `tmax = 3000000000`, `ts = 1` the floor does not fit the `int`. -/
theorem C6_counterexample :
    ((td_freqs_double 66 3).bind List.getLast? = some (6004799503160662 / 2 ^ 55) ∧
        fsim_max_double 3 < 6004799503160662 / 2 ^ 55 ∧
        (1 : ℚ) / (2 * 3) < 6004799503160662 / 2 ^ 55) ∧
      (Int.floor ((6 + 1 / 2 ^ 50 : ℚ) / (1 + 1 / 2 ^ 52)) = 5 ∧
        spec_last_bin 5 + 1 = 3 ∧
        nsamples_double (6 + 1 / 2 ^ 50) (1 + 1 / 2 ^ 52) = some 6 ∧
        (td_freqs_double (6 + 1 / 2 ^ 50) (1 + 1 / 2 ^ 52)).map List.length = some 4) ∧
      ((3000000000 : ℚ) / 1 = 3000000000 ∧ nsamples_double 3000000000 1 = none) := by
  refine ⟨⟨double_last_66_3, ?_, by norm_num⟩, ⟨?_, by decide, double_nsamples_rounds_up, ?_⟩,
    by norm_num, ?_⟩
  · rw [double_fsim_max_3]; norm_num
  · rw [Int.floor_eq_iff]; constructor <;> norm_num
  · unfold td_freqs_double
    rw [double_nsamples_rounds_up]
    show some (freq_of_interests_double 6 (1 + 1 / 2 ^ 52)).length = some 4
    rw [freq_of_interests_double_length]
    rfl
  · unfold nsamples_double
    rw [if_neg (by norm_num), double_quotient_large]
    simp

/-- C6, as the program computes it in `double` and `int`: for `ts` in the normal range
(`2 ^ (-1000) ≤ ts ≤ 2 ^ 900`), `tmax ≥ ts` and a rounded quotient `tmax / ts` below
`2 ^ 31`, `nsamples` is `N = floor (round (tmax / ts)) ≥ 1`, the target grid has exactly
`K + 1` bins (`K = N / 2` for even `N`, `(N - 1) / 2` for odd `N`), bin `k` holds
`round (k * df)` with `df = round (1 / round (N * ts))`, and every bin is at most
`(1 + 2 ^ (-50))` times `fNyq`, for the rounded `fNyq = round (1 / round (ts * 2))` and
for the exact `1 / (2 * ts)`. -/
theorem C6_target_grid_double (tmax ts : ℚ) (h1 : 1 / 2 ^ 1000 ≤ ts) (h2 : ts ≤ 2 ^ 900)
    (h : ts ≤ tmax) (hr : round_double (tmax / ts) < 2147483648) :
    ∃ N grid, nsamples_double tmax ts = some N ∧ td_freqs_double tmax ts = some grid ∧
      N = Int.floor (round_double (tmax / ts)) ∧ 1 ≤ N ∧
      (grid.length : Int) = spec_last_bin N + 1 ∧
      (∀ k : Nat, (k : Int) ≤ spec_last_bin N →
        grid[k]? = some
          (round_double ((k : ℚ) * round_double (1 / round_double ((N : ℚ) * ts))))) ∧
      (∀ x ∈ grid, x ≤ round_double (1 / round_double (ts * 2)) * (1 + 1 / 2 ^ 50) ∧
        x ≤ 1 / (2 * ts) * (1 + 1 / 2 ^ 50)) := by
  have hts : 0 < ts := lt_of_lt_of_le (by positivity) h1
  obtain ⟨hn, hN1, hN2⟩ := nsamples_double_some tmax ts hts h hr
  have hg := td_freqs_double_some tmax ts hts h hr
  set N := Int.floor (round_double (tmax / ts)) with hNdef
  have hK := fft_half_max_eq_spec N (by omega)
  obtain ⟨hK0, hK2, -, -⟩ := spec_last_bin_facts N hN1
  refine ⟨N, freq_of_interests_double N ts, hn, hg, rfl, hN1, ?_, ?_, ?_⟩
  · rw [freq_of_interests_double_length, hK]; omega
  · intro k hk
    rw [freq_of_interests_double_getElem? N ts k (by rw [hK]; omega)]
    rfl
  · intro x hx
    obtain ⟨k, hk, rfl⟩ := List.getElem_of_mem hx
    rw [freq_of_interests_double_length, hK] at hk
    have e : (freq_of_interests_double N ts)[k]? =
        some (round_double ((k : ℚ) * df_double N ts)) :=
      freq_of_interests_double_getElem? N ts k (by rw [hK]; omega)
    rw [List.getElem?_eq_getElem (by rw [freq_of_interests_double_length, hK]; omega)] at e
    rw [Option.some.inj e]
    exact bin_double_le N ts k (by omega) hN1 hN2 h1 h2

/-- C6 in double precision at `tmax = 66`, `ts = 3` (`N = 22`, twelve bins): the
last bin is above `fNyq` and within the stated fraction of it. -/
theorem C6_target_grid_double_witness :
    ((1 : ℚ) / 2 ^ 1000 ≤ 3 ∧ (3 : ℚ) ≤ 2 ^ 900 ∧ (3 : ℚ) ≤ 66 ∧
      round_double (66 / 3) < 2147483648) ∧
    ∃ N grid, nsamples_double 66 3 = some N ∧ td_freqs_double 66 3 = some grid ∧
      N = Int.floor (round_double (66 / 3)) ∧ 1 ≤ N ∧
      (grid.length : Int) = spec_last_bin N + 1 ∧
      (∀ k : Nat, (k : Int) ≤ spec_last_bin N →
        grid[k]? = some
          (round_double ((k : ℚ) * round_double (1 / round_double ((N : ℚ) * 3))))) ∧
      (∀ x ∈ grid, x ≤ round_double (1 / round_double (3 * 2)) * (1 + 1 / 2 ^ 50) ∧
        x ≤ 1 / (2 * 3) * (1 + 1 / 2 ^ 50)) :=
  ⟨⟨by norm_num, by norm_num, by norm_num, by rw [double_quotient_66_3]; norm_num⟩,
    C6_target_grid_double 66 3 (by norm_num) (by norm_num) (by norm_num)
      (by rw [double_quotient_66_3]; norm_num)⟩

/-- C19 as stated fails for the program's `double` arithmetic. At `tmax = 66`, `ts = 3`
(`N = 22`, even) the last bin is not `fNyq` but one unit in the last place above it,
so the grid exceeds `fNyq`. At `tmax = 69`, `ts = 3` (`N = 23`, odd) the last bin
differs from `fNyq - df / 2` by `27 * 2 ^ (-60)`. -/
theorem C19_counterexample :
    (nsamples_double 66 3 = some 22 ∧ (22 : Int) % 2 = 0 ∧
        (td_freqs_double 66 3).bind List.getLast? = some (6004799503160662 / 2 ^ 55) ∧
        fsim_max_double 3 = 6004799503160661 / 2 ^ 55 ∧
        (6004799503160662 : ℚ) / 2 ^ 55 ≠ fsim_max_double 3 ∧
        ¬ ((6004799503160662 : ℚ) / 2 ^ 55 ≤ fsim_max_double 3)) ∧
      (nsamples_double 69 3 = some 23 ∧ (23 : Int) % 2 = 1 ∧
        (td_freqs_double 69 3).bind List.getLast? = some (5743721263892807 / 2 ^ 55) ∧
        (5743721263892807 : ℚ) / 2 ^ 55 - (fsim_max_double 3 - df_double 23 3 / 2) =
          27 / 2 ^ 60) := by
  refine ⟨⟨double_nsamples_66_3, by decide, double_last_66_3, double_fsim_max_3, ?_, ?_⟩,
    double_nsamples_69_3, by decide, double_last_69_3, ?_⟩
  · rw [double_fsim_max_3]; norm_num
  · rw [double_fsim_max_3]; norm_num
  · rw [double_fsim_max_3, double_df_23_3]; norm_num

/-- C19, as the program computes it in `double` and `int`: for `ts` in the normal range
(`2 ^ (-1000) ≤ ts ≤ 2 ^ 900`), `tmax ≥ ts` and a rounded quotient `tmax / ts` below
`2 ^ 31`, one has `N = floor (round (tmax / ts)) ≥ 1` and `df = round (1 / round (N * ts))`
positive; with `fNyq = round (1 / round (ts * 2))`, the last bin is within
`fNyq * 2 ^ (-50)` of `fNyq` when `N` is even, and when `N` is odd it is at most
`fNyq` and within `fNyq * 2 ^ (-50)` of `fNyq - df / 2`. -/
theorem C19_top_bin_double (tmax ts : ℚ) (h1 : 1 / 2 ^ 1000 ≤ ts) (h2 : ts ≤ 2 ^ 900)
    (h : ts ≤ tmax) (hr : round_double (tmax / ts) < 2147483648) :
    ∃ N last, nsamples_double tmax ts = some N ∧
      (td_freqs_double tmax ts).bind List.getLast? = some last ∧
      N = Int.floor (round_double (tmax / ts)) ∧ 1 ≤ N ∧
      0 < round_double (1 / round_double ((N : ℚ) * ts)) ∧
      (N % 2 = 0 →
        |last - round_double (1 / round_double (ts * 2))|
          ≤ round_double (1 / round_double (ts * 2)) / 2 ^ 50) ∧
      (N % 2 = 1 →
        last ≤ round_double (1 / round_double (ts * 2)) ∧
        |last - (round_double (1 / round_double (ts * 2))
            - round_double (1 / round_double ((N : ℚ) * ts)) / 2)|
          ≤ round_double (1 / round_double (ts * 2)) / 2 ^ 50) := by
  have hts : 0 < ts := lt_of_lt_of_le (by positivity) h1
  obtain ⟨hn, hN1, hN2⟩ := nsamples_double_some tmax ts hts h hr
  have hg := td_freqs_double_some tmax ts hts h hr
  set N := Int.floor (round_double (tmax / ts)) with hNdef
  obtain ⟨hK0, -, hev, hod⟩ := spec_last_bin_facts N hN1
  obtain ⟨hD, -, -⟩ := exact_step_facts N ts hN1 hts
  obtain ⟨dl, -⟩ := df_double_bounds N ts hN1 hN2 h1 h2
  have hcast : (((spec_last_bin N).toNat : Nat) : Int) = spec_last_bin N := by omega
  refine ⟨N, round_double ((((spec_last_bin N).toNat : Nat) : ℚ) * df_double N ts), hn, ?_, rfl,
    hN1, ?_, ?_, ?_⟩
  · rw [hg]
    exact freq_of_interests_double_last N ts hN1
  · have : 0 < 1 / ((N : ℚ) * ts) * ((1 - 1 / 2 ^ 53) / (1 + 1 / 2 ^ 53)) :=
      mul_pos hD (by norm_num)
    exact lt_of_lt_of_le this dl
  · intro he
    exact top_bin_double_even N ts _ (by rw [hcast]; exact hev he) hN1 hN2 h1 h2
  · intro ho
    exact top_bin_double_odd N ts _ (by rw [hcast]; exact hod ho) hN1 hN2 h1 h2

/-- C19 in double precision at `tmax = 69`, `ts = 3` (`N = 23`, odd). -/
theorem C19_top_bin_double_witness :
    ((1 : ℚ) / 2 ^ 1000 ≤ 3 ∧ (3 : ℚ) ≤ 2 ^ 900 ∧ (3 : ℚ) ≤ 69 ∧
      round_double (69 / 3) < 2147483648) ∧
    ∃ N last, nsamples_double 69 3 = some N ∧
      (td_freqs_double 69 3).bind List.getLast? = some last ∧
      N = Int.floor (round_double (69 / 3)) ∧ 1 ≤ N ∧
      0 < round_double (1 / round_double ((N : ℚ) * 3)) ∧
      (N % 2 = 0 →
        |last - round_double (1 / round_double (3 * 2))|
          ≤ round_double (1 / round_double (3 * 2)) / 2 ^ 50) ∧
      (N % 2 = 1 →
        last ≤ round_double (1 / round_double (3 * 2)) ∧
        |last - (round_double (1 / round_double (3 * 2))
            - round_double (1 / round_double ((N : ℚ) * 3)) / 2)|
          ≤ round_double (1 / round_double (3 * 2)) / 2 ^ 50) :=
  ⟨⟨by norm_num, by norm_num, by norm_num, by rw [double_quotient_69_3]; norm_num⟩,
    C19_top_bin_double 69 3 (by norm_num) (by norm_num) (by norm_num)
      (by rw [double_quotient_69_3]; norm_num)⟩

end AriaUwb
